import Mathlib

/-!
# FAT32 driver of the Nautilus kernel (`src/fs/fatfs/fatfs.c`)

A shallow embedding of the file operations of the driver and theorems about
them.  Memory (the block device, the in-memory FAT, buffers) is a function
from an index to a value; bytes are natural numbers below 256.  The block
device transfers whole sectors: block `b` occupies the device bytes
`[b * sector_size, (b + 1) * sector_size)`.

Loops carry a fuel argument.  An exhausted fuel is reported as `none` and is
never confused with the C return value `-1`.  A block transfer that is larger
than the array it goes to, and a store behind the end of an array, have no
defined result in C; `update_dir_size` and `fatfs_rename`, where the array is
declared with another size than the transfer, report them as `none` as well.

`fatfs_helper.c` and `fatfs.h` are not part of the available sources.  What
the operations use from them is either taken as a parameter (`path_lookup`,
`filename_parser`) or modelled from the specification; each such definition
says so.
-/

namespace Fatfs

/-! ## Constants and small macros -/

/-- Modelled from the spec: `EOC_MIN` (declared in `fatfs.h`), the smallest
end-of-chain value. -/
def EOC_MIN : Nat := 0x0FFFFFF8

/-- Modelled from the spec: `EOC_MAX` (declared in `fatfs.h`), the largest
end-of-chain value. -/
def EOC_MAX : Nat := 0x0FFFFFFF

/-- Modelled from the spec: `FREE_CLUSTER` (declared in `fatfs.h`), the FAT
value of a free cluster. -/
def FREE_CLUSTER : Nat := 0

/-- The kernel macro `MIN(x, y)` on unsigned operands. -/
def MIN (x y : Nat) : Nat := if x < y then x else y

/-- The kernel macro `MIN(x, y)` on signed (`long`) operands. -/
def MINl (x y : Int) : Int := if x < y then x else y

/-- The kernel macro `FLOOR_DIV(x, y)`. -/
def FLOOR_DIV (x y : Nat) : Nat := x / y

/-- The kernel macro `CEIL_DIV(x, y)`: the quotient, plus one when the
division leaves a remainder. -/
def CEIL_DIV (x y : Nat) : Nat := x / y + (if x % y = 0 then 0 else 1)

/-- Modelled from the spec: `DECODE_CLUSTER(high, low)` (declared in
`fatfs.h`); `high` is the upper 16 bits of the cluster number. -/
def DECODE_CLUSTER (high low : Nat) : Nat := high * 65536 + low

/-- Modelled from the spec: `EXTRACT_HIGH_CLUSTER(c)` (declared in
`fatfs.h`), the upper 16 bits of a 32-bit cluster number. -/
def EXTRACT_HIGH_CLUSTER (c : Nat) : Nat := c / 65536 % 65536

/-- Modelled from the spec: `EXTRACT_LOW_CLUSTER(c)` (declared in
`fatfs.h`), the lower 16 bits of a cluster number. -/
def EXTRACT_LOW_CLUSTER (c : Nat) : Nat := c % 65536

/-! ## Data model -/

/-- The fields of `struct fatfs_bootrecord` that the operations read.
`cluster_size` counts sectors per cluster. -/
structure fatfs_bootrecord where
  sector_size : Nat
  cluster_size : Nat
  reservedblock_size : Nat
  FAT_num : Nat
  fatfs_size : Nat
  rootdir_cluster : Nat
  directory_entry_num : Nat

/-- The fields of `struct fatfs_char`.  `fatfs_begin` is the in-memory FAT:
`fatfs_begin i` is the 32-bit word at index `i` from the base of the table
(the C code indexes it without a bound). -/
structure fatfs_char where
  fatfs_begin : Nat → Nat
  fatfs_size : Nat
  data_start : Nat
  data_end : Nat

/-- The block device: `num_blocks` sectors of content `mem` (byte addressed). -/
structure nk_block_dev where
  num_blocks : Nat
  mem : Nat → Nat

/-- The driver state, `struct fatfs_state`. -/
structure fatfs_state where
  dev : nk_block_dev
  bootrecord : fatfs_bootrecord
  table_chars : fatfs_char

/-- Modelled from the spec: `dir_entry` (declared in `fatfs.h`), the copy of
a directory entry that `path_lookup` hands back.  `attris` is the attribute
byte. -/
structure dir_entry where
  name : List Nat
  ext : List Nat
  attris : Nat
  high_cluster : Nat
  low_cluster : Nat
  size : Nat

/-- Modelled from the spec: the `readonly` bit of the attribute byte (bit 0
of the standard FAT attribute byte). -/
def dir_entry.readonly (d : dir_entry) : Nat := d.attris % 2

/-- What `path_lookup` returns: its `int` result `dir_num` (`-1` when the
path does not resolve) and its two out-parameters. -/
structure lookup_result where
  dir_num : Int
  dir_cluster_num : Nat
  dir_ent : dir_entry

/-- The type of `path_lookup(fs, path, &dir_cluster_num, &dir_ent, flag)`.
The function is defined in `fatfs_helper.c`; the operations take it as a
parameter.  A path is the list of its bytes. -/
abbrev PathLookup : Type := fatfs_state → List Nat → Nat → lookup_result

/-! ## Layout of a directory entry in a sector

Modelled from the spec: the 32-byte record with the standard FAT offsets
(`name` 0, `ext` 8, attribute byte 11, `high_cluster` 20, `low_cluster` 26,
`size` 28); multi-byte fields are little endian. -/

def DIR_ENTRY_SIZE : Nat := 32
def OFF_NAME : Nat := 0
def OFF_EXT : Nat := 8
def OFF_ATTR : Nat := 11
def OFF_HIGH : Nat := 20
def OFF_LOW : Nat := 26
def OFF_SIZE : Nat := 28

/-- Byte `k` of the little-endian representation of `v`. -/
def le_byte (v k : Nat) : Nat := v / 256 ^ k % 256

/-- The little-endian value of the `n` bytes of `m` starting at `a`. -/
def le_load (m : Nat → Nat) (a : Nat) : Nat → Nat
  | 0 => 0
  | n + 1 => m a + 256 * le_load m (a + 1) n

/-- Store `v` in the `n` bytes of `m` starting at `a`, little endian. -/
def le_store (m : Nat → Nat) (a n v : Nat) : Nat → Nat :=
  fun i => if a ≤ i ∧ i < a + n then le_byte v (i - a) else m i

/-- The C library `memcpy(dst + d, src + s, n)`. -/
def memcpy (dst : Nat → Nat) (d : Nat) (src : Nat → Nat) (s n : Nat) : Nat → Nat :=
  fun i => if d ≤ i ∧ i < d + n then src (s + (i - d)) else dst i

/-- The C library `memcpy(dst + d, src + s, n)` with a signed destination
offset; only the bytes at non-negative indices of `dst` are tracked. -/
def memcpy_off (dst : Nat → Nat) (d : Int) (src : Nat → Nat) (s n : Nat) : Nat → Nat :=
  fun i => if d ≤ (i : Int) ∧ (i : Int) < d + n then src (s + ((i : Int) - d).toNat) else dst i

/-- The C library `memset(dst + d, v, n)`. -/
def memset (dst : Nat → Nat) (d v n : Nat) : Nat → Nat :=
  fun i => if d ≤ i ∧ i < d + n then v else dst i

/-! ## Block device and address helpers -/

/-- Modelled from the spec: `get_cluster_size(fs)` (defined in
`fatfs_helper.c`), the size of a cluster in bytes. -/
def get_cluster_size (fs : fatfs_state) : Nat :=
  fs.bootrecord.cluster_size * fs.bootrecord.sector_size

/-- Modelled from the spec: `get_sector_num(c, fs)` (defined in
`fatfs_helper.c`), the first sector of cluster `c`:
`reserved + FAT_count × sectors_per_FAT + (c − rootdir_cluster) × sectors_per_cluster`. -/
def get_sector_num (c : Nat) (fs : fatfs_state) : Nat :=
  fs.bootrecord.reservedblock_size + fs.bootrecord.FAT_num * fs.bootrecord.fatfs_size
    + (c - fs.bootrecord.rootdir_cluster) * fs.bootrecord.cluster_size

/-- The kernel call `nk_block_dev_read(dev, blocknum, count, dest, ...)`: `none`
when the transfer fails (it leaves the device), otherwise the destination
buffer with its first `count` sectors overwritten. -/
def nk_block_dev_read (fs : fatfs_state) (blocknum count : Nat) (dest : Nat → Nat) :
    Option (Nat → Nat) :=
  if blocknum + count ≤ fs.dev.num_blocks then
    some (fun i => if i < count * fs.bootrecord.sector_size
      then fs.dev.mem (blocknum * fs.bootrecord.sector_size + i) else dest i)
  else none

/-- The content of the device after `count` sectors from `src` have been
written at `blocknum`. -/
def dev_store (fs : fatfs_state) (blocknum count : Nat) (src : Nat → Nat) : Nat → Nat :=
  fun a => if blocknum * fs.bootrecord.sector_size ≤ a ∧
      a < (blocknum + count) * fs.bootrecord.sector_size
    then src (a - blocknum * fs.bootrecord.sector_size) else fs.dev.mem a

/-- The kernel call `nk_block_dev_write(dev, blocknum, count, src, ...)`: `none`
when the transfer fails, otherwise the state with the new device content. -/
def nk_block_dev_write (fs : fatfs_state) (blocknum count : Nat) (src : Nat → Nat) :
    Option fatfs_state :=
  if blocknum + count ≤ fs.dev.num_blocks then
    some { fs with dev := { fs.dev with mem := dev_store fs blocknum count src } }
  else none

/-! ## The FAT manager (`fatfs_helper.c`, modelled from the spec) -/

/-- The in-memory FAT with entry `i` set to `v`. -/
def fat_set (fat : Nat → Nat) (i v : Nat) : Nat → Nat :=
  fun j => if j = i then v else fat j

/-- The state with `fatfs_begin[i] = v`. -/
def set_fat_entry (fs : fatfs_state) (i v : Nat) : fatfs_state :=
  { fs with table_chars := { fs.table_chars with fatfs_begin := fat_set fs.table_chars.fatfs_begin i v } }

/-- The bytes of the in-memory FAT, as the block device sees the table
(32-bit little-endian words). -/
def fat_bytes (fat : Nat → Nat) : Nat → Nat :=
  fun j => le_byte (fat (j / 4)) (j % 4)

/-- Smallest valid cluster number, `fs->bootrecord.rootdir_cluster`. -/
def cluster_min (fs : fatfs_state) : Nat := fs.bootrecord.rootdir_cluster

/-- Largest valid cluster number, `data_end - data_start`. -/
def cluster_max (fs : fatfs_state) : Nat := fs.table_chars.data_end - fs.table_chars.data_start

/-- Linear scan of `n` FAT entries from index `c` upward for the first FREE one. -/
def find_free_from (fat : Nat → Nat) : Nat → Nat → Option Nat
  | 0, _ => none
  | n + 1, c => if fat c = FREE_CLUSTER then some c else find_free_from fat n (c + 1)

/-- Modelled from the spec: `find_free` (defined in `fatfs_helper.c`), a
linear scan from `rootdir_cluster` upward, over the valid cluster numbers,
for the first FREE entry; `none` is OUT_OF_SPACE. -/
def find_free (fat : Nat → Nat) (cmin cmax : Nat) : Option Nat :=
  find_free_from fat (cmax + 1 - cmin) cmin

/-- Modelled from the spec: the growth of `grow_shrink_chain`: `n` times,
take the first free cluster, make the tail point at it and mark it as the
new end of the chain. -/
def grow_links (cmin cmax : Nat) : Nat → (Nat → Nat) → Nat → Option (Nat → Nat)
  | 0, fat, _ => some fat
  | n + 1, fat, tail =>
    match find_free fat cmin cmax with
    | none => none
    | some c => grow_links cmin cmax n (fat_set (fat_set fat tail c) c EOC_MAX) c

/-- Modelled from the spec: the shrinking of `grow_shrink_chain`: walk `n`
steps along the chain from cluster `c`, writing FREE into every cluster
visited; `none` when the chain ends or leaves the valid range before that. -/
def free_links (cmin cmax : Nat) : Nat → (Nat → Nat) → Nat → Option (Nat → Nat)
  | 0, fat, _ => some fat
  | n + 1, fat, c =>
    if cmin ≤ c ∧ c ≤ cmax then free_links cmin cmax n (fat_set fat c FREE_CLUSTER) (fat c)
    else none

/-- Modelled from the spec: `flush` (defined in `fatfs_helper.c`) writes the
in-memory FAT to both on-disk copies; `fatfs_remove` does the same inline. -/
def flush_FAT (fs : fatfs_state) : Option fatfs_state :=
  match nk_block_dev_write fs fs.bootrecord.reservedblock_size fs.table_chars.fatfs_size
      (fat_bytes fs.table_chars.fatfs_begin) with
  | none => none
  | some fs1 =>
    nk_block_dev_write fs1 (fs.bootrecord.reservedblock_size + fs.table_chars.fatfs_size)
      fs.table_chars.fatfs_size (fat_bytes fs.table_chars.fatfs_begin)

/-- The state with the in-memory FAT replaced by `fat`. -/
def with_fat (fs : fatfs_state) (fat : Nat → Nat) : fatfs_state :=
  { fs with table_chars := { fs.table_chars with fatfs_begin := fat } }

/-- Modelled from the spec: `grow_shrink_chain(fs, cluster_num, delta)`
(defined in `fatfs_helper.c`).  For `delta > 0` it links `delta` free
clusters behind `cluster_num`, or allocates a new chain of `delta` clusters
and returns its first cluster when `cluster_num` is `-1`; for `delta < 0` it
makes `cluster_num` the end of the chain and frees the `|delta|` clusters
behind it.  A success has flushed both FAT copies; a failure returns `-1`
and leaves the state as it was found. -/
def grow_shrink_chain (fs : fatfs_state) (cluster_num delta : Int) : fatfs_state × Int :=
  if delta > 0 then
    if cluster_num = -1 then
      match find_free fs.table_chars.fatfs_begin (cluster_min fs) (cluster_max fs) with
      | none => (fs, -1)
      | some head =>
        match grow_links (cluster_min fs) (cluster_max fs) (delta.toNat - 1)
            (fat_set fs.table_chars.fatfs_begin head EOC_MAX) head with
        | none => (fs, -1)
        | some fat1 =>
          match flush_FAT (with_fat fs fat1) with
          | none => (fs, -1)
          | some fs1 => (fs1, head)
    else
      match grow_links (cluster_min fs) (cluster_max fs) delta.toNat
          fs.table_chars.fatfs_begin cluster_num.toNat with
      | none => (fs, -1)
      | some fat1 =>
        match flush_FAT (with_fat fs fat1) with
        | none => (fs, -1)
        | some fs1 => (fs1, 0)
  else if delta < 0 then
    match free_links (cluster_min fs) (cluster_max fs) (-delta).toNat
        fs.table_chars.fatfs_begin (fs.table_chars.fatfs_begin cluster_num.toNat) with
    | none => (fs, -1)
    | some fat1 =>
      match flush_FAT (with_fat fs (fat_set fat1 cluster_num.toNat EOC_MAX)) with
      | none => (fs, -1)
      | some fs1 => (fs1, 0)
  else (fs, 0)

/-! ## `fatfs_read_write` -/

/-- How a loop of an operation ends: it is left normally with the values of
its variables, or the operation returns from inside it. -/
inductive Step (α : Type) where
  | next (a : α)
  | ret (r : Int) (fs : fatfs_state)

/-- The result of `fatfs_read_write`: the returned value, the state and the
caller's buffer (`none` for a NULL pointer). -/
structure rw_result where
  ret : Int
  fs : fatfs_state
  srcdest : Option (Nat → Nat)

/-- Lines 105-119: scan the FAT chain for the cluster the offset falls in.
`none` is an exhausted fuel, `some none` the `return -1`. -/
def seek_loop (fat : Nat → Nat) (cluster_size cluster_min cluster_max : Nat) :
    Nat → Nat → Nat → Option (Option (Nat × Nat))
  | 0, _, _ => none
  | fuel + 1, cluster_num, remainder =>
    if remainder > cluster_size then
      let next := fat cluster_num
      if next ≥ EOC_MIN ∧ next ≤ EOC_MAX then some none
      else if next < cluster_min ∨ next > cluster_max then some none
      else seek_loop fat cluster_size cluster_min cluster_max fuel next (remainder - cluster_size)
    else some (some (cluster_num, remainder))

/-- Lines 130-149: the `do ... while (src_off < num_bytes)` loop of a write
that needs no new block.  The loop variables are the state, the scratch
buffer `buf`, `cluster_num`, `remainder` and `src_off`.  The seek leaves
`remainder ≤ cluster_size` and `MIN` keeps `src_off ≤ num_bytes`, so neither
subtraction wraps. -/
def write_inplace_loop (src : Nat → Nat) (num_bytes cluster_size : Nat) :
    Nat → fatfs_state → (Nat → Nat) → Nat → Nat → Nat → Option (Step (fatfs_state × Nat))
  | 0, _, _, _, _, _ => none
  | fuel + 1, fs, buf, cluster_num, remainder, src_off =>
    match nk_block_dev_read fs (get_sector_num cluster_num fs) fs.bootrecord.cluster_size buf with
    | none => some (Step.ret (-1) fs)
    | some buf1 =>
      let n := MIN (cluster_size - remainder) (num_bytes - src_off)
      let buf2 := memcpy buf1 remainder src src_off n
      match nk_block_dev_write fs (get_sector_num cluster_num fs) fs.bootrecord.cluster_size buf2 with
      | none => some (Step.ret (-1) fs)
      | some fs1 =>
        let src_off1 := src_off + n
        let next := fs1.table_chars.fatfs_begin cluster_num
        if src_off1 < num_bytes then
          write_inplace_loop src num_bytes cluster_size fuel fs1 buf2 next 0 src_off1
        else some (Step.next (fs1, src_off1))

/-- Lines 153-176: the `while (!(next >= EOC_MIN && next <= EOC_MAX))` loop
that fills the clusters the file already has.  It is left with the state,
the scratch buffer, `cluster_num` and `src_off`. -/
def write_fill_loop (src : Nat → Nat) (num_bytes cluster_size cluster_min cluster_max : Nat) :
    Nat → fatfs_state → (Nat → Nat) → Nat → Nat → Nat → Nat →
      Option (Step (fatfs_state × (Nat → Nat) × Nat × Nat))
  | 0, _, _, _, _, _, _ => none
  | fuel + 1, fs, buf, next, cluster_num, remainder, src_off =>
    if ¬ (next ≥ EOC_MIN ∧ next ≤ EOC_MAX) then
      let cluster_num1 := next
      match nk_block_dev_read fs (get_sector_num cluster_num1 fs) fs.bootrecord.cluster_size buf with
      | none => some (Step.ret (-1) fs)
      | some buf1 =>
        let n := MIN (cluster_size - remainder) (num_bytes - src_off)
        let buf2 := memcpy buf1 remainder src src_off n
        match nk_block_dev_write fs (get_sector_num cluster_num1 fs) fs.bootrecord.cluster_size buf2 with
        | none => some (Step.ret (-1) fs)
        | some fs1 =>
          let src_off1 := src_off + n
          let next1 := fs1.table_chars.fatfs_begin cluster_num1
          if next1 < cluster_min ∨ (next1 > cluster_max ∧ next1 < EOC_MIN) then
            some (Step.ret (-1) fs1)
          else
            write_fill_loop src num_bytes cluster_size cluster_min cluster_max
              fuel fs1 buf2 next1 cluster_num1 0 src_off1
    else some (Step.next (fs, buf, cluster_num, src_off))

/-- Lines 188-200: the `do ... while (num_bytes > src_off)` loop that writes
the freshly allocated clusters. -/
def write_new_loop (src : Nat → Nat) (num_bytes cluster_size : Nat) :
    Nat → fatfs_state → (Nat → Nat) → Nat → Nat → Option (Step (fatfs_state × Nat))
  | 0, _, _, _, _ => none
  | fuel + 1, fs, buf, cluster_num, src_off =>
    let n := MIN cluster_size (num_bytes - src_off)
    let buf1 := memcpy (memset buf 0 0 cluster_size) 0 src src_off n
    match nk_block_dev_write fs (get_sector_num cluster_num fs) fs.bootrecord.cluster_size buf1 with
    | none => some (Step.ret (-1) fs)
    | some fs1 =>
      let src_off1 := src_off + n
      let cluster_num1 := fs1.table_chars.fatfs_begin cluster_num
      if num_bytes > src_off1 then
        write_new_loop src num_bytes cluster_size fuel fs1 buf1 cluster_num1 src_off1
      else some (Step.next (fs1, src_off1))

/-- Lines 226-255: the `do ... while (to_be_read > 0)` loop of a read.  The
loop variables are the scratch buffer, the destination, `cluster_num`,
`remainder`, `to_be_read` and `dest_off` (both `long`).  The result is the
destination buffer, paired with `false` when a device read failed (the
`return -1`). -/
def read_loop (fs : fatfs_state) (cluster_size : Nat) :
    Nat → (Nat → Nat) → (Nat → Nat) → Nat → Nat → Int → Int → Option (Bool × (Nat → Nat))
  | 0, _, _, _, _, _, _ => none
  | fuel + 1, buf, dest, cluster_num, remainder, to_be_read, dest_off =>
    match nk_block_dev_read fs (get_sector_num cluster_num fs) fs.bootrecord.cluster_size buf with
    | none => some (false, dest)
    | some buf1 =>
      let dest1 :=
        if remainder > 0 then
          memcpy_off dest dest_off buf1 remainder
            (MINl ((cluster_size : Int) - remainder) to_be_read).toNat
        else memcpy_off dest dest_off buf1 0 (MINl to_be_read cluster_size).toNat
      let to_be_read1 : Int :=
        if remainder > 0 then to_be_read - cluster_size + remainder
        else to_be_read - cluster_size
      let dest_off1 : Int :=
        if remainder > 0 then dest_off + MINl ((cluster_size : Int) - remainder) to_be_read1
        else dest_off + MINl to_be_read cluster_size
      let next := fs.table_chars.fatfs_begin cluster_num
      if next ≥ EOC_MIN ∧ next ≤ EOC_MAX then some (true, dest1)
      else if to_be_read1 > 0 then read_loop fs cluster_size fuel buf1 dest1 next 0 to_be_read1 dest_off1
      else some (true, dest1)

/-- Lines 203-218 of `fatfs_read_write`: read the directory cluster, set
`dir_buf[dir_num].size` and write the cluster back.  The array `dir_buf` is
declared with `directory_entry_num` entries (line 204) and the transfers move
`cluster_size` sectors.  `some none` is a failed transfer (the `return -1`);
`none` is a transfer of more bytes than the array holds, or an index
`dir_num` behind its end, for which C defines no result. -/
def update_dir_size (fs : fatfs_state) (dir_cluster_num dir_num new_file_size : Nat) :
    Option (Option fatfs_state) :=
  match nk_block_dev_read fs (get_sector_num dir_cluster_num fs) fs.bootrecord.cluster_size
      (fun _ => 0) with
  | none => some none
  | some dir_buf =>
    if fs.bootrecord.cluster_size * fs.bootrecord.sector_size
        ≤ fs.bootrecord.directory_entry_num * DIR_ENTRY_SIZE ∧
        dir_num < fs.bootrecord.directory_entry_num then
      some (nk_block_dev_write fs (get_sector_num dir_cluster_num fs) fs.bootrecord.cluster_size
        (le_store dir_buf (dir_num * DIR_ENTRY_SIZE + OFF_SIZE) 4 new_file_size))
    else none

/-- Lines 150-220: the branch of a write that reaches the end of the file.
`none` is an exhausted fuel or the undefined update of the directory entry. -/
def write_extend (src : Nat → Nat) (fuel : Nat) (fs : fatfs_state)
    (dir_cluster_num dir_num offset num_bytes cluster_size cluster_num remainder : Nat) :
    Option (Int × fatfs_state) :=
  match write_fill_loop src num_bytes cluster_size (cluster_min fs) (cluster_max fs)
      fuel fs (fun _ => 0) cluster_num cluster_num remainder 0 with
  | none => none
  | some (Step.ret r fs1) => some (r, fs1)
  | some (Step.next (fs1, buf, cluster_num1, src_off)) =>
    let num_allocate : Nat := CEIL_DIV (num_bytes - src_off) cluster_size % 2 ^ 32
    let after_new : Option (Step (fatfs_state × Nat)) :=
      if num_allocate > 0 then
        match grow_shrink_chain fs1 (cluster_num1 : Int) (num_allocate : Int) with
        | (fs2, rc) =>
          if rc = -1 then some (Step.ret (-1) fs2)
          else
            write_new_loop src num_bytes cluster_size fuel fs2 buf
              (fs2.table_chars.fatfs_begin cluster_num1) src_off
      else some (Step.next (fs1, src_off))
    match after_new with
    | none => none
    | some (Step.ret r fs3) => some (r, fs3)
    | some (Step.next (fs3, src_off1)) =>
      match update_dir_size fs3 dir_cluster_num dir_num ((offset + num_bytes) % 2 ^ 32) with
      | none => none
      | some none => some (-1, fs3)
      | some (some fs4) => some (src_off1, fs4)

/-- The function `fatfs_read_write(state, file, srcdest, offset, num_bytes, write)`.
`offset` is a non-negative `off_t`.  `none` is an exhausted fuel or, for an
extending write, the undefined update of the directory entry
(`update_dir_size`). -/
def fatfs_read_write (path_lookup : PathLookup) (fuel : Nat) (fs : fatfs_state)
    (file : List Nat) (srcdest : Option (Nat → Nat)) (offset num_bytes write : Nat) :
    Option rw_result :=
  match srcdest with
  | none => some ⟨-1, fs, none⟩
  | some sd =>
    let write := write % 2
    let lk := path_lookup fs file 0
    if lk.dir_num = -1 then some ⟨-1, fs, srcdest⟩
    else
      let file_size := lk.dir_ent.size
      if offset > file_size then some ⟨-1, fs, srcdest⟩
      else if offset = file_size ∧ write = 0 then some ⟨0, fs, srcdest⟩
      else if write ≠ 0 ∧ lk.dir_ent.readonly ≠ 0 then some ⟨-1, fs, srcdest⟩
      else
        let cluster_size := get_cluster_size fs
        let cluster_num := DECODE_CLUSTER lk.dir_ent.high_cluster lk.dir_ent.low_cluster
        match seek_loop fs.table_chars.fatfs_begin cluster_size (cluster_min fs) (cluster_max fs)
            fuel cluster_num offset with
        | none => none
        | some none => some ⟨-1, fs, srcdest⟩
        | some (some (cluster_num1, remainder)) =>
          if write ≠ 0 then
            if (offset + num_bytes) % 2 ^ 64 < file_size then
              match write_inplace_loop sd num_bytes cluster_size fuel fs (fun _ => 0)
                  cluster_num1 remainder 0 with
              | none => none
              | some (Step.ret r fs1) => some ⟨r, fs1, srcdest⟩
              | some (Step.next (fs1, src_off)) => some ⟨src_off, fs1, srcdest⟩
            else
              match write_extend sd fuel fs lk.dir_cluster_num lk.dir_num.toNat offset num_bytes
                  cluster_size cluster_num1 remainder with
              | none => none
              | some (r, fs1) => some ⟨r, fs1, srcdest⟩
          else
            let to_be_read := MIN num_bytes (file_size - offset)
            match read_loop fs cluster_size fuel (fun _ => 0) sd cluster_num1 remainder
                to_be_read 0 with
            | none => none
            | some (false, dest) => some ⟨-1, fs, some dest⟩
            | some (true, dest) => some ⟨MIN num_bytes (file_size - offset), fs, some dest⟩

/-- The function `fatfs_read`. -/
def fatfs_read (path_lookup : PathLookup) (fuel : Nat) (fs : fatfs_state) (file : List Nat)
    (srcdest : Option (Nat → Nat)) (offset num_bytes : Nat) : Option rw_result :=
  fatfs_read_write path_lookup fuel fs file srcdest offset num_bytes 0

/-- The function `fatfs_write`. -/
def fatfs_write (path_lookup : PathLookup) (fuel : Nat) (fs : fatfs_state) (file : List Nat)
    (srcdest : Option (Nat → Nat)) (offset num_bytes : Nat) : Option rw_result :=
  fatfs_read_write path_lookup fuel fs file srcdest offset num_bytes 1

/-- The function `fatfs_stat_path(state, path, st)`: the returned value and,
on success, `st->st_size`. -/
def fatfs_stat_path (path_lookup : PathLookup) (fs : fatfs_state) (path : List Nat) :
    Int × Option Nat :=
  let lk := path_lookup fs path 0
  if lk.dir_num = -1 then (-1, none) else (0, some lk.dir_ent.size)

/-! ## `fatfs_exists`, `fatfs_create` -/

/-- The function `fatfs_exists(state, path)`. -/
def fatfs_exists (path_lookup : PathLookup) (fs : fatfs_state) (path : List Nat) : Bool :=
  (path_lookup fs path 0).dir_num ≠ -1

/-- What `filename_parser(name, file_name, file_ext, &name_len, &ext_len)`
leaves in its four out-parameters. -/
structure parsed_name where
  file_name : Nat → Nat
  file_ext : Nat → Nat
  name_len : Nat
  ext_len : Nat

/-- The type of `filename_parser`.  The function is defined in
`fatfs_helper.c`; `fatfs_create` takes it as a parameter. -/
abbrev FilenameParser : Type := List Nat → parsed_name

/-- A list of bytes as a NUL-terminated C string in memory. -/
def cstr (l : List Nat) : Nat → Nat := fun k => l.getD k 0

/-- The index of the first NUL among the first `n` bytes of `src`, or `n`. -/
def str_len_upto (src : Nat → Nat) : Nat → Nat
  | 0 => 0
  | n + 1 =>
    if str_len_upto src n < n then str_len_upto src n
    else if src n = 0 then n else n + 1

/-- The C library `strncpy(dst + d, src, n)`: the bytes of `src` up to its
NUL, then NUL bytes, `n` bytes in all. -/
def strncpy (dst : Nat → Nat) (d : Nat) (src : Nat → Nat) (n : Nat) : Nat → Nat :=
  fun i => if d ≤ i ∧ i < d + n then (if i - d < str_len_upto src n then src (i - d) else 0)
    else dst i

/-- The byte that `strncpy(dst, src, n)` leaves at index `k < n` of `dst`. -/
def strncpy_byte (src : Nat → Nat) (n k : Nat) : Nat :=
  if k < str_len_upto src n then src k else 0

/-- Modelled from the spec: `split_path` (defined in `fatfs_helper.c`), the
non-empty components of a `/`-separated path. -/
def split_path (path : List Nat) : List (List Nat) :=
  (path.splitOn 47).filter (fun c => c ≠ [])

/-- Lines 306-313 of `fatfs_create`: the path cut at its last `/`. -/
def path_without_name (path : List Nat) : List Nat :=
  match path.reverse.dropWhile (fun c => c ≠ 47) with
  | [] => path
  | _ :: r => r.reverse

/-- Line 346: the loop meant to find the last cluster of the parent. -/
def last_cluster_loop (fat : Nat → Nat) (cmin : Nat) : Nat → Nat → Option Nat
  | 0, _ => none
  | fuel + 1, cluster_num =>
    if fat cluster_num ≥ cmin ∧ fat cluster_num ≤ cmin then
      last_cluster_loop fat cmin fuel (fat cluster_num)
    else some cluster_num

/-- Lines 358-361: `while (full_dirs2[i].name[0] != 0) ++i;`. -/
def scan_slot (full_dirs2 : Nat → Nat) : Nat → Nat → Option Nat
  | 0, _ => none
  | fuel + 1, i =>
    if full_dirs2 (i * DIR_ENTRY_SIZE + OFF_NAME) ≠ 0 then scan_slot full_dirs2 fuel (i + 1)
    else some i

/-- Modelled from the spec: the attribute byte with only the `dir` bit set
(bit 4 of the standard FAT attribute byte). -/
def ATTR_DIR : Nat := 16

/-- Lines 389-405: fill in `full_dirs2[i]`. -/
def fill_entry (filename_parse : FilenameParser) (full_dirs2 : Nat → Nat) (i : Nat)
    (name : List Nat) (isdir : Nat) (new_file_cluster_num : Nat) : Nat → Nat :=
  let base := i * DIR_ENTRY_SIZE
  let named : Nat → Nat :=
    if isdir ≠ 0 then
      le_store (strncpy full_dirs2 (base + OFF_NAME) (cstr name) 8) (base + OFF_ATTR) 1 ATTR_DIR
    else
      let p := filename_parse name
      le_store
        (strncpy (strncpy full_dirs2 (base + OFF_NAME) p.file_name p.name_len)
          (base + OFF_EXT) p.file_ext p.ext_len)
        (base + OFF_ATTR) 1 0
  le_store
    (le_store (le_store named (base + OFF_SIZE) 4 0)
      (base + OFF_HIGH) 2 (EXTRACT_HIGH_CLUSTER new_file_cluster_num))
    (base + OFF_LOW) 2 (EXTRACT_LOW_CLUSTER new_file_cluster_num)

/-- Lines 363-426 of `fatfs_create`, from the test `i == num_dir_entry_per_file` on. -/
def create_finish (filename_parse : FilenameParser) (fs : fatfs_state)
    (name pwn : List Nat) (isdir : Nat) (dir_cluster_num cluster_num i : Nat)
    (full_dirs full_dirs2 : Nat → Nat) : Nat × fatfs_state :=
  let num_dir_entry_per_file := FLOOR_DIV fs.bootrecord.sector_size DIR_ENTRY_SIZE
  let slot : fatfs_state × Option (Nat × Nat × (Nat → Nat)) :=
    if i = num_dir_entry_per_file then
      match grow_shrink_chain fs (cluster_num : Int) 1 with
      | (fs1, rc) =>
        if rc = -1 then (fs1, none)
        else
          let cluster_num1 := fs1.table_chars.fatfs_begin cluster_num
          match nk_block_dev_read fs1 (get_sector_num cluster_num1 fs1) 1 full_dirs2 with
          | none => (fs1, none)
          | some fd => (fs1, some (cluster_num1, 0, fd))
    else (fs, some (cluster_num, i, full_dirs2))
  match slot with
  | (fs1, none) => (0, fs1)
  | (fs1, some (cluster_num1, i1, fd)) =>
    match grow_shrink_chain fs1 (-1) 1 with
    | (fs2, new_file_cluster_num) =>
      if new_file_cluster_num = -1 then (0, fs2)
      else
        let fd1 := fill_entry filename_parse fd i1 name isdir new_file_cluster_num.toNat
        let parent_written : Option fatfs_state :=
          if pwn.headD 0 ≠ 0 then
            nk_block_dev_write fs2 (get_sector_num dir_cluster_num fs2)
              fs2.bootrecord.cluster_size full_dirs
          else some fs2
        match parent_written with
        | none => (0, fs2)
        | some fs3 =>
          match nk_block_dev_write fs3 (get_sector_num cluster_num1 fs3)
              fs3.bootrecord.cluster_size fd1 with
          | none => (0, fs3)
          | some fs4 => (1, fs4)

/-- Lines 297-361 of `fatfs_create`: find the cluster of the parent
directory that is scanned and the slot the scan stops at.  The arrays
`full_dirs` and `full_dirs2` live on the stack and hold one sector of
entries; `stack` is the content of the memory at and after them, which the
code reaches when it indexes past their end.  The result is
`dir_cluster_num`, `cluster_num`, `i`, `full_dirs` and `full_dirs2`;
`some none` is a `return NULL`, `none` an exhausted fuel. -/
def create_locate (path_lookup : PathLookup) (stack : Nat → Nat) (fuel : Nat)
    (fs : fatfs_state) (path : List Nat) :
    Option (Option (Nat × Nat × Nat × (Nat → Nat) × (Nat → Nat))) :=
  let parts := split_path path
  if parts.length = 0 then some none
  else
    let pwn := path_without_name path
    let lk := path_lookup fs pwn 1
    let parent : Option (Nat × (Nat → Nat)) :=
      if pwn.headD 0 = 0 then some (lk.dir_cluster_num, stack)
      else if lk.dir_num = -1 then none
      else
        match nk_block_dev_read fs (get_sector_num lk.dir_cluster_num fs) 1 stack with
        | none => none
        | some full_dirs =>
          some (DECODE_CLUSTER lk.dir_ent.high_cluster lk.dir_ent.low_cluster, full_dirs)
    match parent with
    | none => some none
    | some (cluster_num, full_dirs) =>
      match last_cluster_loop fs.table_chars.fatfs_begin (cluster_min fs) fuel cluster_num with
      | none => none
      | some cluster_num1 =>
        match nk_block_dev_read fs (get_sector_num cluster_num1 fs) 1 stack with
        | none => some none
        | some full_dirs2 =>
          match scan_slot full_dirs2 fuel 0 with
          | none => none
          | some i => some (some (lk.dir_cluster_num, cluster_num1, i, full_dirs, full_dirs2))

/-- The function `fatfs_create(state, path, isdir)`; it returns `0` for NULL
and `1` for the handle.  `none` is an exhausted fuel. -/
def fatfs_create (path_lookup : PathLookup) (filename_parse : FilenameParser)
    (stack : Nat → Nat) (fuel : Nat) (fs : fatfs_state) (path : List Nat) (isdir : Nat) :
    Option (Nat × fatfs_state) :=
  let isdir := isdir % 2
  if fatfs_exists path_lookup fs path then some (0, fs)
  else
    match create_locate path_lookup stack fuel fs path with
    | none => none
    | some none => some (0, fs)
    | some (some (dir_cluster_num, cluster_num, i, full_dirs, full_dirs2)) =>
      some (create_finish filename_parse fs ((split_path path).getLastD [])
        (path_without_name path) isdir dir_cluster_num cluster_num i full_dirs full_dirs2)

/-- The function `fatfs_create_file`. -/
def fatfs_create_file (path_lookup : PathLookup) (filename_parse : FilenameParser)
    (stack : Nat → Nat) (fuel : Nat) (fs : fatfs_state) (path : List Nat) :
    Option (Nat × fatfs_state) :=
  fatfs_create path_lookup filename_parse stack fuel fs path 0

/-- The function `fatfs_create_dir`: `-1` when `fatfs_create` returns NULL. -/
def fatfs_create_dir (path_lookup : PathLookup) (filename_parse : FilenameParser)
    (stack : Nat → Nat) (fuel : Nat) (fs : fatfs_state) (path : List Nat) :
    Option (Int × fatfs_state) :=
  match fatfs_create path_lookup filename_parse stack fuel fs path 1 with
  | none => none
  | some (f, fs1) => some (if f = 0 then -1 else 0, fs1)

/-! ## `fatfs_remove` -/

/-- Lines 465-473: the `do ... while` loop that clears the FAT entries of
the file. -/
def remove_loop (cmin cmax : Nat) : Nat → fatfs_state → Nat → Option (Step (fatfs_state × Nat))
  | 0, _, _ => none
  | fuel + 1, fs, cluster_num =>
    let next := fs.table_chars.fatfs_begin cluster_num
    if next < cmin ∨ (next > cmax ∧ next < EOC_MIN) then some (Step.ret (-1) fs)
    else
      let fs1 := set_fat_entry fs cluster_num FREE_CLUSTER
      if ¬ (next ≥ EOC_MIN ∧ next ≤ EOC_MAX) then remove_loop cmin cmax fuel fs1 next
      else some (Step.next (fs1, next))

/-- The function `fatfs_remove(state, path)`.  `none` is an exhausted fuel. -/
def fatfs_remove (path_lookup : PathLookup) (fuel : Nat) (fs : fatfs_state) (path : List Nat) :
    Option (Int × fatfs_state) :=
  let fat_size := fs.table_chars.fatfs_size
  let lk := path_lookup fs path 0
  if lk.dir_num = -1 then some (-1, fs)
  else
    let cluster_num := DECODE_CLUSTER lk.dir_ent.high_cluster lk.dir_ent.low_cluster
    match remove_loop (cluster_min fs) (cluster_max fs) fuel fs cluster_num with
    | none => none
    | some (Step.ret r fs1) => some (r, fs1)
    | some (Step.next (fs1, cluster_num1)) =>
      let fs2 := set_fat_entry fs1 cluster_num1 FREE_CLUSTER
      let fat := fat_bytes fs2.table_chars.fatfs_begin
      match nk_block_dev_write fs2 fs2.bootrecord.reservedblock_size fat_size fat with
      | none => some (-1, fs2)
      | some fs3 =>
        match nk_block_dev_write fs3 (fs3.bootrecord.reservedblock_size + fat_size) fat_size fat with
        | none => some (-1, fs3)
        | some fs4 =>
          match nk_block_dev_read fs4 (get_sector_num lk.dir_cluster_num fs4) 1 (fun _ => 0) with
          | none => some (-1, fs4)
          | some full_dirs =>
            match nk_block_dev_write fs4 (get_sector_num lk.dir_cluster_num fs4) 1
                (memset full_dirs (lk.dir_num.toNat * DIR_ENTRY_SIZE) 0 DIR_ENTRY_SIZE) with
            | none => some (-1, fs4)
            | some fs5 => some (0, fs5)

/-! ## `fatfs_truncate` -/

/-- Lines 561-567 and 582-593: the `for (uint32_t n = 0; n < bound; n++)`
loops that walk the chain; `bound` is a `size_t`.  The loop variables are
`n`, `cluster_num` and (for the shrinking loop, which decrements it by
`step`) `size`.  `some none` is the `return -1`. -/
def truncate_walk (fat : Nat → Nat) (cmin cmax bound : Nat) (step : Int) :
    Nat → Nat → Nat → Int → Option (Option (Nat × Int))
  | 0, _, _, _ => none
  | fuel + 1, n, cluster_num, size =>
    if n < bound then
      let next := fat cluster_num
      if next < cmin ∨ next > cmax then some none
      else if next ≥ EOC_MIN ∧ next ≤ EOC_MAX then some none
      else truncate_walk fat cmin cmax bound step fuel ((n + 1) % 2 ^ 32) next (size - step)
    else some (some (cluster_num, size))

/-- The function `fatfs_truncate(state, file, len)`; `len` is a
non-negative `off_t`.  `none` is an exhausted fuel. -/
def fatfs_truncate (path_lookup : PathLookup) (fuel : Nat) (fs : fatfs_state) (file : List Nat)
    (len : Nat) : Option (Int × fatfs_state) :=
  let lk := path_lookup fs file 0
  if lk.dir_num = -1 then some (-1, fs)
  else
    let cluster_size := get_cluster_size fs
    let file_size := lk.dir_ent.size
    let file_size_clusters := CEIL_DIV file_size cluster_size
    let new_file_size := len
    let new_file_size_clusters := CEIL_DIV new_file_size cluster_size
    let size_clusters_diff : Int := (new_file_size_clusters : Int) - file_size_clusters
    let cluster_num := DECODE_CLUSTER lk.dir_ent.high_cluster lk.dir_ent.low_cluster
    let fat := fs.table_chars.fatfs_begin
    let walked : Option (Step (fatfs_state × Nat)) :=
      if new_file_size_clusters < file_size_clusters then
        match truncate_walk fat (cluster_min fs) (cluster_max fs)
            ((new_file_size_clusters + 2 ^ 64 - 1) % 2 ^ 64) cluster_size fuel 0 cluster_num len with
        | none => none
        | some none => some (Step.ret (-1) fs)
        | some (some (cluster_num1, size)) =>
          match nk_block_dev_read fs (get_sector_num cluster_num1 fs) 1 (fun _ => 0) with
          | none => some (Step.ret (-1) fs)
          | some file_content =>
            match nk_block_dev_write fs (get_sector_num cluster_num1 fs) 1
                (memset file_content (size - 1).toNat 0 ((cluster_size : Int) - size + 1).toNat) with
            | none => some (Step.ret (-1) fs)
            | some fs1 => some (Step.next (fs1, cluster_num1))
      else if new_file_size_clusters > file_size_clusters then
        match truncate_walk fat (cluster_min fs) (cluster_max fs)
            ((file_size_clusters + 2 ^ 64 - 1) % 2 ^ 64) 0 fuel 0 cluster_num 0 with
        | none => none
        | some none => some (Step.ret (-1) fs)
        | some (some (cluster_num1, _)) => some (Step.next (fs, cluster_num1))
      else some (Step.next (fs, cluster_num))
    match walked with
    | none => none
    | some (Step.ret r fs1) => some (r, fs1)
    | some (Step.next (fs1, cluster_num1)) =>
      match grow_shrink_chain fs1 (cluster_num1 : Int) size_clusters_diff with
      | (fs2, rc) =>
        if rc = -1 then some (-1, fs2)
        else
          match nk_block_dev_read fs2 (get_sector_num lk.dir_cluster_num fs2) 1 (fun _ => 0) with
          | none => some (-1, fs2)
          | some full_dirs =>
            match nk_block_dev_write fs2 (get_sector_num lk.dir_cluster_num fs2) 1
                (le_store full_dirs (lk.dir_num.toNat * DIR_ENTRY_SIZE + OFF_SIZE) 4
                  (new_file_size % 2 ^ 32)) with
            | none => some (-1, fs2)
            | some fs3 => some (0, fs3)

/-! ## `fatfs_rename` -/

/-- The function `fatfs_rename(state, path_old, path_new, isdir)`.  The two
branches of `if (isdir)` (lines 666-710) run the same statements: read the
directory cluster into `dir_buf`, `strncpy(dir_buf[dir_num].name, name, 8)`
with `name` the last component of `path_new`, write the cluster back.  The
array `dir_buf` is declared with the `FLOOR_DIV(sector_size, 32)` entries of
one sector (lines 668 and 690) and the transfers move `cluster_size` sectors.
`none` is a transfer of more bytes than the array holds, or an index
`dir_num` behind its end, for which C defines no result. -/
def fatfs_rename (path_lookup : PathLookup) (fs : fatfs_state) (path_old path_new : List Nat)
    (isdir : Nat) : Option (Int × fatfs_state) :=
  let isdir := isdir % 2
  let lk := path_lookup fs path_old 0
  if lk.dir_num = -1 then some (-1, fs)
  else if fatfs_exists path_lookup fs path_new then some (-1, fs)
  else if isdir ≠ 0 then
    match nk_block_dev_read fs (get_sector_num lk.dir_cluster_num fs) fs.bootrecord.cluster_size
        (fun _ => 0) with
    | none => some (-1, fs)
    | some dir_buf =>
      if fs.bootrecord.cluster_size * fs.bootrecord.sector_size
          ≤ FLOOR_DIV fs.bootrecord.sector_size DIR_ENTRY_SIZE * DIR_ENTRY_SIZE ∧
          lk.dir_num.toNat < FLOOR_DIV fs.bootrecord.sector_size DIR_ENTRY_SIZE then
        let name := (split_path path_new).getLastD []
        match nk_block_dev_write fs (get_sector_num lk.dir_cluster_num fs)
            fs.bootrecord.cluster_size
            (strncpy dir_buf (lk.dir_num.toNat * DIR_ENTRY_SIZE + OFF_NAME) (cstr name) 8) with
        | none => some (-1, fs)
        | some fs1 => some (0, fs1)
      else none
  else
    match nk_block_dev_read fs (get_sector_num lk.dir_cluster_num fs) fs.bootrecord.cluster_size
        (fun _ => 0) with
    | none => some (-1, fs)
    | some dir_buf =>
      if fs.bootrecord.cluster_size * fs.bootrecord.sector_size
          ≤ FLOOR_DIV fs.bootrecord.sector_size DIR_ENTRY_SIZE * DIR_ENTRY_SIZE ∧
          lk.dir_num.toNat < FLOOR_DIV fs.bootrecord.sector_size DIR_ENTRY_SIZE then
        let name := (split_path path_new).getLastD []
        match nk_block_dev_write fs (get_sector_num lk.dir_cluster_num fs)
            fs.bootrecord.cluster_size
            (strncpy dir_buf (lk.dir_num.toNat * DIR_ENTRY_SIZE + OFF_NAME) (cstr name) 8) with
        | none => some (-1, fs)
        | some fs1 => some (0, fs1)
      else none

/-! ## The 8.3 encoding of a name -/

/-- Upper case of an ASCII byte. -/
def to_upper (c : Nat) : Nat := if 97 ≤ c ∧ c ≤ 122 then c - 32 else c

/-- A list of bytes padded with spaces (0x20) to `n` bytes, truncated if longer. -/
def pad_to (n : Nat) (l : List Nat) : List Nat := (l ++ List.replicate n 32).take n

/-- A name split on its last `.`: the part in front of it and the part behind
it (empty when the name has no `.`). -/
def split_last_dot (name : List Nat) : List Nat × List Nat :=
  match name.reverse.span (fun c => c ≠ 46) with
  | (_, []) => (name, [])
  | (e, _ :: b) => (b.reverse, e.reverse)

/-- Modelled from the spec: the 8.3 encoding that `filename_parser` (defined
in `fatfs_helper.c`) produces: the name is split on the last `.`, uppercased,
the name part space-padded to 8 bytes and the extension to 3 bytes,
truncated if longer. -/
def encode_83 (name : List Nat) : List Nat × List Nat :=
  (pad_to 8 ((split_last_dot name).1.map to_upper), pad_to 3 ((split_last_dot name).2.map to_upper))

/-- Modelled from the spec: `filename_parser` (defined in `fatfs_helper.c`)
as a function that leaves the 8.3 encoding in `file_name` and `file_ext`.
The spec does not say what it reports in `name_len` and `ext_len`; this
model reports the widths of the two fields. -/
def parse_83 : FilenameParser := fun name =>
  ⟨cstr (encode_83 name).1, cstr (encode_83 name).2, 8, 3⟩

/-- The first 8 bytes of a name as `strncpy` leaves them: the bytes as given,
padded with NUL bytes. -/
def raw_name_8 (name : List Nat) : List Nat := (name ++ List.replicate 8 0).take 8

/-! ## Chains and well-formedness -/

/-- The cluster reached from `c` after `k` hops along the FAT. -/
def nth_cluster (fat : Nat → Nat) (c : Nat) : Nat → Nat
  | 0 => c
  | k + 1 => nth_cluster fat (fat c) k

/-- A cluster number that the chain walks accept as a successor: inside
`[rootdir_cluster, data_end - data_start]` and below the end-of-chain range. -/
def valid_cluster (fs : fatfs_state) (c : Nat) : Prop :=
  cluster_min fs ≤ c ∧ c ≤ cluster_max fs ∧ c < EOC_MIN

instance (fs : fatfs_state) (c : Nat) : Decidable (valid_cluster fs c) := by
  unfold valid_cluster; infer_instance

/-- An end-of-chain value. -/
def is_eoc (v : Nat) : Prop := EOC_MIN ≤ v ∧ v ≤ EOC_MAX

instance (v : Nat) : Decidable (is_eoc v) := by
  unfold is_eoc; infer_instance

/-- The chain that starts at `first` has at least `n` valid clusters. -/
def chain_valid (fs : fatfs_state) (first n : Nat) : Prop :=
  ∀ k, k < n → valid_cluster fs (nth_cluster fs.table_chars.fatfs_begin first k)

instance (fs : fatfs_state) (first n : Nat) : Decidable (chain_valid fs first n) := by
  unfold chain_valid; infer_instance

/-- A whole cluster at `c` can be transferred from and to the device. -/
def cluster_on_dev (fs : fatfs_state) (c : Nat) : Prop :=
  get_sector_num c fs + fs.bootrecord.cluster_size ≤ fs.dev.num_blocks

instance (fs : fatfs_state) (c : Nat) : Decidable (cluster_on_dev fs c) := by
  unfold cluster_on_dev; infer_instance

/-- The first `n` clusters of the chain that starts at `first` lie on the device. -/
def chain_on_dev (fs : fatfs_state) (first n : Nat) : Prop :=
  ∀ k, k < n → cluster_on_dev fs (nth_cluster fs.table_chars.fatfs_begin first k)

instance (fs : fatfs_state) (first n : Nat) : Decidable (chain_on_dev fs first n) := by
  unfold chain_on_dev; infer_instance

/-- The device address of byte `p` of the file whose chain starts at `first`. -/
def file_byte_addr (fs : fatfs_state) (first p : Nat) : Nat :=
  get_sector_num (nth_cluster fs.table_chars.fatfs_begin first (p / get_cluster_size fs)) fs
      * fs.bootrecord.sector_size + p % get_cluster_size fs

/-- The device address of the first byte of cluster `c`. -/
def cluster_base (fs : fatfs_state) (c : Nat) : Nat :=
  get_sector_num c fs * fs.bootrecord.sector_size

/-- Device address `a` lies in cluster `c`. -/
def in_cluster (fs : fatfs_state) (c a : Nat) : Prop :=
  cluster_base fs c ≤ a ∧ a < cluster_base fs c + get_cluster_size fs

/-- Every cluster of the data region can be transferred from and to the device. -/
def data_on_dev (fs : fatfs_state) : Prop :=
  ∀ c, c ≤ cluster_max fs → cluster_min fs ≤ c → cluster_on_dev fs c

instance (fs : fatfs_state) : Decidable (data_on_dev fs) := by
  unfold data_on_dev; infer_instance

/-- Both on-disk FAT copies, as `flush` writes them, lie on the device and
in front of the data region. -/
def fat_copies_ok (fs : fatfs_state) : Prop :=
  fs.bootrecord.reservedblock_size + 2 * fs.table_chars.fatfs_size ≤ fs.dev.num_blocks ∧
  2 * fs.table_chars.fatfs_size ≤ fs.bootrecord.FAT_num * fs.bootrecord.fatfs_size

instance (fs : fatfs_state) : Decidable (fat_copies_ok fs) := by
  unfold fat_copies_ok; infer_instance

/-- The state with the device content replaced by `m`. -/
def with_mem (fs : fatfs_state) (m : Nat → Nat) : fatfs_state :=
  { fs with dev := { fs.dev with mem := m } }

/-- The first `n` clusters of the chain that starts at `first` are pairwise different. -/
def chain_distinct (fs : fatfs_state) (first n : Nat) : Prop :=
  ∀ i, i < n → ∀ j, j < n →
    nth_cluster fs.table_chars.fatfs_begin first i = nth_cluster fs.table_chars.fatfs_begin first j →
    i = j

instance (fs : fatfs_state) (first n : Nat) : Decidable (chain_distinct fs first n) := by
  unfold chain_distinct; infer_instance

/-- The size that `path_lookup` reports for `file`, `dir_ent.size`. -/
def lookup_size (path_lookup : PathLookup) (fs : fatfs_state) (file : List Nat) : Nat :=
  (path_lookup fs file 0).dir_ent.size

/-- The first cluster of `file`, decoded from the entry that `path_lookup` reports. -/
def lookup_first_cluster (path_lookup : PathLookup) (fs : fatfs_state) (file : List Nat) : Nat :=
  DECODE_CLUSTER (path_lookup fs file 0).dir_ent.high_cluster
    (path_lookup fs file 0).dir_ent.low_cluster

/-- The bytes of a write of `num_bytes` bytes that do not fit in the `room`
bytes between the offset and the end of the last cluster of the chain. -/
def num_bytes_left (num_bytes room : Nat) : Nat := num_bytes - min num_bytes room

/-- The directory cluster that `path_lookup` reports for `file`. -/
def lookup_dir_cluster (path_lookup : PathLookup) (fs : fatfs_state) (file : List Nat) : Nat :=
  (path_lookup fs file 0).dir_cluster_num

/-- The index `dir_num` that `path_lookup` reports for `file`. -/
def lookup_dir_num (path_lookup : PathLookup) (fs : fatfs_state) (file : List Nat) : Nat :=
  (path_lookup fs file 0).dir_num.toNat

/-- The device address of entry `dir_num` of the directory cluster `dir_cluster_num`. -/
def dir_entry_addr (fs : fatfs_state) (dir_cluster_num dir_num : Nat) : Nat :=
  cluster_base fs dir_cluster_num + dir_num * DIR_ENTRY_SIZE

/-- Walking the chain from `first` visits exactly `n` clusters before it
reaches an end-of-chain entry: the first `n` clusters of the walk are valid
clusters and the value that follows them is an end-of-chain value. -/
def chain_length_is (fs : fatfs_state) (first n : Nat) : Prop :=
  chain_valid fs first n ∧ is_eoc (nth_cluster fs.table_chars.fatfs_begin first n)

instance (fs : fatfs_state) (first n : Nat) : Decidable (chain_length_is fs first n) := by
  unfold chain_length_is; infer_instance

/-- The first cluster that the device holds in entry `p.2` of the directory
cluster `p.1`. -/
def entry_first_cluster (fs : fatfs_state) (p : Nat × Nat) : Nat :=
  DECODE_CLUSTER (le_load fs.dev.mem (dir_entry_addr fs p.1 p.2 + OFF_HIGH) 2)
    (le_load fs.dev.mem (dir_entry_addr fs p.1 p.2 + OFF_LOW) 2)

/-- The size that the device holds in entry `p.2` of the directory cluster `p.1`. -/
def entry_size (fs : fatfs_state) (p : Nat × Nat) : Nat :=
  le_load fs.dev.mem (dir_entry_addr fs p.1 p.2 + OFF_SIZE) 4

/-- The chain of the file with the directory entry at `p` visits exactly
`ceil(size / cluster_size)` clusters before it reaches an end-of-chain entry. -/
def file_chain_spec (fs : fatfs_state) (p : Nat × Nat) : Prop :=
  chain_length_is fs (entry_first_cluster fs p) (CEIL_DIV (entry_size fs p) (get_cluster_size fs))

instance (fs : fatfs_state) (p : Nat × Nat) : Decidable (file_chain_spec fs p) := by
  unfold file_chain_spec; infer_instance

/-- The number of clusters of a file of `size` bytes that keeps the cluster
`fatfs_create` allocated for it while it is empty:
`max(1, ceil(size / cluster_size))`. -/
def file_clusters (fs : fatfs_state) (size : Nat) : Nat :=
  max 1 (CEIL_DIV size (get_cluster_size fs))

/-- The chain of the file with the directory entry at `p` visits exactly
`max(1, ceil(size / cluster_size))` clusters before it reaches an
end-of-chain entry. -/
def file_chain_ok (fs : fatfs_state) (p : Nat × Nat) : Prop :=
  chain_length_is fs (entry_first_cluster fs p) (file_clusters fs (entry_size fs p))

instance (fs : fatfs_state) (p : Nat × Nat) : Decidable (file_chain_ok fs p) := by
  unfold file_chain_ok; infer_instance

/-! ## Concrete volumes

The volumes below have 512-byte sectors and one sector per cluster.  Sector
0 is the boot sector, sectors 1 and 2 hold the two FAT copies, sector 3 is
cluster 2, the root directory, and cluster `c` is sector `c + 1`. -/

/-- The entry at index `dir_num` of the sector at `base`, as `path_lookup` copies it out. -/
def read_dir_entry (m : Nat → Nat) (base : Nat) : dir_entry :=
  { name := (List.range 8).map (fun k => m (base + OFF_NAME + k)),
    ext := (List.range 3).map (fun k => m (base + OFF_EXT + k)),
    attris := m (base + OFF_ATTR),
    high_cluster := le_load m (base + OFF_HIGH) 2,
    low_cluster := le_load m (base + OFF_LOW) 2,
    size := le_load m (base + OFF_SIZE) 4 }

/-- Modelled from the spec: `path_lookup` (defined in `fatfs_helper.c`) for
a path that resolves to entry `dir_num` of the directory cluster
`dir_cluster_num`: it returns that position and a copy of the entry as the
device holds it. -/
def lookup_entry (dir_cluster_num dir_num : Nat) : PathLookup := fun fs _ _ =>
  ⟨dir_num, dir_cluster_num,
    read_dir_entry fs.dev.mem
      (get_sector_num dir_cluster_num fs * fs.bootrecord.sector_size + dir_num * DIR_ENTRY_SIZE)⟩

/-- Modelled from the spec: `path_lookup` (defined in `fatfs_helper.c`) for
the lookups of a `fatfs_create` of a new name in the root directory: the
path does not resolve (`-1`), and for the empty parent path the resolver
reports the root-directory cluster. -/
def lookup_new_in_root : PathLookup := fun fs _ _ =>
  ⟨-1, fs.bootrecord.rootdir_cluster, ⟨[], [], 0, 0, 0, 0⟩⟩

/-- Modelled from the spec: `path_lookup` (defined in `fatfs_helper.c`) on a
volume in which `path` resolves to entry `dir_num` of the directory cluster
`dir_cluster_num` and no other path that is asked for resolves. -/
def lookup_only (path : List Nat) (dir_cluster_num dir_num : Nat) : PathLookup := fun fs p flag =>
  if p = path then lookup_entry dir_cluster_num dir_num fs p flag
  else lookup_new_in_root fs p flag

/-- A volume geometry: 512-byte sectors, one sector per cluster, one
reserved sector, two FAT copies of one sector, root directory at cluster 2. -/
def ex_boot : fatfs_bootrecord :=
  { sector_size := 512, cluster_size := 1, reservedblock_size := 1, FAT_num := 2, fatfs_size := 1,
    rootdir_cluster := 2, directory_entry_num := 16 }

/-- The content of a device with that geometry: a zeroed boot sector, two
copies of the FAT, the root directory sector `root` (zero behind the listed
bytes) and `'a'` in every byte of the other clusters. -/
def ex_dev_mem (fat : Nat → Nat) (root : List Nat) : Nat → Nat :=
  fun a =>
    if a < 512 then 0
    else if a < 1024 then fat_bytes fat (a - 512)
    else if a < 1536 then fat_bytes fat (a - 1024)
    else if a < 2048 then root.getD (a - 1536) 0
    else 97

/-- A FAT with the root directory in cluster 2 and one file in clusters 3 and 4. -/
def ex_fat : Nat → Nat :=
  fun c => if c = 2 then EOC_MAX else if c = 3 then 4 else if c = 4 then EOC_MAX else 0

/-- The directory entry `A.TXT`: first cluster 3, size 1024. -/
def ex_entry : List Nat :=
  [65, 32, 32, 32, 32, 32, 32, 32, 84, 88, 84, 32, 0, 0, 0, 0,
   0, 0, 0, 0, 0, 0, 0, 0, 0, 0, 3, 0, 0, 4, 0, 0]

/-- A volume whose root directory holds the entry `A.TXT` at index 0. -/
def ex_fs : fatfs_state :=
  { dev := { num_blocks := 67, mem := ex_dev_mem ex_fat ex_entry },
    bootrecord := ex_boot,
    table_chars := { fatfs_begin := ex_fat, fatfs_size := 1, data_start := 3, data_end := 67 } }

/-- The directory entry `B.TXT`: first cluster 5, size 0, as `fatfs_create` leaves a new file. -/
def ex_entry_empty : List Nat :=
  [66, 32, 32, 32, 32, 32, 32, 32, 84, 88, 84, 32, 0, 0, 0, 0,
   0, 0, 0, 0, 0, 0, 0, 0, 0, 0, 5, 0, 0, 0, 0, 0]

/-- The FAT of `ex_fat` with a second chain of one cluster, 5.  The word of
memory `0x0FFFFFFF` entries past the base of the table, far outside it, holds
`0x12345678`. -/
def ex_fat2 : Nat → Nat :=
  fun c => if c = 2 then EOC_MAX else if c = 3 then 4 else if c = 4 then EOC_MAX
    else if c = 5 then EOC_MAX else if c = 0x0FFFFFFF then 0x12345678 else 0

/-- A volume whose root directory holds `A.TXT` (1024 bytes, clusters 3 and
4) at index 0 and the empty file `B.TXT` (cluster 5) at index 1; the slots
from index 2 on are free. -/
def ex_fs2 : fatfs_state :=
  { dev := { num_blocks := 67, mem := ex_dev_mem ex_fat2 (ex_entry ++ ex_entry_empty) },
    bootrecord := ex_boot,
    table_chars := { fatfs_begin := ex_fat2, fatfs_size := 1, data_start := 3, data_end := 67 } }

/-- The directory entry of an empty file `F<k>.TXT` with first cluster `k + 4`. -/
def ex_entry_nth (k : Nat) : List Nat :=
  [70, 65 + k, 32, 32, 32, 32, 32, 32, 84, 88, 84, 32, 0, 0, 0, 0,
   0, 0, 0, 0, 0, 0, 0, 0, 0, 0, k + 4, 0, 0, 0, 0, 0]

/-- The FAT of `ex_fat` with fifteen more chains of one cluster each, 5 to 19. -/
def ex_fat_full : Nat → Nat :=
  fun c => if c = 2 then EOC_MAX else if c = 3 then 4 else if c = 4 then EOC_MAX
    else if 5 ≤ c ∧ c ≤ 19 then EOC_MAX else 0

/-- The 16 entries of a full root directory sector: `A.TXT`, `B.TXT` and
fourteen more empty files. -/
def ex_root_full : List Nat :=
  ex_entry ++ ex_entry_empty ++ ((List.range 14).map (fun k => ex_entry_nth (k + 2))).flatten

/-- A volume whose root directory sector is full. -/
def ex_fs_full : fatfs_state :=
  { dev := { num_blocks := 67, mem := ex_dev_mem ex_fat_full ex_root_full },
    bootrecord := ex_boot,
    table_chars := { fatfs_begin := ex_fat_full, fatfs_size := 1, data_start := 3, data_end := 67 } }

/-- The directory entry `A.TXT` of `ex_entry` with the readonly bit set in
its attribute byte. -/
def ex_entry_ro : List Nat :=
  [65, 32, 32, 32, 32, 32, 32, 32, 84, 88, 84, 33, 0, 0, 0, 0,
   0, 0, 0, 0, 0, 0, 0, 0, 0, 0, 3, 0, 0, 4, 0, 0]

/-- The volume `ex_fs` with `A.TXT` read-only. -/
def ex_fs_ro : fatfs_state :=
  { dev := { num_blocks := 67, mem := ex_dev_mem ex_fat ex_entry_ro },
    bootrecord := ex_boot,
    table_chars := { fatfs_begin := ex_fat, fatfs_size := 1, data_start := 3, data_end := 67 } }

/-- A FAT whose entry 3 holds 65, a value above `data_end - data_start = 64`
and below the end-of-chain range. -/
def ex_fat_corrupt : Nat → Nat :=
  fun c => if c = 2 then EOC_MAX else if c = 3 then 65 else 0

/-- The device of `ex_dev_mem` with `'b'` in every byte of its last sector,
66, which is where cluster number 65 would lie. -/
def ex_dev_mem_last (fat : Nat → Nat) (root : List Nat) : Nat → Nat :=
  fun a => if 66 * 512 ≤ a then 98 else ex_dev_mem fat root a

/-- The volume `ex_fs` with the corrupt chain `3 -> 65` for `A.TXT`. -/
def ex_fs_corrupt : fatfs_state :=
  { dev := { num_blocks := 67, mem := ex_dev_mem_last ex_fat_corrupt ex_entry },
    bootrecord := ex_boot,
    table_chars := ⟨ex_fat_corrupt, 1, 3, 67⟩ }

/-- A FAT whose entry 3 holds `0x10000000`, a value above the end-of-chain
range.  The word of memory `0x10000000` entries past the base of the table,
far outside it, holds `0x0FFFFFFF`. -/
def ex_fat_corrupt_high : Nat → Nat :=
  fun c => if c = 2 then EOC_MAX else if c = 3 then 0x10000000
    else if c = 0x10000000 then EOC_MAX else 0

/-- The volume `ex_fs` with the corrupt chain `3 -> 0x10000000` for `A.TXT`. -/
def ex_fs_corrupt_high : fatfs_state :=
  { dev := { num_blocks := 67, mem := ex_dev_mem ex_fat_corrupt_high ex_entry },
    bootrecord := ex_boot,
    table_chars := ⟨ex_fat_corrupt_high, 1, 3, 67⟩ }

/-- A FAT in which the root directory has the chain `2 -> 20`, `A.TXT` the
chain `3 -> 4`, fifteen files one cluster each (6 to 19 and 21) and cluster
5 is free. -/
def ex_fat_two : Nat → Nat :=
  fun c => if c = 2 then 20 else if c = 3 then 4 else if c = 4 then EOC_MAX
    else if 6 ≤ c ∧ c ≤ 21 then EOC_MAX else 0

/-- The first sector of a root directory of two clusters: `A.TXT`, a slot
that a removal has zeroed, and fourteen more files. -/
def ex_root_hole : List Nat :=
  ex_entry ++ List.replicate 32 0 ++ ((List.range 14).map (fun k => ex_entry_nth (k + 2))).flatten

/-- The device of `ex_dev_mem` with the second cluster of the root
directory, cluster 20 in sector 21: one entry (first cluster 21), then free
slots. -/
def ex_dev_mem_two (fat : Nat → Nat) (root : List Nat) : Nat → Nat :=
  fun a => if 21 * 512 ≤ a ∧ a < 22 * 512 then (ex_entry_nth 17).getD (a - 21 * 512) 0
    else ex_dev_mem fat root a

/-- A volume whose root directory has the chain `2 -> 20`, with a free slot
at index 1 of its first cluster. -/
def ex_fs_two : fatfs_state :=
  { dev := { num_blocks := 67, mem := ex_dev_mem_two ex_fat_two ex_root_hole },
    bootrecord := ex_boot,
    table_chars := { fatfs_begin := ex_fat_two, fatfs_size := 1, data_start := 3, data_end := 67 } }

/-- The path `/A.TXT`. -/
def ex_path : List Nat := [47, 65, 46, 84, 88, 84]

/-- The path `/B.TXT`. -/
def ex_path_b : List Nat := [47, 66, 46, 84, 88, 84]

/-- The path `/live`. -/
def ex_path_live : List Nat := [47, 108, 105, 118, 101]

/-- The path `/foo.txt`. -/
def ex_path_foo : List Nat := [47, 102, 111, 111, 46, 116, 120, 116]

/-- The path `/b.c`. -/
def ex_path_bc : List Nat := [47, 98, 46, 99]

/-- Stack memory whose byte at offset 512, the first byte behind a
one-sector array of 16 entries, is not zero. -/
def ex_stack : Nat → Nat := fun j => if j = 512 then 1 else 0

/-- A source buffer without two equal neighbouring bytes. -/
def ex_src : Nat → Nat := fun i => i % 251 + 1

/-! ## Volumes and their files

A file is named by the place of its directory entry, the pair of the
directory cluster and the index of the entry in it; its first cluster and its
size are what the device holds in that entry. -/

/-- The device address behind the two on-disk FAT copies, as `flush` writes them. -/
def fat_region_end (fs : fatfs_state) : Nat :=
  (fs.bootrecord.reservedblock_size + 2 * fs.table_chars.fatfs_size) * fs.bootrecord.sector_size

/-- The geometry of a volume: sectors that hold whole directory entries, at
least one sector per cluster, cluster numbers that start above 0 and end
below the end-of-chain range, the data region and both FAT copies on the
device, the FAT copies in front of the data region. -/
def geometry_ok (fs : fatfs_state) : Prop :=
  0 < fs.bootrecord.sector_size ∧ fs.bootrecord.sector_size % DIR_ENTRY_SIZE = 0 ∧
  0 < fs.bootrecord.cluster_size ∧ 0 < cluster_min fs ∧ cluster_max fs < EOC_MIN ∧
  data_on_dev fs ∧ fat_copies_ok fs

instance (fs : fatfs_state) : Decidable (geometry_ok fs) := by
  unfold geometry_ok; infer_instance

/-- Cluster `k` of the chain of the file with the directory entry at `p`. -/
def file_cluster (fs : fatfs_state) (p : Nat × Nat) (k : Nat) : Nat :=
  nth_cluster fs.table_chars.fatfs_begin (entry_first_cluster fs p) k

/-- The number of clusters `max(1, ceil(size / cluster_size))` for the size
in the directory entry at `p`. -/
def file_length (fs : fatfs_state) (p : Nat × Nat) : Nat :=
  file_clusters fs (entry_size fs p)

/-- The directory entries at the places `files` are laid out as the entries
of different files: each lies in the first sector of a valid, allocated
cluster, no cluster of the chain of a file holds one of the entries, and the
chains of two files share no cluster. -/
def files_ok (fs : fatfs_state) (files : List (Nat × Nat)) : Prop :=
  (∀ p ∈ files, valid_cluster fs p.1 ∧
    p.2 * DIR_ENTRY_SIZE + DIR_ENTRY_SIZE ≤ fs.bootrecord.sector_size ∧
    fs.table_chars.fatfs_begin p.1 ≠ FREE_CLUSTER) ∧
  (∀ p ∈ files, ∀ q ∈ files, ∀ k, k < file_length fs p → file_cluster fs p k ≠ q.1) ∧
  (∀ p ∈ files, ∀ q ∈ files, p ≠ q →
    ∀ i, i < file_length fs p → ∀ j, j < file_length fs q →
      file_cluster fs p i ≠ file_cluster fs q j)

instance (fs : fatfs_state) (files : List (Nat × Nat)) : Decidable (files_ok fs files) := by
  unfold files_ok; infer_instance

/-- The chain-length invariant: the chain of every file of `files` visits
exactly `max(1, ceil(size / cluster_size))` clusters before it reaches an
end-of-chain entry. -/
def chains_ok (fs : fatfs_state) (files : List (Nat × Nat)) : Prop :=
  ∀ p ∈ files, file_chain_ok fs p

instance (fs : fatfs_state) (files : List (Nat × Nat)) : Decidable (chains_ok fs files) := by
  unfold chains_ok; infer_instance

/-- What an operation on a file whose chain starts at `first` leaves alone:
the geometry; the FAT entries that are neither FREE, nor an index in the
end-of-chain range, nor one of the first `nf` clusters of the chain; the
device bytes behind the FAT copies that lie neither in one of the first `nd`
clusters of the chain, nor in a FREE cluster, nor at an address of `E`. -/
def op_frame (fs fs1 : fatfs_state) (first nf nd : Nat) (E : Nat → Prop) : Prop :=
  fs1.bootrecord = fs.bootrecord ∧
  fs1.table_chars.data_start = fs.table_chars.data_start ∧
  fs1.table_chars.data_end = fs.table_chars.data_end ∧
  (∀ x, fs.table_chars.fatfs_begin x ≠ FREE_CLUSTER → x < EOC_MIN →
    (∀ k, k < nf → x ≠ nth_cluster fs.table_chars.fatfs_begin first k) →
    fs1.table_chars.fatfs_begin x = fs.table_chars.fatfs_begin x) ∧
  (∀ a, fat_region_end fs ≤ a →
    (∀ k, k < nd → ¬ in_cluster fs (nth_cluster fs.table_chars.fatfs_begin first k) a) →
    (∀ c, cluster_min fs ≤ c → fs.table_chars.fatfs_begin c = FREE_CLUSTER →
      ¬ in_cluster fs c a) →
    ¬ E a → fs1.dev.mem a = fs.dev.mem a)

/-! # Theorems -/

/-! ## Memory lemmas -/

theorem nth_cluster_succ (fat : Nat → Nat) (c k : Nat) :
    nth_cluster fat c (k + 1) = fat (nth_cluster fat c k) := by
  induction k generalizing c with
  | zero => rfl
  | succ k ih => exact ih (fat c)

theorem nth_cluster_add (fat : Nat → Nat) (c j k : Nat) :
    nth_cluster fat (nth_cluster fat c j) k = nth_cluster fat c (j + k) := by
  induction j generalizing c with
  | zero => simp [nth_cluster]
  | succ j ih =>
    have : j + 1 + k = (j + k) + 1 := by omega
    rw [this]
    exact ih (fat c)

/-- A chain of valid clusters that reaches an end-of-chain value visits no cluster twice. -/
theorem chain_distinct_of_eoc (fs : fatfs_state) (first m : Nat)
    (hvalid : chain_valid fs first m)
    (heoc : is_eoc (nth_cluster fs.table_chars.fatfs_begin first m)) :
    chain_distinct fs first m := by
  -- two equal clusters at `i < j` make the walk periodic from `i` on
  have key : ∀ i j, i < j → j < m →
      nth_cluster fs.table_chars.fatfs_begin first i
        = nth_cluster fs.table_chars.fatfs_begin first j → False := by
    intro i j hij hjm heq
    have hper : ∀ t, nth_cluster fs.table_chars.fatfs_begin first (i + t)
        = nth_cluster fs.table_chars.fatfs_begin first (j + t) := by
      intro t
      rw [← nth_cluster_add, ← nth_cluster_add, heq]
    have hback : ∀ q r, r < j - i →
        nth_cluster fs.table_chars.fatfs_begin first (i + r + q * (j - i))
          = nth_cluster fs.table_chars.fatfs_begin first (i + r) := by
      intro q
      induction q with
      | zero => intro r _; simp
      | succ q ih =>
        intro r hr
        have e : i + r + (q + 1) * (j - i) = j + (r + q * (j - i)) := by
          rw [Nat.add_mul]; omega
        rw [e, ← hper, ← Nat.add_assoc]
        exact ih r hr
    have hd : 0 < j - i := by omega
    have hdm := Nat.div_add_mod (m - i) (j - i)
    have hr := Nat.mod_lt (m - i) hd
    have e : m = i + (m - i) % (j - i) + (m - i) / (j - i) * (j - i) := by
      rw [Nat.mul_comm]; omega
    have h1 := hback ((m - i) / (j - i)) ((m - i) % (j - i)) hr
    rw [← e] at h1
    have h2 := hvalid (i + (m - i) % (j - i)) (by omega)
    rw [← h1] at h2
    have := heoc.1
    have := h2.2.2
    omega
  intro i hi j hj heq
  rcases Nat.lt_trichotomy i j with h | h | h
  · exact absurd heq (fun e => key i j h hj e)
  · exact h
  · exact absurd heq.symm (fun e => key j i h hi e)

/-! ## Reading -/

/-- The seek loop makes `(rem - 1) / cs` hops when the clusters on the way are valid. -/
theorem seek_loop_spec (fs : fatfs_state) (cs : Nat) (hcs : 0 < cs) :
    ∀ (fuel c rem : Nat), (rem - 1) / cs < fuel →
      (∀ k, 1 ≤ k → k ≤ (rem - 1) / cs →
        valid_cluster fs (nth_cluster fs.table_chars.fatfs_begin c k)) →
      seek_loop fs.table_chars.fatfs_begin cs (cluster_min fs) (cluster_max fs) fuel c rem
        = some (some (nth_cluster fs.table_chars.fatfs_begin c ((rem - 1) / cs),
            rem - (rem - 1) / cs * cs)) := by
  intro fuel
  induction fuel with
  | zero => intro c rem h; exact absurd h (Nat.not_lt_zero _)
  | succ fuel ih =>
    intro c rem hfuel hval
    unfold seek_loop
    by_cases hgt : rem > cs
    · have hq : (rem - 1) / cs = (rem - cs - 1) / cs + 1 := by
        have : rem - 1 = (rem - cs - 1) + cs := by omega
        rw [this, Nat.add_div_right _ hcs]
      rw [hq] at hfuel hval ⊢
      generalize hqd : (rem - cs - 1) / cs = q at hfuel hval ⊢
      have h1 := hval 1 (le_refl 1) (by omega)
      simp only [nth_cluster] at h1
      obtain ⟨h1a, h1b, h1c⟩ := h1
      have hne : ¬ (fs.table_chars.fatfs_begin c ≥ EOC_MIN ∧ fs.table_chars.fatfs_begin c ≤ EOC_MAX) := by
        intro h; omega
      have hne2 : ¬ (fs.table_chars.fatfs_begin c < cluster_min fs ∨ fs.table_chars.fatfs_begin c > cluster_max fs) := by
        intro h; omega
      simp only [hgt, if_true, hne, hne2, if_false]
      have hih := ih (fs.table_chars.fatfs_begin c) (rem - cs)
      rw [hqd] at hih
      rw [hih (by omega)]
      · simp only [nth_cluster]
        congr 3
        rw [Nat.add_mul]; omega
      · intro k hk1 hk2
        have := hval (k + 1) (by omega) (by omega)
        simpa [nth_cluster] using this
    · have hq : (rem - 1) / cs = 0 := by
        apply Nat.div_eq_of_lt; omega
      simp [hgt, hq, nth_cluster]

/-- The read loop ends without an error when the clusters it reads lie on the device. -/
theorem read_loop_ok (fs : fatfs_state) (cs : Nat) (hcs : 0 < cs) :
    ∀ (fuel : Nat) (buf dest : Nat → Nat) (c rem : Nat) (tbr doff : Int),
      (tbr + rem).toNat < fuel →
      cluster_on_dev fs c →
      (∀ k : Nat, 1 ≤ k → (k : Int) * cs < tbr + rem →
        cluster_on_dev fs (nth_cluster fs.table_chars.fatfs_begin c k)) →
      ∃ d, read_loop fs cs fuel buf dest c rem tbr doff = some (true, d) := by
  intro fuel
  induction fuel with
  | zero => intro _ _ _ _ _ _ h; exact absurd h (Nat.not_lt_zero _)
  | succ fuel ih =>
    intro buf dest c rem tbr doff hfuel hdev hrest
    unfold read_loop
    have hd : get_sector_num c fs + fs.bootrecord.cluster_size ≤ fs.dev.num_blocks := hdev
    simp only [nk_block_dev_read, if_pos hd]
    by_cases heoc : fs.table_chars.fatfs_begin c ≥ EOC_MIN ∧ fs.table_chars.fatfs_begin c ≤ EOC_MAX
    · simp only [if_pos heoc]; exact ⟨_, rfl⟩
    · simp only [if_neg heoc]
      have htbr : (if rem > 0 then tbr - (cs : Int) + rem else tbr - cs) = tbr + rem - cs := by
        split_ifs with h
        · ring
        · have : rem = 0 := by omega
          subst this; simp
      rw [htbr]
      by_cases hpos : tbr + rem - cs > 0
      · simp only [if_pos hpos]
        apply ih
        · simp only [Nat.cast_zero, add_zero]; omega
        · have := hrest 1 (le_refl 1) (by push_cast; omega)
          simpa [nth_cluster] using this
        · intro k hk1 hk2
          have := hrest (k + 1) (by omega) (by push_cast at hk2 ⊢; linarith)
          simpa [nth_cluster] using this
      · simp only [if_neg hpos]; exact ⟨_, rfl⟩

/-- The macro `MIN` is the minimum. -/
theorem MIN_eq_min (x y : Nat) : MIN x y = min x y := by
  unfold MIN; split_ifs with h
  · exact (min_eq_left (le_of_lt h)).symm
  · exact (min_eq_right (not_lt.mp h)).symm

/-- C4: the value returned by `fatfs_read` for an existing file.  It is `-1`
when the offset lies past the end of the file and `0`, with the buffer and
the state as they were, when the offset is the file size; neither case needs
the device or any fuel.  Below the end of the file, when the chain has valid
clusters for the whole size and they lie on the device, it is
`min num_bytes (file_size - offset)`. -/
theorem C4_read_return_value (path_lookup : PathLookup) (fuel : Nat) (fs : fatfs_state)
    (file : List Nat) (buf : Nat → Nat) (offset num_bytes n : Nat)
    (hex : (path_lookup fs file 0).dir_num ≠ -1)
    (hcs : offset < lookup_size path_lookup fs file → 0 < get_cluster_size fs)
    (hn : offset < lookup_size path_lookup fs file →
      lookup_size path_lookup fs file ≤ n * get_cluster_size fs)
    (hchain : offset < lookup_size path_lookup fs file →
      chain_valid fs (lookup_first_cluster path_lookup fs file) n)
    (hdev : offset < lookup_size path_lookup fs file →
      chain_on_dev fs (lookup_first_cluster path_lookup fs file) n)
    (hfuel : offset < lookup_size path_lookup fs file → lookup_size path_lookup fs file < fuel) :
    (lookup_size path_lookup fs file < offset →
      fatfs_read path_lookup fuel fs file (some buf) offset num_bytes = some ⟨-1, fs, some buf⟩) ∧
    (offset = lookup_size path_lookup fs file →
      fatfs_read path_lookup fuel fs file (some buf) offset num_bytes = some ⟨0, fs, some buf⟩) ∧
    (offset < lookup_size path_lookup fs file →
      ∃ d, fatfs_read path_lookup fuel fs file (some buf) offset num_bytes
        = some ⟨((min num_bytes (lookup_size path_lookup fs file - offset) : Nat) : Int),
            fs, some d⟩) := by
  refine ⟨?_, ?_, ?_⟩
  · intro h
    simp only [lookup_size] at h
    simp [fatfs_read, fatfs_read_write, hex, h]
  · intro h
    simp only [lookup_size] at h
    simp [fatfs_read, fatfs_read_write, hex, h]
  · intro h
    have hcs := hcs h
    have hn := hn h
    have hchain := hchain h
    have hdev := hdev h
    have hfuel := hfuel h
    simp only [lookup_size, lookup_first_cluster] at h hn hchain hdev hfuel
    generalize hsz : (path_lookup fs file 0).dir_ent.size = size at h hn hfuel
    generalize hfc : DECODE_CLUSTER (path_lookup fs file 0).dir_ent.high_cluster
      (path_lookup fs file 0).dir_ent.low_cluster = first at hchain hdev
    generalize hcsd : get_cluster_size fs = cs at hcs hn
    -- the number of hops of the seek
    have hq1 : (offset - 1) / cs * cs ≤ offset - 1 := Nat.div_mul_le_self _ _
    generalize hqd : (offset - 1) / cs = q at hq1
    have hqle : q ≤ q * cs := Nat.le_mul_of_pos_right q hcs
    have hqn : q < n := Nat.lt_of_mul_lt_mul_right (show q * cs < n * cs by omega)
    have hseek := seek_loop_spec fs cs hcs fuel first offset (by rw [hqd]; omega)
      (by
        intro k _ hk2
        rw [hqd] at hk2
        exact hchain k (by omega))
    rw [hqd] at hseek
    obtain ⟨d, hd⟩ := read_loop_ok fs cs hcs fuel (fun _ => 0) buf
      (nth_cluster fs.table_chars.fatfs_begin first q) (offset - q * cs)
      ((MIN num_bytes (size - offset) : Nat) : Int) 0
      (by
        have : MIN num_bytes (size - offset) ≤ size - offset := by
          rw [MIN_eq_min]; exact min_le_right _ _
        omega)
      (hdev q hqn)
      (by
        intro k hk1 hk2
        rw [nth_cluster_add]
        apply hdev
        have : MIN num_bytes (size - offset) ≤ size - offset := by
          rw [MIN_eq_min]; exact min_le_right _ _
        have hk3 : k * cs < MIN num_bytes (size - offset) + (offset - q * cs) := by
          exact_mod_cast hk2
        refine Nat.lt_of_mul_lt_mul_right (show (q + k) * cs < n * cs from ?_)
        rw [Nat.add_mul]
        omega)
    refine ⟨d, ?_⟩
    rw [MIN_eq_min] at hd
    have hne : ¬ (size < offset) := by omega
    have hne2 : ¬ (offset = size) := by omega
    simp only [fatfs_read, fatfs_read_write, hex, hsz, hfc, hcsd, if_false, hne, hne2,
      gt_iff_lt, Nat.zero_mod, false_and, ne_eq, not_true_eq_false, hseek, hd, and_true,
      MIN_eq_min, lookup_size]
/-- C4, witness: a read of 500 bytes at offset 100 of the 1024-byte file of `ex_fs`. -/
theorem C4_read_return_value_witness :
    ∃ d, fatfs_read (lookup_entry 2 0) 2000 ex_fs ex_path (some (fun _ => 0)) 100 500
      = some ⟨500, ex_fs, some d⟩ :=
  (C4_read_return_value (lookup_entry 2 0) 2000 ex_fs ex_path (fun _ => 0) 100 500 2
    (by decide) (fun _ => by decide) (fun _ => by decide) (fun _ => by decide)
    (fun _ => by decide) (fun _ => by decide)).2.2 (by decide)

/-! ## Writing in place -/

/-- Replacing the device content by itself changes nothing. -/
theorem with_mem_self (fs : fatfs_state) : with_mem fs fs.dev.mem = fs := rfl

/-- The device after a cluster has been read, spliced with `k` source bytes at `r` and written back. -/
theorem rmw_mem (fs : fatfs_state) (m buf src : Nat → Nat) (c r s k : Nat)
    (hk : r + k ≤ get_cluster_size fs) (a : Nat) :
    dev_store (with_mem fs m) (get_sector_num c fs) fs.bootrecord.cluster_size
      (memcpy (fun i => if i < fs.bootrecord.cluster_size * fs.bootrecord.sector_size
          then m (get_sector_num c fs * fs.bootrecord.sector_size + i) else buf i) r src s k) a
      = if cluster_base fs c + r ≤ a ∧ a < cluster_base fs c + r + k
          then src (s + (a - (cluster_base fs c + r))) else m a := by
  unfold dev_store memcpy cluster_base with_mem
  simp only [get_cluster_size] at hk
  simp only [Nat.add_mul]
  generalize get_sector_num c fs * fs.bootrecord.sector_size = b at *
  generalize fs.bootrecord.cluster_size * fs.bootrecord.sector_size = cs at *
  split_ifs <;> first | rfl | (exfalso; omega) | (congr 1; omega)

/-- The first byte of a cluster, in terms of the cluster size in bytes. -/
theorem cluster_base_eq (fs : fatfs_state) (c : Nat) :
    cluster_base fs c
      = (fs.bootrecord.reservedblock_size + fs.bootrecord.FAT_num * fs.bootrecord.fatfs_size)
          * fs.bootrecord.sector_size
        + (c - fs.bootrecord.rootdir_cluster) * get_cluster_size fs := by
  unfold cluster_base get_sector_num get_cluster_size
  ring

/-- The address of a file byte given by its cluster index and its offset in the cluster. -/
theorem file_byte_addr_in (fs : fatfs_state) (first i off : Nat)
    (hoff : off < get_cluster_size fs) :
    file_byte_addr fs first (i * get_cluster_size fs + off)
      = cluster_base fs (nth_cluster fs.table_chars.fatfs_begin first i) + off := by
  unfold file_byte_addr cluster_base
  have hpos : 0 < get_cluster_size fs := by omega
  have h1 : (i * get_cluster_size fs + off) / get_cluster_size fs = i := by
    rw [Nat.add_comm, Nat.add_mul_div_right _ _ hpos, Nat.div_eq_of_lt hoff, Nat.zero_add]
  have h2 : (i * get_cluster_size fs + off) % get_cluster_size fs = off := by
    rw [Nat.add_comm, Nat.add_mul_mod_self_right, Nat.mod_eq_of_lt hoff]
  rw [h1, h2]

/-- Quotient and remainder determine a number. -/
theorem mul_add_inj (cs x1 o1 x2 o2 : Nat) (h1 : o1 < cs) (h2 : o2 < cs)
    (h : x1 * cs + o1 = x2 * cs + o2) : x1 = x2 ∧ o1 = o2 := by
  have hpos : 0 < cs := by omega
  have hx : x1 = x2 := by
    have e1 : (x1 * cs + o1) / cs = x1 := by
      rw [Nat.add_comm, Nat.add_mul_div_right _ _ hpos, Nat.div_eq_of_lt h1, Nat.zero_add]
    have e2 : (x2 * cs + o2) / cs = x2 := by
      rw [Nat.add_comm, Nat.add_mul_div_right _ _ hpos, Nat.div_eq_of_lt h2, Nat.zero_add]
    rw [← e1, ← e2, h]
  subst hx
  exact ⟨rfl, by omega⟩

/-- Different positions of a file lie at different device addresses. -/
theorem file_byte_addr_inj (fs : fatfs_state) (first n : Nat)
    (hvalid : chain_valid fs first n) (hdist : chain_distinct fs first n)
    (p1 p2 : Nat) (h1 : p1 < n * get_cluster_size fs) (h2 : p2 < n * get_cluster_size fs)
    (h : file_byte_addr fs first p1 = file_byte_addr fs first p2) : p1 = p2 := by
  have hpos : 0 < get_cluster_size fs := by
    rcases Nat.eq_zero_or_pos (get_cluster_size fs) with h0 | h0
    · rw [h0] at h1; omega
    · exact h0
  have hi1 : p1 / get_cluster_size fs < n := Nat.div_lt_of_lt_mul (by rw [Nat.mul_comm]; exact h1)
  have hi2 : p2 / get_cluster_size fs < n := Nat.div_lt_of_lt_mul (by rw [Nat.mul_comm]; exact h2)
  have hv1 := hvalid _ hi1
  have hv2 := hvalid _ hi2
  have ho1 : p1 % get_cluster_size fs < get_cluster_size fs := Nat.mod_lt _ hpos
  have ho2 : p2 % get_cluster_size fs < get_cluster_size fs := Nat.mod_lt _ hpos
  have hd1 := Nat.div_add_mod p1 (get_cluster_size fs)
  have hd2 := Nat.div_add_mod p2 (get_cluster_size fs)
  have hb1 := cluster_base_eq fs (nth_cluster fs.table_chars.fatfs_begin first (p1 / get_cluster_size fs))
  have hb2 := cluster_base_eq fs (nth_cluster fs.table_chars.fatfs_begin first (p2 / get_cluster_size fs))
  have h3 : cluster_base fs (nth_cluster fs.table_chars.fatfs_begin first (p1 / get_cluster_size fs))
        + p1 % get_cluster_size fs
      = cluster_base fs (nth_cluster fs.table_chars.fatfs_begin first (p2 / get_cluster_size fs))
        + p2 % get_cluster_size fs := h
  rw [hb1, hb2] at h3
  have h' := mul_add_inj (get_cluster_size fs) _ _ _ _ ho1 ho2
    (Nat.add_left_cancel (by rw [← Nat.add_assoc, ← Nat.add_assoc]; exact h3))
  obtain ⟨hc, ho⟩ := h'
  have hcc : nth_cluster fs.table_chars.fatfs_begin first (p1 / get_cluster_size fs)
      = nth_cluster fs.table_chars.fatfs_begin first (p2 / get_cluster_size fs) := by
    have a1 := hv1.1
    have a2 := hv2.1
    unfold cluster_min at a1 a2
    omega
  have hii := hdist _ hi1 _ hi2 hcc
  rw [hii] at hd1
  rw [ho] at hd1
  omega

/-- A device read in a state with replaced device content. -/
theorem read_with_mem (fs : fatfs_state) (m buf : Nat → Nat) (b cnt : Nat) :
    nk_block_dev_read (with_mem fs m) b cnt buf
      = if b + cnt ≤ fs.dev.num_blocks then
          some (fun i => if i < cnt * fs.bootrecord.sector_size
            then m (b * fs.bootrecord.sector_size + i) else buf i)
        else none := rfl

/-- A device write in a state with replaced device content. -/
theorem write_with_mem (fs : fatfs_state) (m src : Nat → Nat) (b cnt : Nat) :
    nk_block_dev_write (with_mem fs m) b cnt src
      = if b + cnt ≤ fs.dev.num_blocks then
          some (with_mem fs (dev_store (with_mem fs m) b cnt src))
        else none := rfl

/-- Replacing the device content keeps the FAT. -/
theorem with_mem_table_chars (fs : fatfs_state) (m : Nat → Nat) :
    (with_mem fs m).table_chars = fs.table_chars := rfl

/-- Replacing the device content keeps the boot record. -/
theorem with_mem_bootrecord (fs : fatfs_state) (m : Nat → Nat) :
    (with_mem fs m).bootrecord = fs.bootrecord := rfl

/-- Replacing the device content keeps the sector of a cluster. -/
theorem get_sector_num_with_mem (fs : fatfs_state) (m : Nat → Nat) (c : Nat) :
    get_sector_num c (with_mem fs m) = get_sector_num c fs := rfl

/-- The in-place loop writes the remaining source bytes at their file positions and nothing else. -/
theorem write_inplace_loop_spec (fs : fatfs_state) (src : Nat → Nat) (nb first n : Nat)
    (hvalid : chain_valid fs first n) (hdist : chain_distinct fs first n)
    (hdev : chain_on_dev fs first n) :
    ∀ (fuel : Nat) (m buf : Nat → Nat) (i r s : Nat),
      r ≤ get_cluster_size fs → s < nb →
      i * get_cluster_size fs + r + (nb - s) ≤ n * get_cluster_size fs →
      nb - s + (if r < get_cluster_size fs then 0 else 1) ≤ fuel →
      ∃ m', write_inplace_loop src nb (get_cluster_size fs) fuel (with_mem fs m) buf
            (nth_cluster fs.table_chars.fatfs_begin first i) r s
          = some (Step.next (with_mem fs m', nb)) ∧
        (∀ t, t < nb - s →
          m' (file_byte_addr fs first (i * get_cluster_size fs + r + t)) = src (s + t)) ∧
        (∀ a, (∀ t, t < nb - s →
            a ≠ file_byte_addr fs first (i * get_cluster_size fs + r + t)) → m' a = m a) := by
  intro fuel
  induction fuel with
  | zero => intro m buf i r s hr hs hP hfuel; omega
  | succ fuel ih =>
    intro m buf i r s hr hs hP hfuel
    generalize hcsd : get_cluster_size fs = cs at *
    have hcs : 0 < cs := by
      rcases Nat.eq_zero_or_pos cs with h | h
      · rw [h, Nat.mul_zero] at hP; omega
      · exact h
    have hi : i < n := by
      refine Nat.lt_of_mul_lt_mul_right (show i * cs < n * cs from ?_)
      omega
    have hdi : get_sector_num (nth_cluster fs.table_chars.fatfs_begin first i) fs
        + fs.bootrecord.cluster_size ≤ fs.dev.num_blocks := hdev i hi
    have hk : MIN (cs - r) (nb - s) = min (cs - r) (nb - s) := MIN_eq_min _ _
    generalize hkd : MIN (cs - r) (nb - s) = k at hk
    have hk1 : k ≤ cs - r := by rw [hk]; exact min_le_left _ _
    have hk2 : k ≤ nb - s := by rw [hk]; exact min_le_right _ _
    have hk3 : k = cs - r ∨ k = nb - s := by
      rw [hk]; rcases le_total (cs - r) (nb - s) with h | h
      · left; exact min_eq_left h
      · right; exact min_eq_right h
    have hmem := rmw_mem fs m buf src (nth_cluster fs.table_chars.fatfs_begin first i) r s k
      (by rw [hcsd]; omega)
    -- the addresses of the bytes written in this cluster
    have haddr : ∀ t, t < k →
        file_byte_addr fs first (i * cs + r + t)
          = cluster_base fs (nth_cluster fs.table_chars.fatfs_begin first i) + r + t := by
      intro t ht
      have := file_byte_addr_in fs first i (r + t) (by rw [hcsd]; omega)
      rw [hcsd] at this
      rw [Nat.add_assoc, this, Nat.add_assoc]
    unfold write_inplace_loop
    simp only [read_with_mem, write_with_mem, get_sector_num_with_mem, with_mem_bootrecord,
      with_mem_table_chars, if_pos hdi, hkd]
    by_cases hcont : s + k < nb
    · -- the loop goes on with the next cluster
      have hkcs : k = cs - r := by omega
      simp only [if_pos hcont]
      rw [← nth_cluster_succ fs.table_chars.fatfs_begin first i]
      obtain ⟨m', hrun, hw, hframe⟩ := ih
        (dev_store (with_mem fs m)
          (get_sector_num (nth_cluster fs.table_chars.fatfs_begin first i) fs)
          fs.bootrecord.cluster_size
          (memcpy (fun j => if j < fs.bootrecord.cluster_size * fs.bootrecord.sector_size
            then m (get_sector_num (nth_cluster fs.table_chars.fatfs_begin first i) fs
              * fs.bootrecord.sector_size + j) else buf j) r src s k))
        (memcpy (fun j => if j < fs.bootrecord.cluster_size * fs.bootrecord.sector_size
            then m (get_sector_num (nth_cluster fs.table_chars.fatfs_begin first i) fs
              * fs.bootrecord.sector_size + j) else buf j) r src s k)
        (i + 1) 0 (s + k) (by omega) hcont
        (by rw [Nat.add_mul]; omega) (by
          simp only [hcs, if_true]
          split_ifs at hfuel <;> omega)
      refine ⟨m', hrun, ?_, ?_⟩
      · intro t ht
        by_cases htk : t < k
        · rw [hframe]
          · rw [hmem, haddr t htk, if_pos (by omega)]
            congr 1; omega
          · intro t' ht' heq
            have := file_byte_addr_inj fs first n hvalid hdist _ _
              (by rw [hcsd]; omega) (by rw [hcsd, Nat.add_mul] at *; omega) heq
            rw [Nat.add_mul] at this
            omega
        · have := hw (t - k) (by omega)
          have e1 : (i + 1) * cs + 0 + (t - k) = i * cs + r + t := by
            rw [Nat.add_mul]; omega
          have e2 : s + k + (t - k) = s + t := by omega
          rw [e1, e2] at this
          exact this
      · intro a ha
        rw [hframe]
        · rw [hmem, if_neg]
          intro hin
          apply ha (a - (cluster_base fs (nth_cluster fs.table_chars.fatfs_begin first i) + r))
            (by omega)
          rw [haddr _ (by omega)]
          omega
        · intro t' ht'
          have := ha (k + t') (by omega)
          have e1 : (i + 1) * cs + 0 + t' = i * cs + r + (k + t') := by
            rw [Nat.add_mul]; omega
          rw [e1]; exact this
    · -- the write is satisfied
      have hknb : k = nb - s := by omega
      simp only [if_neg hcont]
      have hsk : s + k = nb := by omega
      refine ⟨_, by rw [hsk], ?_, ?_⟩
      · intro t ht
        rw [hmem, haddr t (by omega), if_pos (by omega)]
        congr 1; omega
      · intro a ha
        rw [hmem, if_neg]
        intro hin
        apply ha (a - (cluster_base fs (nth_cluster fs.table_chars.fatfs_begin first i) + r))
          (by omega)
        rw [haddr _ (by omega)]
        omega

/-- C3: a write that ends strictly inside the file (`num_bytes > 0`,
`offset + num_bytes < file_size`) on a writable file whose chain has valid,
pairwise different clusters for the whole size.  `fatfs_write` returns
`num_bytes`; the device holds the source bytes at the file positions
`[offset, offset + num_bytes)`; every other byte of the device is as before
(the other bytes of the file and the directory entry with its size); the
in-memory FAT and the rest of the state are unchanged. -/
theorem C3_inplace_write (path_lookup : PathLookup) (fuel : Nat) (fs : fatfs_state)
    (file : List Nat) (src : Nat → Nat) (offset num_bytes n : Nat)
    (hex : (path_lookup fs file 0).dir_num ≠ -1)
    (hro : (path_lookup fs file 0).dir_ent.readonly = 0)
    (hnb : 0 < num_bytes)
    (hlt : offset + num_bytes < lookup_size path_lookup fs file)
    (hn : lookup_size path_lookup fs file ≤ n * get_cluster_size fs)
    (hvalid : chain_valid fs (lookup_first_cluster path_lookup fs file) n)
    (hdist : chain_distinct fs (lookup_first_cluster path_lookup fs file) n)
    (hdev : chain_on_dev fs (lookup_first_cluster path_lookup fs file) n)
    (hfuel : lookup_size path_lookup fs file < fuel) :
    ∃ fs1, fatfs_write path_lookup fuel fs file (some src) offset num_bytes
        = some ⟨(num_bytes : Int), fs1, some src⟩ ∧
      fs1.table_chars = fs.table_chars ∧ fs1.bootrecord = fs.bootrecord ∧
      fs1.dev.num_blocks = fs.dev.num_blocks ∧
      (∀ p, offset ≤ p → p < offset + num_bytes →
        fs1.dev.mem (file_byte_addr fs (lookup_first_cluster path_lookup fs file) p)
          = src (p - offset)) ∧
      (∀ a, (∀ p, offset ≤ p → p < offset + num_bytes →
          a ≠ file_byte_addr fs (lookup_first_cluster path_lookup fs file) p) →
        fs1.dev.mem a = fs.dev.mem a) := by
  simp only [lookup_size, lookup_first_cluster] at *
  generalize hsz : (path_lookup fs file 0).dir_ent.size = size at *
  generalize hfc : DECODE_CLUSTER (path_lookup fs file 0).dir_ent.high_cluster
    (path_lookup fs file 0).dir_ent.low_cluster = first at *
  have hcs : 0 < get_cluster_size fs := by
    rcases Nat.eq_zero_or_pos (get_cluster_size fs) with h | h
    · rw [h, Nat.mul_zero] at hn; omega
    · exact h
  have hq1 : (offset - 1) / get_cluster_size fs * get_cluster_size fs ≤ offset - 1 :=
    Nat.div_mul_le_self _ _
  have hq2 : offset - 1 < ((offset - 1) / get_cluster_size fs + 1) * get_cluster_size fs := by
    have := Nat.lt_mul_div_succ (offset - 1) hcs
    rw [Nat.mul_comm] at this
    exact this
  generalize hqd : (offset - 1) / get_cluster_size fs = q at hq1 hq2
  have hqle : q ≤ q * get_cluster_size fs := Nat.le_mul_of_pos_right q hcs
  rw [Nat.add_mul] at hq2
  have hqn : q < n :=
    Nat.lt_of_mul_lt_mul_right (show q * get_cluster_size fs < n * get_cluster_size fs by omega)
  have hseek := seek_loop_spec fs (get_cluster_size fs) hcs fuel first offset
    (by rw [hqd]; omega)
    (by
      intro k _ hk2
      rw [hqd] at hk2
      exact hvalid k (by omega))
  rw [hqd] at hseek
  obtain ⟨m', hrun, hw, hframe⟩ := write_inplace_loop_spec fs src num_bytes first n
    hvalid hdist hdev fuel fs.dev.mem (fun _ => 0) q (offset - q * get_cluster_size fs) 0
    (by omega) hnb (by omega) (by split_ifs <;> omega)
  rw [with_mem_self] at hrun
  have hpos : q * get_cluster_size fs + (offset - q * get_cluster_size fs) = offset := by omega
  refine ⟨with_mem fs m', ?_, rfl, rfl, rfl, ?_, ?_⟩
  · have hne : ¬ (size < offset) := by omega
    have hmod : (offset + num_bytes) % 2 ^ 64 < size :=
      lt_of_le_of_lt (Nat.mod_le _ _) hlt
    have hro2 : ¬ ((path_lookup fs file 0).dir_ent.readonly ≠ 0) := by simp [hro]
    have hmod2 : ¬ (size ≤ (offset + num_bytes) % 18446744073709551616) := by
      norm_num at hmod; omega
    simp [fatfs_write, fatfs_read_write, hex, hsz, hfc, hne, hseek, hrun, hmod2, hro]
  · intro p hp1 hp2
    have := hw (p - offset) (by omega)
    rw [hpos] at this
    have e : offset + (p - offset) = p := by omega
    rw [e] at this
    simpa using this
  · intro a ha
    apply hframe
    intro t ht
    rw [hpos]
    exact ha (offset + t) (by omega) (by omega)

/-- C3, witness: 500 bytes written at offset 100 of the 1024-byte file of `ex_fs`. -/
theorem C3_inplace_write_witness :
    ∃ fs1, fatfs_write (lookup_entry 2 0) 2000 ex_fs ex_path (some ex_src) 100 500
        = some ⟨500, fs1, some ex_src⟩ ∧
      fs1.table_chars = ex_fs.table_chars ∧ fs1.bootrecord = ex_fs.bootrecord ∧
      fs1.dev.num_blocks = ex_fs.dev.num_blocks ∧
      (∀ p, 100 ≤ p → p < 100 + 500 →
        fs1.dev.mem (file_byte_addr ex_fs (lookup_first_cluster (lookup_entry 2 0) ex_fs ex_path) p)
          = ex_src (p - 100)) ∧
      (∀ a, (∀ p, 100 ≤ p → p < 100 + 500 →
          a ≠ file_byte_addr ex_fs (lookup_first_cluster (lookup_entry 2 0) ex_fs ex_path) p) →
        fs1.dev.mem a = ex_fs.dev.mem a) :=
  C3_inplace_write (lookup_entry 2 0) 2000 ex_fs ex_path ex_src 100 500 2
    (by decide) (by decide) (by decide) (by decide) (by decide) (by decide) (by decide)
    (by decide) (by decide)

/-! ## Write followed by read -/

/-- C1, at a failing input: on the 1024-byte file of `ex_fs` (512-byte
clusters) a write of 500 bytes at offset 100 returns 500 and the read of the
same range returns 500, but the buffer does not hold the bytes written:
`buf[88]` holds source byte 412 and `buf[412]` is never filled.  The first
cluster gives 412 bytes; `read_loop` then advances `dest_off` by
`MIN(cluster_size - remainder, to_be_read)` computed from the already
decremented `to_be_read` (88), so the second cluster is copied to `buf + 88`. -/
theorem C1_read_back_differs :
    ∃ w r d,
      fatfs_write (lookup_entry 2 0) 2000 ex_fs ex_path (some ex_src) 100 500 = some w ∧
      w.ret = 500 ∧
      fatfs_read (lookup_entry 2 0) 2000 w.fs ex_path (some (fun _ => 0)) 100 500 = some r ∧
      r.ret = 500 ∧ r.srcdest = some d ∧
      d 88 = ex_src 412 ∧ d 88 ≠ ex_src 88 ∧ d 412 = 0 := by
  refine ⟨_, _, _, rfl, ?_, rfl, ?_, rfl, ?_, ?_, ?_⟩
  · decide
  · decide
  · decide
  · decide
  · decide

/-! ## The FAT manager -/

/-- A cluster found by the linear scan is FREE and lies in the scanned range. -/
theorem find_free_from_spec (fat : Nat → Nat) :
    ∀ (n c0 c : Nat), find_free_from fat n c0 = some c →
      fat c = FREE_CLUSTER ∧ c0 ≤ c ∧ c < c0 + n := by
  intro n
  induction n with
  | zero => intro c0 c h; simp [find_free_from] at h
  | succ n ih =>
    intro c0 c h
    unfold find_free_from at h
    by_cases hf : fat c0 = FREE_CLUSTER
    · rw [if_pos hf] at h
      cases h
      exact ⟨hf, le_refl _, by omega⟩
    · rw [if_neg hf] at h
      obtain ⟨h1, h2, h3⟩ := ih (c0 + 1) c h
      exact ⟨h1, by omega, by omega⟩

/-- A cluster found by `find_free` is FREE and a valid cluster number. -/
theorem find_free_spec (fat : Nat → Nat) (cmin cmax c : Nat)
    (h : find_free fat cmin cmax = some c) :
    fat c = FREE_CLUSTER ∧ cmin ≤ c ∧ c ≤ cmax := by
  obtain ⟨h1, h2, h3⟩ := find_free_from_spec fat _ _ _ h
  exact ⟨h1, h2, by omega⟩

/-- Growing a chain changes only the entry of the tail and entries that were FREE. -/
theorem grow_links_frame (cmin cmax : Nat) :
    ∀ (k : Nat) (fat : Nat → Nat) (tail : Nat) (fat1 : Nat → Nat),
      grow_links cmin cmax k fat tail = some fat1 →
      ∀ x, x ≠ tail → fat x ≠ FREE_CLUSTER → fat1 x = fat x := by
  intro k
  induction k with
  | zero =>
    intro fat tail fat1 h x _ _
    simp only [grow_links, Option.some.injEq] at h
    rw [h]
  | succ k ih =>
    intro fat tail fat1 h x hx hfx
    unfold grow_links at h
    cases hff : find_free fat cmin cmax with
    | none => rw [hff] at h; simp at h
    | some c =>
      rw [hff] at h
      simp only at h
      obtain ⟨hc1, hc2, hc3⟩ := find_free_spec fat cmin cmax c hff
      have hxc : x ≠ c := by
        intro e; rw [e] at hfx; exact hfx hc1
      have h1 := ih _ c fat1 h x hxc (by simp [fat_set, hxc, hx, hfx])
      rw [h1]
      simp [fat_set, hxc, hx]

/-- The clusters linked behind the tail were FREE and are valid cluster numbers. -/
theorem grow_links_fresh (cmin cmax : Nat) (hmin : 0 < cmin) :
    ∀ (k : Nat) (fat : Nat → Nat) (tail : Nat) (fat1 : Nat → Nat),
      grow_links cmin cmax k fat tail = some fat1 →
      fat tail ≠ FREE_CLUSTER →
      ∀ j, 1 ≤ j → j ≤ k →
        fat (nth_cluster fat1 tail j) = FREE_CLUSTER ∧
        cmin ≤ nth_cluster fat1 tail j ∧ nth_cluster fat1 tail j ≤ cmax := by
  intro k
  induction k with
  | zero => intro fat tail fat1 _ _ j h1 h2; omega
  | succ k ih =>
    intro fat tail fat1 h htail j hj1 hj2
    unfold grow_links at h
    cases hff : find_free fat cmin cmax with
    | none => rw [hff] at h; simp at h
    | some c =>
      rw [hff] at h
      simp only at h
      obtain ⟨hc1, hc2, hc3⟩ := find_free_spec fat cmin cmax c hff
      have htc : tail ≠ c := by
        intro e; rw [e] at htail; exact htail hc1
      have hc0 : c ≠ FREE_CLUSTER := by unfold FREE_CLUSTER; omega
      have hft : fat1 tail = c := by
        have := grow_links_frame cmin cmax k _ c fat1 h tail htc
          (by simp [fat_set, htc, hc0])
        rw [this]; simp [fat_set, htc]
      obtain ⟨j', rfl⟩ : ∃ j', j = j' + 1 := ⟨j - 1, by omega⟩
      have hn : nth_cluster fat1 tail (j' + 1) = nth_cluster fat1 c j' := by
        simp only [nth_cluster, hft]
      rw [hn]
      rcases Nat.eq_zero_or_pos j' with h0 | h0
      · subst h0
        exact ⟨hc1, hc2, hc3⟩
      · have hih := ih _ c fat1 h (by simp [fat_set, EOC_MAX, FREE_CLUSTER]) j' h0 (by omega)
        obtain ⟨ha, hb, hcx⟩ := hih
        refine ⟨?_, hb, hcx⟩
        generalize nth_cluster fat1 c j' = y at ha
        unfold fat_set at ha
        by_cases hyc : y = c
        · simp [hyc, EOC_MAX, FREE_CLUSTER] at ha
        · by_cases hyt : y = tail
          · subst hyt
            simp [htc] at ha
            exact absurd ha hc0
          · simpa [hyc, hyt] using ha

/-! ## Writing past the end of the file -/

/-- A device write leaves the bytes outside the written sectors alone. -/
theorem dev_store_outside (fs : fatfs_state) (b cnt : Nat) (src : Nat → Nat) (a : Nat)
    (h : ¬ (b * fs.bootrecord.sector_size ≤ a ∧ a < (b + cnt) * fs.bootrecord.sector_size)) :
    dev_store fs b cnt src a = fs.dev.mem a := by
  unfold dev_store; rw [if_neg h]

/-- Writing a cluster leaves the bytes outside that cluster alone. -/
theorem cluster_store_outside (fs : fatfs_state) (m src : Nat → Nat) (c a : Nat)
    (h : ¬ in_cluster fs c a) :
    dev_store (with_mem fs m) (get_sector_num c fs) fs.bootrecord.cluster_size src a = m a := by
  rw [dev_store_outside]
  · rfl
  · intro hin
    apply h
    unfold in_cluster cluster_base get_cluster_size
    simp only [with_mem_bootrecord, Nat.add_mul] at hin
    exact hin

/-- Different clusters of the data region do not overlap. -/
theorem in_cluster_disjoint (fs : fatfs_state) (c1 c2 a : Nat)
    (h1 : cluster_min fs ≤ c1) (h2 : cluster_min fs ≤ c2) (hne : c1 ≠ c2)
    (hin : in_cluster fs c1 a) : ¬ in_cluster fs c2 a := by
  intro hin2
  unfold in_cluster at hin hin2
  rw [cluster_base_eq] at hin hin2
  unfold cluster_min at h1 h2
  generalize get_cluster_size fs = cs at *
  generalize fs.bootrecord.rootdir_cluster = R at *
  rcases Nat.lt_or_gt_of_ne hne with hlt | hlt
  · have : (c1 - R + 1) * cs ≤ (c2 - R) * cs := Nat.mul_le_mul_right _ (by omega)
    rw [Nat.add_mul] at this
    omega
  · have : (c2 - R + 1) * cs ≤ (c1 - R) * cs := Nat.mul_le_mul_right _ (by omega)
    rw [Nat.add_mul] at this
    omega

/-- The loop over the clusters the file already has: it ends at the last cluster of the chain, has
consumed the source bytes that fit, and has written inside the chain only. -/
theorem write_fill_loop_spec (fs : fatfs_state) (src : Nat → Nat) (nb first n : Nat)
    (hvalid : chain_valid fs first n)
    (heoc : is_eoc (nth_cluster fs.table_chars.fatfs_begin first n))
    (hdev : chain_on_dev fs first n) :
    ∀ (fuel : Nat) (m buf : Nat → Nat) (i cl r s : Nat),
      i ≤ n → n - i < fuel → r ≤ get_cluster_size fs → s ≤ nb →
      ∃ m1 buf1, write_fill_loop src nb (get_cluster_size fs) (cluster_min fs) (cluster_max fs)
            fuel (with_mem fs m) buf (nth_cluster fs.table_chars.fatfs_begin first i) cl r s
          = some (Step.next (with_mem fs m1, buf1,
              (if i < n then nth_cluster fs.table_chars.fatfs_begin first (n - 1) else cl),
              min nb (s + ((n - i) * get_cluster_size fs - r)))) ∧
        (∀ a, (∀ j, j < n → ¬ in_cluster fs (nth_cluster fs.table_chars.fatfs_begin first j) a) →
          m1 a = m a) := by
  intro fuel
  induction fuel with
  | zero => intro m buf i cl r s _ h; omega
  | succ fuel ih =>
    intro m buf i cl r s hi hfuel hr hs
    generalize hcsd : get_cluster_size fs = cs at *
    unfold write_fill_loop
    rcases Nat.lt_or_ge i n with hlt | hge
    · -- a cluster of the chain
      obtain ⟨hv1, hv2, hv3⟩ := hvalid i hlt
      have hne : ¬ (nth_cluster fs.table_chars.fatfs_begin first i ≥ EOC_MIN ∧
          nth_cluster fs.table_chars.fatfs_begin first i ≤ EOC_MAX) := by
        intro h; omega
      have hdi : get_sector_num (nth_cluster fs.table_chars.fatfs_begin first i) fs
          + fs.bootrecord.cluster_size ≤ fs.dev.num_blocks := hdev i hlt
      have hnext : ¬ (nth_cluster fs.table_chars.fatfs_begin first (i + 1) < cluster_min fs ∨
          (nth_cluster fs.table_chars.fatfs_begin first (i + 1) > cluster_max fs ∧
            nth_cluster fs.table_chars.fatfs_begin first (i + 1) < EOC_MIN)) := by
        rcases Nat.lt_or_ge (i + 1) n with h1 | h1
        · obtain ⟨w1, w2, w3⟩ := hvalid (i + 1) h1
          intro h; omega
        · have e : i + 1 = n := by omega
          rw [e]
          obtain ⟨w1, w2⟩ := heoc
          intro h; omega
      simp only [hne, not_false_eq_true, if_true, read_with_mem, write_with_mem,
        get_sector_num_with_mem, with_mem_bootrecord, with_mem_table_chars, if_pos hdi]
      rw [← nth_cluster_succ fs.table_chars.fatfs_begin first i]
      simp only [if_neg hnext]
      have hk : MIN (cs - r) (nb - s) = min (cs - r) (nb - s) := MIN_eq_min _ _
      generalize hkd : MIN (cs - r) (nb - s) = k at hk
      obtain ⟨m1, buf1, hrun, hframe⟩ := ih
        (dev_store (with_mem fs m)
          (get_sector_num (nth_cluster fs.table_chars.fatfs_begin first i) fs)
          fs.bootrecord.cluster_size
          (memcpy (fun j => if j < fs.bootrecord.cluster_size * fs.bootrecord.sector_size
            then m (get_sector_num (nth_cluster fs.table_chars.fatfs_begin first i) fs
              * fs.bootrecord.sector_size + j) else buf j) r src s k))
        (memcpy (fun j => if j < fs.bootrecord.cluster_size * fs.bootrecord.sector_size
            then m (get_sector_num (nth_cluster fs.table_chars.fatfs_begin first i) fs
              * fs.bootrecord.sector_size + j) else buf j) r src s k)
        (i + 1) (nth_cluster fs.table_chars.fatfs_begin first i) 0 (s + k)
        (by omega) (by omega) (by omega)
        (by rw [hk]; have := min_le_right (cs - r) (nb - s); omega)
      refine ⟨m1, buf1, ?_, ?_⟩
      · rw [hrun]
        have e1 : (if i + 1 < n then nth_cluster fs.table_chars.fatfs_begin first (n - 1)
            else nth_cluster fs.table_chars.fatfs_begin first i)
            = nth_cluster fs.table_chars.fatfs_begin first (n - 1) := by
          split_ifs with h
          · rfl
          · have : i = n - 1 := by omega
            rw [this]
        have e2 : min nb (s + k + ((n - (i + 1)) * cs - 0)) = min nb (s + ((n - i) * cs - r)) := by
          have e3 : (n - i) * cs = (n - (i + 1)) * cs + cs := by
            have : n - i = (n - (i + 1)) + 1 := by omega
            rw [this, Nat.add_mul, Nat.one_mul]
          rw [e3]
          generalize (n - (i + 1)) * cs = X
          rcases le_total (cs - r) (nb - s) with h | h
          · rw [hk, min_eq_left h]
            congr 1; omega
          · rw [hk, min_eq_right h]
            rw [min_eq_left (by omega), min_eq_left (by omega)]
        rw [e1, e2, if_pos hlt]
      · intro a ha
        rw [hframe a ha]
        exact cluster_store_outside fs m _ _ a (ha i hlt)
    · -- the end of the chain
      have e : i = n := by omega
      subst e
      have hy : (nth_cluster fs.table_chars.fatfs_begin first i ≥ EOC_MIN ∧
          nth_cluster fs.table_chars.fatfs_begin first i ≤ EOC_MAX) := heoc
      rw [if_neg (not_not.mpr hy)]
      refine ⟨m, buf, ?_, fun a _ => rfl⟩
      simp only [lt_irrefl, if_false, Nat.sub_self, Nat.zero_mul, Nat.zero_sub, Nat.add_zero]
      rw [min_eq_right hs]

/-- The loop over the freshly allocated clusters consumes the rest of the source and writes
inside those clusters only. -/
theorem write_new_loop_spec (fsx : fatfs_state) (src : Nat → Nat) (nb : Nat) :
    ∀ (fuel K : Nat) (m buf : Nat → Nat) (c s : Nat),
      s < nb → nb - s ≤ K * get_cluster_size fsx → K ≤ fuel →
      (∀ j, j < K → cluster_on_dev fsx (nth_cluster fsx.table_chars.fatfs_begin c j)) →
      ∃ m3, write_new_loop src nb (get_cluster_size fsx) fuel (with_mem fsx m) buf c s
          = some (Step.next (with_mem fsx m3, nb)) ∧
        (∀ a, (∀ j, j < K → ¬ in_cluster fsx (nth_cluster fsx.table_chars.fatfs_begin c j) a) →
          m3 a = m a) := by
  intro fuel
  induction fuel with
  | zero =>
    intro K m buf c s hs hK hfuel _
    have : K = 0 := by omega
    subst this
    omega
  | succ fuel ih =>
    intro K m buf c s hs hK hfuel hdev
    generalize hcsd : get_cluster_size fsx = cs at *
    have hKpos : 0 < K := by
      rcases Nat.eq_zero_or_pos K with h | h
      · subst h; omega
      · exact h
    have hd0 : get_sector_num c fsx + fsx.bootrecord.cluster_size ≤ fsx.dev.num_blocks :=
      hdev 0 hKpos
    have hk : MIN cs (nb - s) = min cs (nb - s) := MIN_eq_min _ _
    generalize hkd : MIN cs (nb - s) = k at hk
    unfold write_new_loop
    simp only [write_with_mem, get_sector_num_with_mem, with_mem_bootrecord,
      with_mem_table_chars, if_pos hd0, hkd]
    by_cases hcont : nb > s + k
    · simp only [if_pos hcont]
      have hkcs : k = cs := by
        rcases le_total cs (nb - s) with h | h
        · rw [hk, min_eq_left h]
        · rw [hk, min_eq_right h] at hcont; omega
      have hK' : nb - (s + k) ≤ (K - 1) * cs := by
        have : K * cs = (K - 1) * cs + cs := by
          have e : K = (K - 1) + 1 := by omega
          rw [e, Nat.add_mul, Nat.one_mul]; simp
        omega
      obtain ⟨m3, hrun, hframe⟩ := ih (K - 1)
        (dev_store (with_mem fsx m) (get_sector_num c fsx) fsx.bootrecord.cluster_size
          (memcpy (memset buf 0 0 cs) 0 src s k))
        (memcpy (memset buf 0 0 cs) 0 src s k)
        (fsx.table_chars.fatfs_begin c) (s + k) hcont hK' (by omega)
        (by
          intro j hj
          have := hdev (j + 1) (by omega)
          simpa [nth_cluster] using this)
      refine ⟨m3, hrun, ?_⟩
      intro a ha
      rw [hframe]
      · exact cluster_store_outside fsx m _ c a (ha 0 hKpos)
      · intro j hj
        have := ha (j + 1) (by omega)
        simpa [nth_cluster] using this
    · simp only [if_neg hcont]
      have hkn : s + k = nb := by
        have := min_le_right cs (nb - s)
        omega
      refine ⟨_, by rw [hkn], ?_⟩
      intro a ha
      exact cluster_store_outside fsx m _ c a (ha 0 hKpos)

/-- Replacing the FAT and replacing the device content commute. -/
theorem with_fat_with_mem (fs : fatfs_state) (m fat : Nat → Nat) :
    with_fat (with_mem fs m) fat = with_mem (with_fat fs fat) m := rfl

/-- A flush of the FAT succeeds when both copies lie on the device, and it writes only there. -/
theorem flush_FAT_spec (fs : fatfs_state) (m : Nat → Nat)
    (hfit : fs.bootrecord.reservedblock_size + 2 * fs.table_chars.fatfs_size ≤ fs.dev.num_blocks) :
    ∃ m1, flush_FAT (with_mem fs m) = some (with_mem fs m1) ∧
      ∀ a, (fs.bootrecord.reservedblock_size + 2 * fs.table_chars.fatfs_size)
          * fs.bootrecord.sector_size ≤ a → m1 a = m a := by
  unfold flush_FAT
  have h1 : fs.bootrecord.reservedblock_size + fs.table_chars.fatfs_size ≤ fs.dev.num_blocks := by
    omega
  have h2 : fs.bootrecord.reservedblock_size + fs.table_chars.fatfs_size
      + fs.table_chars.fatfs_size ≤ fs.dev.num_blocks := by omega
  simp only [write_with_mem, with_mem_bootrecord, with_mem_table_chars, if_pos h1, if_pos h2]
  refine ⟨_, rfl, ?_⟩
  intro a ha
  have e : (fs.bootrecord.reservedblock_size + 2 * fs.table_chars.fatfs_size)
      * fs.bootrecord.sector_size
      = fs.bootrecord.reservedblock_size * fs.bootrecord.sector_size
        + fs.table_chars.fatfs_size * fs.bootrecord.sector_size
        + fs.table_chars.fatfs_size * fs.bootrecord.sector_size := by ring
  rw [e] at ha
  rw [dev_store_outside]
  · show dev_store (with_mem fs m) _ _ _ a = m a
    rw [dev_store_outside]
    · rfl
    · simp only [with_mem_bootrecord, Nat.add_mul]; omega
  · simp only [with_mem_bootrecord, Nat.add_mul]; omega

/-- A growth of `grow_shrink_chain` behind an existing tail: the new FAT, flushed to the FAT region. -/
theorem grow_shrink_chain_grow (fs : fatfs_state) (m fat1 : Nat → Nat) (tail k : Nat)
    (hk : 0 < k)
    (hgrow : grow_links (cluster_min fs) (cluster_max fs) k fs.table_chars.fatfs_begin tail
      = some fat1)
    (hfit : fs.bootrecord.reservedblock_size + 2 * fs.table_chars.fatfs_size ≤ fs.dev.num_blocks) :
    ∃ m1, grow_shrink_chain (with_mem fs m) (tail : Int) (k : Int)
        = (with_mem (with_fat fs fat1) m1, 0) ∧
      ∀ a, (fs.bootrecord.reservedblock_size + 2 * fs.table_chars.fatfs_size)
          * fs.bootrecord.sector_size ≤ a → m1 a = m a := by
  obtain ⟨m1, hflush, hframe⟩ := flush_FAT_spec (with_fat fs fat1) m hfit
  refine ⟨m1, ?_, hframe⟩
  unfold grow_shrink_chain
  have h1 : (k : Int) > 0 := by exact_mod_cast hk
  have h2 : ¬ ((tail : Int) = -1) := by omega
  have hg : grow_links (cluster_min (with_mem fs m)) (cluster_max (with_mem fs m)) k
      (with_mem fs m).table_chars.fatfs_begin tail = some fat1 := hgrow
  simp only [if_pos h1, if_neg h2, Int.toNat_ofNat, hg, with_fat_with_mem, hflush]

/-- Four little-endian bytes of a 32-bit value load back to it. -/
theorem le_load_bytes (m : Nat → Nat) (a v : Nat) (hv : v < 2 ^ 32)
    (h : ∀ j, j < 4 → m (a + j) = le_byte v j) : le_load m a 4 = v := by
  have h0 := h 0 (by omega)
  have h1 := h 1 (by omega)
  have h2 := h 2 (by omega)
  have h3 := h 3 (by omega)
  simp only [le_byte, Nat.add_zero, pow_zero, Nat.div_one, pow_one] at h0 h1 h2 h3
  norm_num at h2 h3 hv
  simp only [le_load, Nat.add_assoc]
  norm_num
  rw [h0, h1, h2, h3]
  omega

/-- The device after a cluster has been read, a little-endian field stored in it, and written back. -/
theorem rmw_store_mem (fs : fatfs_state) (m buf : Nat → Nat) (c off w v : Nat)
    (hk : off + w ≤ get_cluster_size fs) (a : Nat) :
    dev_store (with_mem fs m) (get_sector_num c fs) fs.bootrecord.cluster_size
      (le_store (fun i => if i < fs.bootrecord.cluster_size * fs.bootrecord.sector_size
          then m (get_sector_num c fs * fs.bootrecord.sector_size + i) else buf i) off w v) a
      = if cluster_base fs c + off ≤ a ∧ a < cluster_base fs c + off + w
          then le_byte v (a - (cluster_base fs c + off)) else m a := by
  unfold dev_store le_store cluster_base with_mem
  simp only [get_cluster_size] at hk
  simp only [Nat.add_mul]
  generalize get_sector_num c fs * fs.bootrecord.sector_size = b at *
  generalize fs.bootrecord.cluster_size * fs.bootrecord.sector_size = cs at *
  split_ifs <;> first | rfl | (exfalso; omega) | (congr 1; omega)

/-- The update of the size field of a directory entry changes the four bytes of that field only. -/
theorem update_dir_size_spec (fsx : fatfs_state) (m : Nat → Nat) (dirc dn v : Nat)
    (hdev : cluster_on_dev fsx dirc)
    (hin : dn * DIR_ENTRY_SIZE + DIR_ENTRY_SIZE ≤ get_cluster_size fsx)
    (hbuf : get_cluster_size fsx ≤ fsx.bootrecord.directory_entry_num * DIR_ENTRY_SIZE)
    (hv : v < 2 ^ 32) :
    ∃ m4, update_dir_size (with_mem fsx m) dirc dn v = some (some (with_mem fsx m4)) ∧
      le_load m4 (cluster_base fsx dirc + dn * DIR_ENTRY_SIZE + OFF_SIZE) 4 = v ∧
      ∀ a, ¬ (cluster_base fsx dirc + dn * DIR_ENTRY_SIZE + OFF_SIZE ≤ a ∧
          a < cluster_base fsx dirc + dn * DIR_ENTRY_SIZE + OFF_SIZE + 4) → m4 a = m a := by
  have hd : get_sector_num dirc fsx + fsx.bootrecord.cluster_size ≤ fsx.dev.num_blocks := hdev
  have hcap : fsx.bootrecord.cluster_size * fsx.bootrecord.sector_size
      ≤ fsx.bootrecord.directory_entry_num * DIR_ENTRY_SIZE ∧
      dn < fsx.bootrecord.directory_entry_num := by
    refine ⟨hbuf, ?_⟩
    unfold get_cluster_size at hin hbuf
    unfold DIR_ENTRY_SIZE at hin hbuf
    omega
  unfold DIR_ENTRY_SIZE at hin
  have hmem := rmw_store_mem fsx m (fun _ => 0) dirc (dn * DIR_ENTRY_SIZE + OFF_SIZE) 4 v
    (by unfold DIR_ENTRY_SIZE OFF_SIZE; omega)
  refine ⟨dev_store (with_mem fsx m) (get_sector_num dirc fsx) fsx.bootrecord.cluster_size
      (le_store (fun i => if i < fsx.bootrecord.cluster_size * fsx.bootrecord.sector_size
          then m (get_sector_num dirc fsx * fsx.bootrecord.sector_size + i) else 0)
        (dn * DIR_ENTRY_SIZE + OFF_SIZE) 4 v), ?_, ?_, ?_⟩
  · unfold update_dir_size
    simp only [read_with_mem, write_with_mem, get_sector_num_with_mem, with_mem_bootrecord,
      if_pos hd, if_pos hcap]
  · apply le_load_bytes _ _ _ hv
    intro j hj
    rw [hmem, if_pos (by omega)]
    congr 1; omega
  · intro a ha
    rw [hmem, if_neg (by omega)]

/-- The rounded-up quotient by a positive number is at most the dividend. -/
theorem CEIL_DIV_le (x cs : Nat) (hcs : 0 < cs) : CEIL_DIV x cs ≤ x := by
  unfold CEIL_DIV
  have h1 := Nat.div_add_mod x cs
  have h3 : x / cs ≤ cs * (x / cs) := Nat.le_mul_of_pos_left _ hcs
  split_ifs with h
  · omega
  · have : 0 < x % cs := Nat.pos_of_ne_zero h
    rcases Nat.lt_or_ge 1 cs with h2 | h2
    · have : 2 * (x / cs) ≤ cs * (x / cs) := Nat.mul_le_mul_right _ h2
      rcases Nat.eq_zero_or_pos (x / cs) with h0 | h0
      · omega
      · omega
    · have : cs = 1 := by omega
      subst this
      omega

/-- The rounded-up quotient times the divisor covers the dividend. -/
theorem le_CEIL_DIV_mul (x cs : Nat) (hcs : 0 < cs) : x ≤ CEIL_DIV x cs * cs := by
  unfold CEIL_DIV
  have h1 := Nat.div_add_mod x cs
  have h2 := Nat.mod_lt x hcs
  rw [Nat.add_mul, Nat.mul_comm (x / cs) cs]
  split_ifs with h
  · omega
  · omega

/-- Every cluster starts behind the two FAT copies. -/
theorem data_region_start (fs : fatfs_state) (c : Nat) (hfat : fat_copies_ok fs) :
    (fs.bootrecord.reservedblock_size + 2 * fs.table_chars.fatfs_size) * fs.bootrecord.sector_size
      ≤ cluster_base fs c := by
  unfold cluster_base get_sector_num
  apply Nat.mul_le_mul_right
  have := hfat.2
  omega

/-- Valid clusters lie on a device that holds the data region. -/
theorem valid_on_dev (fs : fatfs_state) (hdata : data_on_dev fs) (first n : Nat)
    (hvalid : chain_valid fs first n) : chain_on_dev fs first n := by
  intro k hk
  obtain ⟨h1, h2, _⟩ := hvalid k hk
  exact hdata _ h2 h1

/-- C5, at two failing inputs on `ex_fs2` (512-byte clusters).  Truncating
the 1024-byte file `A.TXT` to length 0 returns `-1` and the size stays 1024;
growing the empty file `B.TXT` (one cluster, size 0) to length 100 returns
`-1` and the size stays 0.  In both, the bound `clusters - 1` of the walking
loop (lines 561 and 582) is computed in `size_t` from a cluster count of 0,
so the loop walks the chain until it meets the end-of-chain value and
returns `-1`. -/
theorem C5_truncate_fails :
    (∃ fs1, fatfs_truncate (lookup_entry 2 0) 2000 ex_fs2 ex_path 0 = some (-1, fs1) ∧
      fatfs_stat_path (lookup_entry 2 0) fs1 ex_path = (0, some 1024)) ∧
    (∃ fs1, fatfs_truncate (lookup_entry 2 1) 2000 ex_fs2 ex_path_b 100 = some (-1, fs1) ∧
      fatfs_stat_path (lookup_entry 2 1) fs1 ex_path_b = (0, some 0)) := by
  refine ⟨⟨_, rfl, ?_⟩, ⟨_, rfl, ?_⟩⟩
  · decide
  · decide

/-- C6, at a failing input: truncating the 1024-byte file `A.TXT` of `ex_fs2`
(two 512-byte clusters) to length 13 succeeds and sets the size to 13, but
the retained byte at file position 12, which held `'a'`, is zero afterwards:
the `memset` of line 574 starts at `file_content + size - 1`. -/
theorem C6_truncate_clears_last_kept_byte :
    ∃ fs1, fatfs_truncate (lookup_entry 2 0) 2000 ex_fs2 ex_path 13 = some (0, fs1) ∧
      fatfs_stat_path (lookup_entry 2 0) fs1 ex_path = (0, some 13) ∧
      ex_fs2.dev.mem (file_byte_addr ex_fs2 3 12) = 97 ∧
      fs1.dev.mem (file_byte_addr ex_fs2 3 12) = 0 ∧
      fs1.dev.mem (file_byte_addr ex_fs2 3 11) = 97 := by
  refine ⟨_, rfl, ?_, ?_, ?_, ?_⟩
  · decide
  · decide
  · decide
  · decide

/-! ## Removing -/

/-- C7, at a failing input: removing `A.TXT` from `ex_fs2`, whose chain is
`3 -> 4 -> EOC` with the end-of-chain value `0x0FFFFFFF`, returns 0 and frees
the entries 3 and 4, and it also stores FREE at index `0x0FFFFFFF` of the
in-memory table (line 475, `fatfs_begin[cluster_num] = FREE_CLUSTER` after
the loop has left `cluster_num` at the end-of-chain value): the word there,
`0x12345678` before, is 0 afterwards. -/
theorem C7_remove_stores_at_eoc_index :
    ∃ fs1, fatfs_remove (lookup_entry 2 0) 2000 ex_fs2 ex_path = some (0, fs1) ∧
      fs1.table_chars.fatfs_begin 3 = FREE_CLUSTER ∧
      fs1.table_chars.fatfs_begin 4 = FREE_CLUSTER ∧
      ex_fs2.table_chars.fatfs_begin 0x0FFFFFFF = 0x12345678 ∧
      fs1.table_chars.fatfs_begin 0x0FFFFFFF = FREE_CLUSTER ∧
      fs1.table_chars.fatfs_begin 5 = ex_fs2.table_chars.fatfs_begin 5 := by
  refine ⟨_, rfl, ?_, ?_, ?_, ?_, ?_⟩
  · decide
  · decide
  · decide
  · decide
  · decide


/-- Storing a FAT entry keeps the device, the boot record and the size of the table. -/
theorem set_fat_entry_dev (fs : fatfs_state) (i v : Nat) :
    (set_fat_entry fs i v).dev = fs.dev ∧ (set_fat_entry fs i v).bootrecord = fs.bootrecord ∧
    (set_fat_entry fs i v).table_chars.fatfs_size = fs.table_chars.fatfs_size :=
  ⟨rfl, rfl, rfl⟩

/-- The loop of `fatfs_remove` touches the in-memory FAT only. -/
theorem remove_loop_dev (cmin cmax : Nat) :
    ∀ (fuel : Nat) (fs : fatfs_state) (c : Nat) (fs1 : fatfs_state) (c1 : Nat),
      remove_loop cmin cmax fuel fs c = some (Step.next (fs1, c1)) →
      fs1.dev = fs.dev ∧ fs1.bootrecord = fs.bootrecord ∧
      fs1.table_chars.fatfs_size = fs.table_chars.fatfs_size := by
  intro fuel
  induction fuel with
  | zero => intro fs c fs1 c1 h; simp [remove_loop] at h
  | succ fuel ih =>
    intro fs c fs1 c1 h
    unfold remove_loop at h
    simp only at h
    split_ifs at h with h1 h2
    · simp at h
    · simp only [Option.some.injEq, Step.next.injEq, Prod.mk.injEq] at h
      rw [← h.1]
      exact ⟨rfl, rfl, rfl⟩
    · obtain ⟨e1, e2, e3⟩ := ih _ _ _ _ h
      exact ⟨e1, e2, e3⟩


/-- The loop of `fatfs_remove` returns from inside only with `-1`. -/
theorem remove_loop_ret (cmin cmax : Nat) :
    ∀ (fuel : Nat) (fs : fatfs_state) (c : Nat) (r : Int) (fs1 : fatfs_state),
      remove_loop cmin cmax fuel fs c = some (Step.ret r fs1) → r = -1 := by
  intro fuel
  induction fuel with
  | zero => intro fs c r fs1 h; simp [remove_loop] at h
  | succ fuel ih =>
    intro fs c r fs1 h
    unfold remove_loop at h
    simp only at h
    split_ifs at h with h1 h2
    · simp only [Option.some.injEq, Step.ret.injEq] at h
      exact h.1.symm
    · simp at h
    · exact ih _ _ _ _ h

/-- A device write that succeeds changes the device content only, as `dev_store` says. -/
theorem nk_block_dev_write_some (fs fs1 : fatfs_state) (b cnt : Nat) (src : Nat → Nat)
    (h : nk_block_dev_write fs b cnt src = some fs1) :
    fs1.bootrecord = fs.bootrecord ∧ fs1.table_chars = fs.table_chars ∧
    fs1.dev.num_blocks = fs.dev.num_blocks ∧ fs1.dev.mem = dev_store fs b cnt src := by
  unfold nk_block_dev_write at h
  split_ifs at h
  simp only [Option.some.injEq] at h
  rw [← h]
  exact ⟨rfl, rfl, rfl, rfl⟩

/-- A device read that succeeds fills the first `cnt` sectors of the buffer from the device. -/
theorem nk_block_dev_read_some (fs : fatfs_state) (b cnt : Nat) (dest buf : Nat → Nat)
    (h : nk_block_dev_read fs b cnt dest = some buf) :
    buf = fun i => if i < cnt * fs.bootrecord.sector_size
      then fs.dev.mem (b * fs.bootrecord.sector_size + i) else dest i := by
  unfold nk_block_dev_read at h
  split_ifs at h
  simp only [Option.some.injEq] at h
  exact h.symm

/-- C8: after a successful `fatfs_remove` (it returned 0), on a volume whose
two FAT copies lie in front of the data region and for an entry index inside
the directory sector, the 32 bytes of entry `dir_num` of the directory sector
that `path_lookup` reported are zero, and every other byte of that sector is
as it was before the call. -/
theorem C8_remove_clears_entry (path_lookup : PathLookup) (fuel : Nat) (fs fs1 : fatfs_state)
    (path : List Nat)
    (hslot : lookup_dir_num path_lookup fs path * DIR_ENTRY_SIZE + DIR_ENTRY_SIZE
      ≤ fs.bootrecord.sector_size)
    (hfat : 2 * fs.table_chars.fatfs_size ≤ fs.bootrecord.FAT_num * fs.bootrecord.fatfs_size)
    (h : fatfs_remove path_lookup fuel fs path = some (0, fs1)) :
    (∀ k, k < DIR_ENTRY_SIZE →
      fs1.dev.mem (dir_entry_addr fs (lookup_dir_cluster path_lookup fs path)
        (lookup_dir_num path_lookup fs path) + k) = 0) ∧
    (∀ a, cluster_base fs (lookup_dir_cluster path_lookup fs path) ≤ a →
      a < cluster_base fs (lookup_dir_cluster path_lookup fs path) + fs.bootrecord.sector_size →
      ¬ (dir_entry_addr fs (lookup_dir_cluster path_lookup fs path)
            (lookup_dir_num path_lookup fs path) ≤ a ∧
          a < dir_entry_addr fs (lookup_dir_cluster path_lookup fs path)
            (lookup_dir_num path_lookup fs path) + DIR_ENTRY_SIZE) →
      fs1.dev.mem a = fs.dev.mem a) := by
  simp only [lookup_dir_cluster, lookup_dir_num, dir_entry_addr] at *
  generalize hdc : (path_lookup fs path 0).dir_cluster_num = dirc at *
  generalize hdn : (path_lookup fs path 0).dir_num.toNat = dn at *
  unfold fatfs_remove at h
  simp only [hdc, hdn] at h
  split_ifs at h with hex
  · simp at h
  · cases hloop : remove_loop (cluster_min fs) (cluster_max fs) fuel fs
        (DECODE_CLUSTER (path_lookup fs path 0).dir_ent.high_cluster
          (path_lookup fs path 0).dir_ent.low_cluster) with
    | none => rw [hloop] at h; simp at h
    | some st =>
      rw [hloop] at h
      cases st with
      | ret r fsr =>
        simp only [Option.some.injEq, Prod.mk.injEq] at h
        have := remove_loop_ret _ _ _ _ _ _ _ hloop
        omega
      | next x =>
        obtain ⟨fsl, c1⟩ := x
        obtain ⟨e1, e2, e3⟩ := remove_loop_dev _ _ _ _ _ _ _ hloop
        simp only at h
        generalize hfs2 : set_fat_entry fsl c1 FREE_CLUSTER = fs2 at h
        have f1 : fs2.dev = fs.dev := by rw [← hfs2]; exact e1
        have f2 : fs2.bootrecord = fs.bootrecord := by rw [← hfs2]; exact e2
        cases hw1 : nk_block_dev_write fs2 fs2.bootrecord.reservedblock_size
            fs.table_chars.fatfs_size (fat_bytes fs2.table_chars.fatfs_begin) with
        | none => rw [hw1] at h; simp at h
        | some fs3 =>
          rw [hw1] at h
          simp only at h
          obtain ⟨g1, _, _, g4⟩ := nk_block_dev_write_some _ _ _ _ _ hw1
          cases hw2 : nk_block_dev_write fs3
              (fs3.bootrecord.reservedblock_size + fs.table_chars.fatfs_size)
              fs.table_chars.fatfs_size (fat_bytes fs2.table_chars.fatfs_begin) with
          | none => rw [hw2] at h; simp at h
          | some fs4 =>
            rw [hw2] at h
            simp only at h
            obtain ⟨k1, _, _, k4⟩ := nk_block_dev_write_some _ _ _ _ _ hw2
            cases hr : nk_block_dev_read fs4 (get_sector_num dirc fs4) 1 (fun _ => 0) with
            | none => rw [hr] at h; simp at h
            | some full_dirs =>
              rw [hr] at h
              simp only at h
              have hbuf := nk_block_dev_read_some _ _ _ _ _ hr
              cases hw3 : nk_block_dev_write fs4 (get_sector_num dirc fs4) 1
                  (memset full_dirs (dn * DIR_ENTRY_SIZE) 0 DIR_ENTRY_SIZE) with
              | none => rw [hw3] at h; simp at h
              | some fs5 =>
                rw [hw3] at h
                simp only [Option.some.injEq, Prod.mk.injEq, true_and] at h
                obtain ⟨_, _, _, l4⟩ := nk_block_dev_write_some _ _ _ _ _ hw3
                subst h
                -- geometry
                have hb4 : fs4.bootrecord = fs.bootrecord := by rw [k1, g1, f2]
                have hb3 : fs3.bootrecord = fs.bootrecord := by rw [g1, f2]
                have hsec : get_sector_num dirc fs4 = get_sector_num dirc fs := by
                  unfold get_sector_num; rw [hb4]
                -- the device before the directory sector is rewritten
                have hpre : ∀ a, cluster_base fs dirc ≤ a → fs4.dev.mem a = fs.dev.mem a := by
                  intro a ha
                  have hstart : (fs.bootrecord.reservedblock_size
                      + fs.bootrecord.FAT_num * fs.bootrecord.fatfs_size)
                      * fs.bootrecord.sector_size ≤ cluster_base fs dirc := by
                    unfold cluster_base get_sector_num
                    apply Nat.mul_le_mul_right
                    omega
                  have hle : (fs.bootrecord.reservedblock_size + 2 * fs.table_chars.fatfs_size)
                      * fs.bootrecord.sector_size
                      ≤ (fs.bootrecord.reservedblock_size
                        + fs.bootrecord.FAT_num * fs.bootrecord.fatfs_size)
                        * fs.bootrecord.sector_size := by
                    apply Nat.mul_le_mul_right
                    omega
                  have e : (fs.bootrecord.reservedblock_size + 2 * fs.table_chars.fatfs_size)
                      * fs.bootrecord.sector_size
                      = fs.bootrecord.reservedblock_size * fs.bootrecord.sector_size
                        + fs.table_chars.fatfs_size * fs.bootrecord.sector_size
                        + fs.table_chars.fatfs_size * fs.bootrecord.sector_size := by ring
                  rw [k4, dev_store_outside, g4, dev_store_outside, f1]
                  · rw [f2]; simp only [Nat.add_mul]; omega
                  · rw [hb3]; simp only [Nat.add_mul]; omega
                have hmem : ∀ a, fs5.dev.mem a
                    = if cluster_base fs dirc ≤ a ∧ a < cluster_base fs dirc + fs.bootrecord.sector_size
                      then (if cluster_base fs dirc + dn * DIR_ENTRY_SIZE ≤ a ∧
                          a < cluster_base fs dirc + dn * DIR_ENTRY_SIZE + DIR_ENTRY_SIZE then 0
                        else fs.dev.mem a)
                      else fs4.dev.mem a := by
                  intro a
                  rw [l4, hbuf]
                  unfold dev_store memset
                  rw [hsec, hb4]
                  unfold cluster_base
                  simp only [Nat.add_mul, Nat.one_mul]
                  by_cases hin : get_sector_num dirc fs * fs.bootrecord.sector_size ≤ a ∧
                      a < get_sector_num dirc fs * fs.bootrecord.sector_size
                        + fs.bootrecord.sector_size
                  · rw [if_pos hin, if_pos hin]
                    have := hpre a hin.1
                    unfold DIR_ENTRY_SIZE at *
                    split_ifs <;> first | rfl | (exfalso; omega) | skip
                    rw [← this]
                    congr 1
                    omega
                  · rw [if_neg hin, if_neg hin]
                refine ⟨?_, ?_⟩
                · intro k hk
                  rw [hmem]
                  unfold DIR_ENTRY_SIZE at *
                  rw [if_pos (by omega), if_pos (by omega)]
                · intro a ha1 ha2 hnot
                  rw [hmem, if_pos ⟨ha1, ha2⟩, if_neg hnot]

/-- C8, witness: the removal of `A.TXT` (entry 0 of the root directory) from `ex_fs2`. -/
theorem C8_remove_clears_entry_witness :
    ∃ fs1, fatfs_remove (lookup_entry 2 0) 2000 ex_fs2 ex_path = some (0, fs1) ∧
      (∀ k, k < DIR_ENTRY_SIZE →
        fs1.dev.mem (dir_entry_addr ex_fs2 (lookup_dir_cluster (lookup_entry 2 0) ex_fs2 ex_path)
          (lookup_dir_num (lookup_entry 2 0) ex_fs2 ex_path) + k) = 0) ∧
      (∀ a, cluster_base ex_fs2 (lookup_dir_cluster (lookup_entry 2 0) ex_fs2 ex_path) ≤ a →
        a < cluster_base ex_fs2 (lookup_dir_cluster (lookup_entry 2 0) ex_fs2 ex_path)
          + ex_fs2.bootrecord.sector_size →
        ¬ (dir_entry_addr ex_fs2 (lookup_dir_cluster (lookup_entry 2 0) ex_fs2 ex_path)
              (lookup_dir_num (lookup_entry 2 0) ex_fs2 ex_path) ≤ a ∧
            a < dir_entry_addr ex_fs2 (lookup_dir_cluster (lookup_entry 2 0) ex_fs2 ex_path)
              (lookup_dir_num (lookup_entry 2 0) ex_fs2 ex_path) + DIR_ENTRY_SIZE) →
        fs1.dev.mem a = ex_fs2.dev.mem a) :=
  ⟨_, rfl, C8_remove_clears_entry (lookup_entry 2 0) 2000 ex_fs2 _ ex_path
    (by decide) (by decide) rfl⟩

/-! ## Creating -/

/-- The name bytes that `fill_entry` leaves for a directory. -/
theorem fill_entry_dir_name (fp : FilenameParser) (fd : Nat → Nat) (i : Nat) (name : List Nat)
    (isdir nc k : Nat) (hd : isdir ≠ 0) (hk : k < 8) :
    fill_entry fp fd i name isdir nc (i * DIR_ENTRY_SIZE + OFF_NAME + k)
      = strncpy_byte (cstr name) 8 k := by
  unfold fill_entry le_store strncpy strncpy_byte
  simp only [if_pos hd, DIR_ENTRY_SIZE, OFF_NAME, OFF_ATTR, OFF_SIZE, OFF_HIGH, OFF_LOW, Nat.add_zero]
  rw [if_neg (by omega), if_neg (by omega), if_neg (by omega), if_neg (by omega),
    if_pos (by omega)]
  have e : i * 32 + k - i * 32 = k := by omega
  rw [e]

/-- The extension bytes of a directory entry are not written by `fill_entry`. -/
theorem fill_entry_dir_ext (fp : FilenameParser) (fd : Nat → Nat) (i : Nat) (name : List Nat)
    (isdir nc j : Nat) (hd : isdir ≠ 0) (hj : j < 3) :
    fill_entry fp fd i name isdir nc (i * DIR_ENTRY_SIZE + OFF_EXT + j)
      = fd (i * DIR_ENTRY_SIZE + OFF_EXT + j) := by
  unfold fill_entry le_store strncpy
  simp only [if_pos hd, DIR_ENTRY_SIZE, OFF_NAME, OFF_EXT, OFF_ATTR, OFF_SIZE, OFF_HIGH, OFF_LOW,
    Nat.add_zero]
  rw [if_neg (by omega), if_neg (by omega), if_neg (by omega), if_neg (by omega),
    if_neg (by omega)]

/-- The first `name_len` name bytes that `fill_entry` leaves for a file. -/
theorem fill_entry_file_name (fp : FilenameParser) (fd : Nat → Nat) (i : Nat) (name : List Nat)
    (isdir nc k : Nat) (hd : isdir = 0) (hk : k < 8) (hkl : k < (fp name).name_len) :
    fill_entry fp fd i name isdir nc (i * DIR_ENTRY_SIZE + OFF_NAME + k)
      = strncpy_byte (fp name).file_name (fp name).name_len k := by
  unfold fill_entry le_store strncpy strncpy_byte
  have hd' : ¬ (isdir ≠ 0) := by simp [hd]
  simp only [if_neg hd', DIR_ENTRY_SIZE, OFF_NAME, OFF_EXT, OFF_ATTR, OFF_SIZE, OFF_HIGH, OFF_LOW,
    Nat.add_zero]
  rw [if_neg (by omega), if_neg (by omega), if_neg (by omega), if_neg (by omega),
    if_neg (by omega), if_pos (by omega)]
  have e : i * 32 + k - i * 32 = k := by omega
  rw [e]

/-- The first `ext_len` extension bytes that `fill_entry` leaves for a file. -/
theorem fill_entry_file_ext (fp : FilenameParser) (fd : Nat → Nat) (i : Nat) (name : List Nat)
    (isdir nc j : Nat) (hd : isdir = 0) (hj : j < 3) (hjl : j < (fp name).ext_len) :
    fill_entry fp fd i name isdir nc (i * DIR_ENTRY_SIZE + OFF_EXT + j)
      = strncpy_byte (fp name).file_ext (fp name).ext_len j := by
  unfold fill_entry le_store strncpy strncpy_byte
  have hd' : ¬ (isdir ≠ 0) := by simp [hd]
  simp only [if_neg hd', DIR_ENTRY_SIZE, OFF_NAME, OFF_EXT, OFF_ATTR, OFF_SIZE, OFF_HIGH, OFF_LOW,
    Nat.add_zero]
  rw [if_neg (by omega), if_neg (by omega), if_neg (by omega), if_neg (by omega),
    if_pos (by omega)]
  have e : i * 32 + 8 + j - (i * 32 + 8) = j := by omega
  rw [e]

/-- The length that `strncpy` sees of a C string without NUL bytes. -/
theorem str_len_upto_cstr (l : List Nat) (hl : ∀ b ∈ l, b ≠ 0) :
    ∀ n, str_len_upto (cstr l) n = min n l.length := by
  intro n
  induction n with
  | zero => simp [str_len_upto]
  | succ n ih =>
    unfold str_len_upto
    rw [ih]
    rcases Nat.lt_or_ge l.length n with h | h
    · rw [if_pos (by rw [min_eq_right (le_of_lt h)]; exact h)]
      rw [min_eq_right (le_of_lt h), min_eq_right (by omega)]
    · rw [if_neg (by rw [min_eq_left h]; omega)]
      rcases Nat.eq_or_lt_of_le h with h1 | h1
      · have : cstr l n = 0 := by
          unfold cstr; rw [h1]; simp
        rw [if_pos this, min_eq_right (by omega)]
        exact h1
      · have : cstr l n ≠ 0 := by
          unfold cstr
          rw [List.getD_eq_getElem _ _ h1]
          exact hl _ (List.getElem_mem _)
        rw [if_neg this, min_eq_left (by omega)]

/-- The bytes of a padded and truncated list. -/
theorem pad_getD (l : List Nat) (n v k : Nat) (hk : k < n) :
    ((l ++ List.replicate n v).take n).getD k 0 = if k < l.length then l.getD k 0 else v := by
  rw [List.getD_eq_getElem?_getD, List.getElem?_take_of_lt hk]
  split_ifs with h
  · rw [List.getElem?_append_left h, List.getD_eq_getElem?_getD]
  · rw [List.getElem?_append_right (by omega), List.getElem?_replicate]
    rw [if_pos (by omega)]
    rfl

/-- The bytes `strncpy` leaves from a name are the name padded with NUL bytes. -/
theorem strncpy_byte_raw (name : List Nat) (hl : ∀ b ∈ name, b ≠ 0) (k : Nat) (hk : k < 8) :
    strncpy_byte (cstr name) 8 k = (raw_name_8 name).getD k 0 := by
  unfold strncpy_byte raw_name_8
  rw [str_len_upto_cstr name hl, pad_getD _ _ _ _ hk]
  unfold cstr
  rcases Nat.lt_or_ge k name.length with h | h
  · rw [if_pos (by rw [lt_min_iff]; exact ⟨hk, h⟩), if_pos h]
  · rw [if_neg (by rw [lt_min_iff]; omega), if_neg (by omega)]

/-- Both parts of a name split on its last dot consist of bytes of the name. -/
theorem split_last_dot_mem (name : List Nat) :
    (∀ x ∈ (split_last_dot name).1, x ∈ name) ∧ (∀ x ∈ (split_last_dot name).2, x ∈ name) := by
  unfold split_last_dot
  rw [List.span_eq_take_drop]
  cases hd : List.dropWhile (fun c => decide (c ≠ 46)) name.reverse with
  | nil => simp
  | cons y b =>
    simp only
    constructor
    · intro x hx
      have h1 : x ∈ y :: b := List.mem_cons_of_mem _ (List.mem_reverse.mp hx)
      rw [← hd] at h1
      exact List.mem_reverse.mp ((List.dropWhile_sublist _).subset h1)
    · intro x hx
      exact List.mem_reverse.mp ((List.takeWhile_sublist _).subset (List.mem_reverse.mp hx))

/-- Upper case keeps a byte different from NUL. -/
theorem to_upper_ne_zero (x : Nat) (h : x ≠ 0) : to_upper x ≠ 0 := by
  unfold to_upper; split_ifs <;> omega

/-- A space-padded list has the requested length and no NUL byte. -/
theorem pad_to_spec (n : Nat) (l : List Nat) (hl : ∀ b ∈ l, b ≠ 0) :
    (pad_to n l).length = n ∧ ∀ b ∈ pad_to n l, b ≠ 0 := by
  unfold pad_to
  constructor
  · simp
  · intro b hb
    have := List.mem_of_mem_take hb
    rcases List.mem_append.mp this with h | h
    · exact hl b h
    · rw [List.eq_of_mem_replicate h]; omega

/-- The bytes `strncpy` leaves from a space-padded field are the field. -/
theorem strncpy_byte_pad (n : Nat) (l : List Nat) (hl : ∀ b ∈ l, b ≠ 0) (k : Nat) (hk : k < n) :
    strncpy_byte (cstr (pad_to n l)) n k = (pad_to n l).getD k 0 := by
  obtain ⟨h1, h2⟩ := pad_to_spec n l hl
  unfold strncpy_byte
  rw [str_len_upto_cstr _ h2, h1, min_self, if_pos hk]
  rfl

/-- With `parse_83` the bytes `strncpy` leaves are the 8.3 encoding. -/
theorem encode_83_bytes (name : List Nat) (hl : ∀ b ∈ name, b ≠ 0) :
    (∀ k, k < 8 → strncpy_byte (parse_83 name).file_name (parse_83 name).name_len k
      = (encode_83 name).1.getD k 0) ∧
    (∀ j, j < 3 → strncpy_byte (parse_83 name).file_ext (parse_83 name).ext_len j
      = (encode_83 name).2.getD j 0) := by
  obtain ⟨m1, m2⟩ := split_last_dot_mem name
  constructor
  · intro k hk
    apply strncpy_byte_pad 8 _ _ k hk
    intro b hb
    obtain ⟨x, hx, rfl⟩ := List.mem_map.mp hb
    exact to_upper_ne_zero x (hl x (m1 x hx))
  · intro j hj
    apply strncpy_byte_pad 3 _ _ j hj
    intro b hb
    obtain ⟨x, hx, rfl⟩ := List.mem_map.mp hb
    exact to_upper_ne_zero x (hl x (m2 x hx))

/-- A flush of the FAT keeps the boot record. -/
theorem flush_FAT_bootrecord (fs fs1 : fatfs_state) (h : flush_FAT fs = some fs1) :
    fs1.bootrecord = fs.bootrecord := by
  unfold flush_FAT at h
  cases hw : nk_block_dev_write fs fs.bootrecord.reservedblock_size fs.table_chars.fatfs_size
      (fat_bytes fs.table_chars.fatfs_begin) with
  | none => rw [hw] at h; simp at h
  | some fs2 =>
    rw [hw] at h
    simp only at h
    rw [(nk_block_dev_write_some _ _ _ _ _ h).1, (nk_block_dev_write_some _ _ _ _ _ hw).1]

/-- The chain manager keeps the boot record. -/
theorem grow_shrink_chain_bootrecord (fs : fatfs_state) (c d : Int) :
    (grow_shrink_chain fs c d).1.bootrecord = fs.bootrecord := by
  unfold grow_shrink_chain
  split_ifs
  · split
    · rfl
    · split
      · rfl
      · split
        · rfl
        · rename_i h
          have e := flush_FAT_bootrecord _ _ h
          exact e
  · split
    · rfl
    · split
      · rfl
      · rename_i h
        have e := flush_FAT_bootrecord _ _ h
        exact e
  · split
    · rfl
    · split
      · rfl
      · rename_i h
        have e := flush_FAT_bootrecord _ _ h
        exact e
  · rfl

/-- After a successful end of `fatfs_create` with a free slot inside the sector, the device holds
the filled entry at that slot. -/
theorem create_finish_entry (fp : FilenameParser) (fs fs1 : fatfs_state) (name pwn : List Nat)
    (isdir dirc c i : Nat) (fd fd2 : Nat → Nat)
    (hi : i < FLOOR_DIV fs.bootrecord.sector_size DIR_ENTRY_SIZE)
    (hspc : 0 < fs.bootrecord.cluster_size)
    (h : create_finish fp fs name pwn isdir dirc c i fd fd2 = (1, fs1)) :
    ∃ nc, ∀ off, off < DIR_ENTRY_SIZE →
      fs1.dev.mem (dir_entry_addr fs c i + off)
        = fill_entry fp fd2 i name isdir nc (i * DIR_ENTRY_SIZE + off) := by
  unfold create_finish at h
  have hne : ¬ (i = FLOOR_DIV fs.bootrecord.sector_size DIR_ENTRY_SIZE) := by omega
  simp only [if_neg hne] at h
  have hb2 := grow_shrink_chain_bootrecord fs (-1) 1
  generalize grow_shrink_chain fs (-1) 1 = g at h hb2
  obtain ⟨fs2, nc⟩ := g
  simp only at h hb2
  split_ifs at h with h1 h2
  · simp at h
  · -- the parent directory is not the root: its cluster is written first
    cases hw : nk_block_dev_write fs2 (get_sector_num dirc fs2) fs2.bootrecord.cluster_size fd with
    | none => rw [hw] at h; simp at h
    | some fs3 =>
      rw [hw] at h
      simp only at h
      have hb3 := (nk_block_dev_write_some _ _ _ _ _ hw).1
      cases hw2 : nk_block_dev_write fs3 (get_sector_num c fs3) fs3.bootrecord.cluster_size
          (fill_entry fp fd2 i name isdir nc.toNat) with
      | none => rw [hw2] at h; simp at h
      | some fs4 =>
        rw [hw2] at h
        simp only [Prod.mk.injEq, true_and] at h
        subst h
        have hm := (nk_block_dev_write_some _ _ _ _ _ hw2).2.2.2
        refine ⟨nc.toNat, ?_⟩
        intro off hoff
        rw [hm]
        unfold dev_store dir_entry_addr cluster_base get_sector_num
        rw [hb3, hb2]
        have hle : (i + 1) * DIR_ENTRY_SIZE ≤ fs.bootrecord.sector_size :=
          (Nat.le_div_iff_mul_le (by unfold DIR_ENTRY_SIZE; omega)).mp hi
        have hss : fs.bootrecord.sector_size
            ≤ fs.bootrecord.cluster_size * fs.bootrecord.sector_size :=
          Nat.le_mul_of_pos_left _ hspc
        rw [Nat.add_mul] at hle
        simp only [Nat.add_mul]
        rw [if_pos (by omega)]
        congr 1
        omega
  · simp only at h
    cases hw2 : nk_block_dev_write fs2 (get_sector_num c fs2) fs2.bootrecord.cluster_size
        (fill_entry fp fd2 i name isdir nc.toNat) with
    | none => rw [hw2] at h; simp at h
    | some fs4 =>
      rw [hw2] at h
      simp only [Prod.mk.injEq, true_and] at h
      subst h
      have hm := (nk_block_dev_write_some _ _ _ _ _ hw2).2.2.2
      refine ⟨nc.toNat, ?_⟩
      intro off hoff
      rw [hm]
      unfold dev_store dir_entry_addr cluster_base get_sector_num
      rw [hb2]
      have hle : (i + 1) * DIR_ENTRY_SIZE ≤ fs.bootrecord.sector_size :=
        (Nat.le_div_iff_mul_le (by unfold DIR_ENTRY_SIZE; omega)).mp hi
      have hss : fs.bootrecord.sector_size
          ≤ fs.bootrecord.cluster_size * fs.bootrecord.sector_size :=
        Nat.le_mul_of_pos_left _ hspc
      rw [Nat.add_mul] at hle
      simp only [Nat.add_mul]
      rw [if_pos (by omega)]
      congr 1
      omega

/-- The name fields that `fatfs_create` stores: after a successful
`fatfs_create` (it returned the handle) whose scan found a free slot `i`
inside the scanned sector of cluster `c`, for a path whose final component
has no NUL byte.  For a directory the 8
name bytes of the new entry are the first 8 bytes of the final component as
written in the path, padded with NUL bytes, and the 3 extension bytes are
those of the slot as it was read.  For a file the first `name_len` name
bytes and the first `ext_len` extension bytes are the bytes `strncpy` takes
from the `file_name` and `file_ext` that `filename_parser` filled; when
`filename_parser` leaves the 8.3 encoding there and reports the lengths 8
and 3 (`parse_83`), name and extension are the 8.3 encoding. -/
theorem fatfs_create_name_fields (path_lookup : PathLookup) (fp : FilenameParser) (stack : Nat → Nat)
    (fuel : Nat) (fs fs1 : fatfs_state) (path : List Nat) (isdir dirc c i : Nat)
    (fd fd2 : Nat → Nat)
    (hname : ∀ b ∈ (split_path path).getLastD [], b ≠ 0)
    (hloc : create_locate path_lookup stack fuel fs path = some (some (dirc, c, i, fd, fd2)))
    (hi : i < FLOOR_DIV fs.bootrecord.sector_size DIR_ENTRY_SIZE)
    (hspc : 0 < fs.bootrecord.cluster_size)
    (hsucc : fatfs_create path_lookup fp stack fuel fs path isdir = some (1, fs1)) :
    (isdir % 2 = 1 →
      (∀ k, k < 8 → fs1.dev.mem (dir_entry_addr fs c i + (OFF_NAME + k))
        = (raw_name_8 ((split_path path).getLastD [])).getD k 0) ∧
      (∀ j, j < 3 → fs1.dev.mem (dir_entry_addr fs c i + (OFF_EXT + j))
        = fd2 (i * DIR_ENTRY_SIZE + (OFF_EXT + j)))) ∧
    (isdir % 2 = 0 →
      (∀ k, k < 8 → k < (fp ((split_path path).getLastD [])).name_len →
        fs1.dev.mem (dir_entry_addr fs c i + (OFF_NAME + k))
          = strncpy_byte (fp ((split_path path).getLastD [])).file_name
              (fp ((split_path path).getLastD [])).name_len k) ∧
      (∀ j, j < 3 → j < (fp ((split_path path).getLastD [])).ext_len →
        fs1.dev.mem (dir_entry_addr fs c i + (OFF_EXT + j))
          = strncpy_byte (fp ((split_path path).getLastD [])).file_ext
              (fp ((split_path path).getLastD [])).ext_len j)) ∧
    (isdir % 2 = 0 →
      fp ((split_path path).getLastD []) = parse_83 ((split_path path).getLastD []) →
      (∀ k, k < 8 → fs1.dev.mem (dir_entry_addr fs c i + (OFF_NAME + k))
        = (encode_83 ((split_path path).getLastD [])).1.getD k 0) ∧
      (∀ j, j < 3 → fs1.dev.mem (dir_entry_addr fs c i + (OFF_EXT + j))
        = (encode_83 ((split_path path).getLastD [])).2.getD j 0)) := by
  unfold fatfs_create at hsucc
  simp only at hsucc
  split_ifs at hsucc with hex
  · simp at hsucc
  rw [hloc] at hsucc
  simp only [Option.some.injEq] at hsucc
  obtain ⟨nc, hbytes⟩ := create_finish_entry fp fs fs1 _ _ _ dirc c i fd fd2 hi hspc hsucc
  generalize (split_path path).getLastD [] = name at *
  have hname8 : ∀ k, k < 8 → OFF_NAME + k < DIR_ENTRY_SIZE := by
    intro k hk; unfold OFF_NAME DIR_ENTRY_SIZE; omega
  have hext3 : ∀ j, j < 3 → OFF_EXT + j < DIR_ENTRY_SIZE := by
    intro j hj; unfold OFF_EXT DIR_ENTRY_SIZE; omega
  have hfile : isdir % 2 = 0 →
      (∀ k, k < 8 → k < (fp name).name_len →
        fs1.dev.mem (dir_entry_addr fs c i + (OFF_NAME + k))
          = strncpy_byte (fp name).file_name (fp name).name_len k) ∧
      (∀ j, j < 3 → j < (fp name).ext_len →
        fs1.dev.mem (dir_entry_addr fs c i + (OFF_EXT + j))
          = strncpy_byte (fp name).file_ext (fp name).ext_len j) := by
    intro hd
    constructor
    · intro k hk hkl
      rw [hbytes _ (hname8 k hk), ← Nat.add_assoc]
      exact fill_entry_file_name fp fd2 i name _ nc k hd hk hkl
    · intro j hj hjl
      rw [hbytes _ (hext3 j hj), ← Nat.add_assoc]
      exact fill_entry_file_ext fp fd2 i name _ nc j hd hj hjl
  refine ⟨?_, hfile, ?_⟩
  · intro hd
    have hd' : isdir % 2 ≠ 0 := by omega
    constructor
    · intro k hk
      rw [hbytes _ (hname8 k hk), ← Nat.add_assoc, fill_entry_dir_name fp fd2 i name _ nc k hd' hk]
      exact strncpy_byte_raw name hname k hk
    · intro j hj
      rw [hbytes _ (hext3 j hj), ← Nat.add_assoc]
      exact fill_entry_dir_ext fp fd2 i name _ nc j hd' hj
  · intro hd hp
    obtain ⟨f1, f2⟩ := hfile hd
    obtain ⟨e1, e2⟩ := encode_83_bytes name hname
    rw [hp] at f1 f2
    constructor
    · intro k hk
      rw [f1 k hk (by show k < 8; exact hk)]
      exact e1 k hk
    · intro j hj
      rw [f2 j hj (by show j < 3; exact hj)]
      exact e2 j hj

/-- The file `/foo.txt` created in the root directory of `ex_fs2` gets the
8.3 encoding `FOO` and `TXT`, through the file branch of lines 394-400. -/
theorem fatfs_create_name_fields_example :
    ∃ fs1, fatfs_create lookup_new_in_root parse_83 (fun _ => 0) 2000 ex_fs2
        ex_path_foo 0 = some (1, fs1) ∧
      (∀ k, k < 8 → fs1.dev.mem (dir_entry_addr ex_fs2 2 2 + (OFF_NAME + k))
        = (encode_83 [102, 111, 111, 46, 116, 120, 116]).1.getD k 0) ∧
      (∀ j, j < 3 → fs1.dev.mem (dir_entry_addr ex_fs2 2 2 + (OFF_EXT + j))
        = (encode_83 [102, 111, 111, 46, 116, 120, 116]).2.getD j 0) :=
  ⟨_, rfl,
    (fatfs_create_name_fields lookup_new_in_root parse_83 (fun _ => 0) 2000 ex_fs2 _
      ex_path_foo 0 2 2 2 _ _
      (by decide) rfl (by decide) (by decide) rfl).2.2 (by decide) rfl⟩

/-- C9, at a failing input: `fatfs_create("/live", 1)` on `ex_fs2`, which
takes the free slot 2 of the root directory.  The call returns the handle.
Afterwards the 8 name bytes of the new entry are the raw component `live`
followed by four NUL bytes, not the 8.3 encoding `LIVE` followed by four
spaces, and the 3 extension bytes are the zero bytes that the slot held, not
three spaces: the directory branch of lines 389-392 only runs
`strncpy(full_dirs2[i].name, name, 8)`, where the file branch of the same
`if` (lines 394-400) takes name and extension from `filename_parser`. -/
theorem C9_directory_name_not_83 :
    ∃ fs1, fatfs_create lookup_new_in_root parse_83 (fun _ => 0) 2000 ex_fs2 ex_path_live 1
        = some (1, fs1) ∧
      (List.range 8).map (fun k => fs1.dev.mem (dir_entry_addr ex_fs2 2 2 + (OFF_NAME + k)))
        = [108, 105, 118, 101, 0, 0, 0, 0] ∧
      (encode_83 [108, 105, 118, 101]).1 = [76, 73, 86, 69, 32, 32, 32, 32] ∧
      (List.range 8).map (fun k => fs1.dev.mem (dir_entry_addr ex_fs2 2 2 + (OFF_NAME + k)))
        ≠ (encode_83 [108, 105, 118, 101]).1 ∧
      (List.range 3).map (fun j => ex_fs2.dev.mem (dir_entry_addr ex_fs2 2 2 + (OFF_EXT + j)))
        = [0, 0, 0] ∧
      (List.range 3).map (fun j => fs1.dev.mem (dir_entry_addr ex_fs2 2 2 + (OFF_EXT + j)))
        = [0, 0, 0] ∧
      (encode_83 [108, 105, 118, 101]).2 = [32, 32, 32] := by
  refine ⟨_, rfl, ?_, ?_, ?_, ?_, ?_, ?_⟩
  · decide
  · decide
  · decide
  · decide
  · decide
  · decide

set_option maxRecDepth 100000 in
/-- C10, at a failing input: the root directory sector of `ex_fs_full` has no
entry with `name[0] == 0` among its 16 entries.  The scan of lines 358-361
has no bound: it reads the entries 16 and 17 behind the array and stops at
index 17 when the byte behind the array is not zero (`ex_stack`); then
`i == num_dir_entry_per_file` is false, `fatfs_create` returns the handle,
the chain of the parent is not grown (its FAT entry is still the end of
chain) and the directory sector on the device is unchanged, so the new entry
is not stored.  With zero bytes behind the array the same call grows the
chain (entry 2 of the FAT becomes 20). -/
theorem C10_full_directory_scan_overruns :
    ∃ fd2 fs1 fs2,
      nk_block_dev_read ex_fs_full (get_sector_num 2 ex_fs_full) 1 ex_stack = some fd2 ∧
      FLOOR_DIV ex_fs_full.bootrecord.sector_size DIR_ENTRY_SIZE = 16 ∧
      (∀ i, i < 16 → fd2 (i * DIR_ENTRY_SIZE + OFF_NAME) ≠ 0) ∧
      scan_slot fd2 2000 0 = some 17 ∧
      fatfs_create lookup_new_in_root parse_83 ex_stack 2000 ex_fs_full ex_path_live 1
        = some (1, fs1) ∧
      fs1.table_chars.fatfs_begin 2 = ex_fs_full.table_chars.fatfs_begin 2 ∧
      is_eoc (fs1.table_chars.fatfs_begin 2) ∧
      (∀ k, k < 512 → fs1.dev.mem (cluster_base ex_fs_full 2 + k) = ex_fs_full.dev.mem (cluster_base ex_fs_full 2 + k)) ∧
      fatfs_create lookup_new_in_root parse_83 (fun _ => 0) 2000 ex_fs_full ex_path_live 1
        = some (1, fs2) ∧
      fs2.table_chars.fatfs_begin 2 = 20 := by
  refine ⟨_, _, _, rfl, ?_, ?_, ?_, rfl, ?_, ?_, ?_, rfl, ?_⟩
  · decide
  · decide
  · decide
  · decide
  · decide
  · decide
  · decide

/-! ## Renaming -/

/-- C11, at a failing input: `fatfs_rename("/A.TXT", "/b.c", 0)` on the volume
`ex_fs2`, where only `/A.TXT` resolves.  The call returns 0.  Afterwards
the 8 name bytes of the entry are the raw component `b.c` followed by NUL
bytes and the 3 extension bytes are still `TXT`, the extension of the old
name; the 8.3 encoding of `b.c` is the name `B` and the extension `C`, each
padded with spaces.  The file branch of lines 688-710 only runs
`strncpy(dir_buf[dir_num].name, name, 8)`. -/
theorem C11_rename_stores_raw_name :
    ∃ fs1, fatfs_rename (lookup_only ex_path 2 0) ex_fs2 ex_path ex_path_bc 0 = some (0, fs1) ∧
      (split_path ex_path_bc).getLastD [] = [98, 46, 99] ∧
      (List.range 8).map (fun k => fs1.dev.mem (dir_entry_addr ex_fs2 2 0 + (OFF_NAME + k)))
        = [98, 46, 99, 0, 0, 0, 0, 0] ∧
      (List.range 3).map (fun j => fs1.dev.mem (dir_entry_addr ex_fs2 2 0 + (OFF_EXT + j)))
        = [84, 88, 84] ∧
      encode_83 [98, 46, 99] = ([66, 32, 32, 32, 32, 32, 32, 32], [67, 32, 32]) := by
  refine ⟨_, rfl, ?_, ?_, ?_, ?_⟩
  · decide
  · decide
  · decide
  · decide

/-! ## Rejected calls -/

/-- C13: `fatfs_write` to an existing file whose entry has the readonly bit
set, or at an offset past the size of the file, returns `-1`; the state it
returns is the state it was given, so the device and the in-memory FAT are
as they were, and so is the buffer.  No fuel is needed. -/
theorem C13_rejected_write (path_lookup : PathLookup) (fuel : Nat) (fs : fatfs_state)
    (file : List Nat) (srcdest : Option (Nat → Nat)) (offset num_bytes : Nat)
    (hex : (path_lookup fs file 0).dir_num ≠ -1)
    (hrej : (path_lookup fs file 0).dir_ent.readonly ≠ 0 ∨
      lookup_size path_lookup fs file < offset) :
    fatfs_write path_lookup fuel fs file srcdest offset num_bytes = some ⟨-1, fs, srcdest⟩ := by
  unfold lookup_size at hrej
  cases srcdest with
  | none => rfl
  | some sd =>
    unfold fatfs_write fatfs_read_write
    simp only [if_neg hex]
    by_cases hoff : offset > (path_lookup fs file 0).dir_ent.size
    · simp only [if_pos hoff]
    · simp only [if_neg hoff]
      have hro : (path_lookup fs file 0).dir_ent.readonly ≠ 0 := by
        rcases hrej with h | h
        · exact h
        · exact absurd h hoff
      have h1 : ¬ (offset = (path_lookup fs file 0).dir_ent.size ∧ 1 % 2 = 0) := by
        intro h; exact absurd h.2 (by decide)
      have h2 : (1 % 2 ≠ 0 ∧ (path_lookup fs file 0).dir_ent.readonly ≠ 0) :=
        ⟨by decide, hro⟩
      simp only [if_neg h1, if_pos h2]

/-- C13, witness: a write to the read-only file of `ex_fs_ro`, and a write at
offset 2000 of the 1024-byte file of `ex_fs`. -/
theorem C13_rejected_write_witness :
    fatfs_write (lookup_entry 2 0) 0 ex_fs_ro ex_path (some ex_src) 0 13
        = some ⟨-1, ex_fs_ro, some ex_src⟩ ∧
      fatfs_write (lookup_entry 2 0) 0 ex_fs ex_path (some ex_src) 2000 13
        = some ⟨-1, ex_fs, some ex_src⟩ :=
  ⟨C13_rejected_write (lookup_entry 2 0) 0 ex_fs_ro ex_path (some ex_src) 0 13
      (by decide) (Or.inl (by decide)),
    C13_rejected_write (lookup_entry 2 0) 0 ex_fs ex_path (some ex_src) 2000 13
      (by decide) (Or.inr (by decide))⟩

/-- C14: for a path for which `fatfs_exists` returns true, `fatfs_create_file`
returns NULL (0) and `fatfs_create_dir` returns `-1`; the state either
returns is the state it was given, so the device and the in-memory FAT are
as they were.  No fuel is needed. -/
theorem C14_create_existing (path_lookup : PathLookup) (fp : FilenameParser)
    (stack : Nat → Nat) (fuel : Nat) (fs : fatfs_state) (path : List Nat)
    (hex : fatfs_exists path_lookup fs path = true) :
    fatfs_create_file path_lookup fp stack fuel fs path = some (0, fs) ∧
      fatfs_create_dir path_lookup fp stack fuel fs path = some (-1, fs) := by
  have h0 : fatfs_create path_lookup fp stack fuel fs path 0 = some (0, fs) := by
    unfold fatfs_create
    simp only [hex, if_true]
  have h1 : fatfs_create path_lookup fp stack fuel fs path 1 = some (0, fs) := by
    unfold fatfs_create
    simp only [hex, if_true]
  refine ⟨h0, ?_⟩
  unfold fatfs_create_dir
  rw [h1]
  rfl

/-- C14, witness: the existing path `/A.TXT` of `ex_fs`. -/
theorem C14_create_existing_witness :
    fatfs_create_file (lookup_entry 2 0) parse_83 (fun _ => 0) 0 ex_fs ex_path = some (0, ex_fs) ∧
      fatfs_create_dir (lookup_entry 2 0) parse_83 (fun _ => 0) 0 ex_fs ex_path
        = some (-1, ex_fs) :=
  C14_create_existing (lookup_entry 2 0) parse_83 (fun _ => 0) 0 ex_fs ex_path (by decide)

/-! ## Corrupt chains -/

/-- C15, at two failing inputs.  On `ex_fs_corrupt` the FAT entry of the
first cluster of `A.TXT` holds 65, above `data_end - data_start = 64` and
below the end-of-chain range: `fatfs_read` of the 1024 bytes of the file
returns 1024, and the second half of the buffer holds the content of sector
66, where cluster 65 would lie (the test of line 252 is commented out).  On
`ex_fs_corrupt_high` the entry holds `0x10000000`, above the end-of-chain
range: `fatfs_remove` returns 0 and has stored FREE at index `0x10000000` of
the table (the test of line 467 lets the value pass). -/
theorem C15_corrupt_entry_is_followed :
    ¬ valid_cluster ex_fs_corrupt (ex_fs_corrupt.table_chars.fatfs_begin 3) ∧
      ¬ is_eoc (ex_fs_corrupt.table_chars.fatfs_begin 3) ∧
      (∃ d, fatfs_read (lookup_entry 2 0) 2000 ex_fs_corrupt ex_path (some (fun _ => 0)) 0 1024
          = some ⟨1024, ex_fs_corrupt, some d⟩ ∧
        d 512 = ex_fs_corrupt.dev.mem (cluster_base ex_fs_corrupt 65) ∧ d 512 = 98) ∧
      ¬ valid_cluster ex_fs_corrupt_high (ex_fs_corrupt_high.table_chars.fatfs_begin 3) ∧
      ¬ is_eoc (ex_fs_corrupt_high.table_chars.fatfs_begin 3) ∧
      (∃ fs1, fatfs_remove (lookup_entry 2 0) 2000 ex_fs_corrupt_high ex_path = some (0, fs1) ∧
        ex_fs_corrupt_high.table_chars.fatfs_begin 0x10000000 = EOC_MAX ∧
        fs1.table_chars.fatfs_begin 0x10000000 = FREE_CLUSTER) := by
  refine ⟨?_, ?_, ⟨_, rfl, ?_, ?_⟩, ?_, ?_, ⟨_, rfl, ?_, ?_⟩⟩
  · decide
  · decide
  · decide
  · decide
  · decide
  · decide
  · decide
  · decide

/-! ## The seek -/

/-- C16, counterexample: for the offset 512 in the 1024-byte file of `ex_fs`
(512-byte clusters, chain `3 -> 4`) the seek loop makes no hop and ends at
cluster 3 with the remainder 512; `floor(512 / 512)` hops lead to cluster 4
and `512 mod 512` is 0. -/
theorem C16_seek_at_cluster_boundary :
    lookup_size (lookup_entry 2 0) ex_fs ex_path = 1024 ∧
      get_cluster_size ex_fs = 512 ∧
      seek_loop ex_fs.table_chars.fatfs_begin (get_cluster_size ex_fs) (cluster_min ex_fs)
          (cluster_max ex_fs) 2000 (lookup_first_cluster (lookup_entry 2 0) ex_fs ex_path) 512
        = some (some (3, 512)) ∧
      nth_cluster ex_fs.table_chars.fatfs_begin
          (lookup_first_cluster (lookup_entry 2 0) ex_fs ex_path) (512 / 512) = 4 ∧
      512 % 512 = 0 := by
  refine ⟨?_, ?_, ?_, ?_, ?_⟩
  · decide
  · decide
  · decide
  · decide
  · decide

/-- C16, as amended: for a chain of `n` valid clusters that covers the size
of the file and an offset up to that size, the seek loop (given more fuel
than the offset) ends, without an error, after exactly `(offset - 1) / cluster_size`
hops (no hop for the offset 0) with the remainder `offset` minus the bytes
of the clusters hopped over.  The remainder is at most `cluster_size`.  When
the offset is not a multiple of the cluster size these are
`offset / cluster_size` hops and the remainder `offset mod cluster_size`;
when it is a positive multiple, the loop makes one hop less than
`offset / cluster_size` and the remainder is `cluster_size`. -/
theorem C16_seek_arithmetic (fs : fatfs_state) (fuel first size offset n : Nat)
    (hcs : 0 < get_cluster_size fs)
    (hvalid : chain_valid fs first n)
    (hn : size ≤ n * get_cluster_size fs)
    (hoff : offset ≤ size)
    (hfuel : offset < fuel) :
    seek_loop fs.table_chars.fatfs_begin (get_cluster_size fs) (cluster_min fs) (cluster_max fs)
        fuel first offset
      = some (some (nth_cluster fs.table_chars.fatfs_begin first ((offset - 1) / get_cluster_size fs),
          offset - (offset - 1) / get_cluster_size fs * get_cluster_size fs)) ∧
    offset - (offset - 1) / get_cluster_size fs * get_cluster_size fs ≤ get_cluster_size fs ∧
    (offset % get_cluster_size fs ≠ 0 →
      (offset - 1) / get_cluster_size fs = offset / get_cluster_size fs ∧
      offset - (offset - 1) / get_cluster_size fs * get_cluster_size fs
        = offset % get_cluster_size fs) ∧
    (0 < offset → offset % get_cluster_size fs = 0 →
      (offset - 1) / get_cluster_size fs + 1 = offset / get_cluster_size fs ∧
      offset - (offset - 1) / get_cluster_size fs * get_cluster_size fs = get_cluster_size fs) := by
  generalize hcsd : get_cluster_size fs = cs at *
  have hq1 : (offset - 1) / cs * cs ≤ offset - 1 := Nat.div_mul_le_self _ _
  have hq2 : offset - 1 < ((offset - 1) / cs + 1) * cs := by
    have := Nat.lt_mul_div_succ (offset - 1) hcs
    rw [Nat.mul_comm] at this
    exact this
  have hdm := Nat.div_add_mod offset cs
  have hml := Nat.mod_lt offset hcs
  generalize hqd : (offset - 1) / cs = q at *
  generalize hdd : offset / cs = d at *
  generalize hmd : offset % cs = r at *
  rw [Nat.add_mul] at hq2
  have hqle : q ≤ q * cs := Nat.le_mul_of_pos_right q hcs
  have hcd : cs * d = d * cs := Nat.mul_comm _ _
  refine ⟨?_, ?_, ?_, ?_⟩
  · have h := seek_loop_spec fs cs hcs fuel first offset (by rw [hqd]; omega)
      (by
        intro k _ hk2
        rw [hqd] at hk2
        apply hvalid
        refine Nat.lt_of_mul_lt_mul_right (show k * cs < n * cs from ?_)
        have : k * cs ≤ q * cs := Nat.mul_le_mul_right cs hk2
        omega)
    rw [hqd] at h
    exact h
  · omega
  · intro hr
    have hqd2 : q = d := by
      have h1 : q * cs < (d + 1) * cs := by rw [Nat.add_mul]; omega
      have h2 : d * cs < (q + 1) * cs := by rw [Nat.add_mul]; omega
      have := Nat.lt_of_mul_lt_mul_right h1
      have := Nat.lt_of_mul_lt_mul_right h2
      omega
    subst hqd2
    omega
  · intro hpos hr
    have hqd2 : q + 1 = d := by
      have h1 : q * cs < d * cs := by omega
      have h2 : d * cs < (q + 2) * cs := by rw [Nat.add_mul]; omega
      have := Nat.lt_of_mul_lt_mul_right h1
      have := Nat.lt_of_mul_lt_mul_right h2
      omega
    subst hqd2
    rw [Nat.add_mul] at hcd
    omega

/-- C16, witness: the offsets 700 and 512 in the 1024-byte file of `ex_fs`. -/
theorem C16_seek_arithmetic_witness :
    seek_loop ex_fs.table_chars.fatfs_begin (get_cluster_size ex_fs) (cluster_min ex_fs)
        (cluster_max ex_fs) 2000 3 700
      = some (some (nth_cluster ex_fs.table_chars.fatfs_begin 3 ((700 - 1) / get_cluster_size ex_fs),
          700 - (700 - 1) / get_cluster_size ex_fs * get_cluster_size ex_fs)) ∧
    ((512 - 1) / get_cluster_size ex_fs + 1 = 512 / get_cluster_size ex_fs ∧
      512 - (512 - 1) / get_cluster_size ex_fs * get_cluster_size ex_fs = get_cluster_size ex_fs) :=
  ⟨(C16_seek_arithmetic ex_fs 2000 3 1024 700 2 (by decide) (by decide) (by decide) (by decide)
      (by decide)).1,
    (C16_seek_arithmetic ex_fs 2000 3 1024 512 2 (by decide) (by decide) (by decide) (by decide)
      (by decide)).2.2.2 (by decide) (by decide)⟩

/-! ## The cluster that `fatfs_create` scans -/

set_option maxRecDepth 100000 in
/-- C17, at a failing input: the root directory of `ex_fs_two` has the chain
`2 -> 20 -> EOC`; index 1 of cluster 2 and index 1 of cluster 20 are the
first free slots of the two clusters.  The loop of line 346 compares with
`cluster_min` twice, makes no hop and leaves cluster 2 selected;
`fatfs_create_dir("/live")` returns 0, has stored the new entry at index 1 of
cluster 2 and has left the sector of cluster 20, the last cluster of the
chain, as it was. -/
theorem C17_create_scans_first_cluster :
    chain_length_is ex_fs_two 2 2 ∧
      nth_cluster ex_fs_two.table_chars.fatfs_begin 2 1 = 20 ∧
      last_cluster_loop ex_fs_two.table_chars.fatfs_begin (cluster_min ex_fs_two) 2000 2 = some 2 ∧
      (∃ fd fd2, create_locate lookup_new_in_root (fun _ => 0) 2000 ex_fs_two ex_path_live
        = some (some (2, 2, 1, fd, fd2))) ∧
      ex_fs_two.dev.mem (dir_entry_addr ex_fs_two 20 0 + OFF_NAME) ≠ 0 ∧
      ex_fs_two.dev.mem (dir_entry_addr ex_fs_two 20 1 + OFF_NAME) = 0 ∧
      (∃ fs1, fatfs_create_dir lookup_new_in_root parse_83 (fun _ => 0) 2000 ex_fs_two ex_path_live
          = some (0, fs1) ∧
        (List.range 8).map (fun k => fs1.dev.mem (dir_entry_addr ex_fs_two 2 1 + (OFF_NAME + k)))
          = [108, 105, 118, 101, 0, 0, 0, 0] ∧
        (∀ k, k < 512 → fs1.dev.mem (cluster_base ex_fs_two 20 + k)
          = ex_fs_two.dev.mem (cluster_base ex_fs_two 20 + k))) := by
  refine ⟨?_, ?_, ?_, ⟨_, _, rfl⟩, ?_, ?_, ⟨_, rfl, ?_, ?_⟩⟩
  · decide
  · decide
  · decide
  · decide
  · decide
  · decide
  · decide

/-! ## The length of a chain -/

/-- C12, counterexample: on `ex_fs` the only file, `A.TXT`, has 1024 bytes and
a chain of `ceil(1024 / 512) = 2` clusters.  `fatfs_create_file("/foo.txt")`
returns the handle; the new entry, at index 1 of the root directory, has the
size 0 and the first cluster 5, whose FAT entry is an end-of-chain value: the
chain visits one cluster, and `ceil(0 / 512)` is 0. -/
theorem C12_new_file_has_one_cluster :
    file_chain_spec ex_fs (2, 0) ∧
      ∃ fs1, fatfs_create_file lookup_new_in_root parse_83 (fun _ => 0) 2000 ex_fs ex_path_foo
          = some (1, fs1) ∧
        fs1.dev.mem (dir_entry_addr fs1 2 1 + OFF_NAME) ≠ 0 ∧
        entry_size fs1 (2, 1) = 0 ∧
        entry_first_cluster fs1 (2, 1) = 5 ∧
        CEIL_DIV (entry_size fs1 (2, 1)) (get_cluster_size fs1) = 0 ∧
        chain_length_is fs1 (entry_first_cluster fs1 (2, 1)) 1 ∧
        ¬ file_chain_spec fs1 (2, 1) := by
  refine ⟨?_, _, rfl, ?_, ?_, ?_, ?_, ?_, ?_⟩
  · decide
  · decide
  · decide
  · decide
  · decide
  · decide
  · decide

/-! ## The chain-length invariant -/

/-- Two FATs that agree on the first `n` clusters of a chain give the same walk for `n` hops. -/
theorem nth_cluster_congr (fat fat1 : Nat → Nat) (c n : Nat)
    (h : ∀ k, k < n → fat1 (nth_cluster fat c k) = fat (nth_cluster fat c k)) :
    ∀ k, k ≤ n → nth_cluster fat1 c k = nth_cluster fat c k := by
  intro k
  induction k with
  | zero => intro _; rfl
  | succ k ih =>
    intro hk
    rw [nth_cluster_succ, nth_cluster_succ, ih (by omega), h k (by omega)]

/-- The address of a directory entry depends on the boot record only. -/
theorem dir_entry_addr_congr (fs fs1 : fatfs_state) (hb : fs1.bootrecord = fs.bootrecord)
    (c i : Nat) : dir_entry_addr fs1 c i = dir_entry_addr fs c i := by
  unfold dir_entry_addr cluster_base get_sector_num
  rw [hb]

/-- The cluster size depends on the boot record only. -/
theorem get_cluster_size_congr (fs fs1 : fatfs_state) (hb : fs1.bootrecord = fs.bootrecord) :
    get_cluster_size fs1 = get_cluster_size fs := by
  unfold get_cluster_size
  rw [hb]

/-- The validity of a cluster number depends on the geometry only. -/
theorem valid_cluster_congr (fs fs1 : fatfs_state) (hb : fs1.bootrecord = fs.bootrecord)
    (hds : fs1.table_chars.data_start = fs.table_chars.data_start)
    (hde : fs1.table_chars.data_end = fs.table_chars.data_end) (c : Nat) :
    valid_cluster fs1 c ↔ valid_cluster fs c := by
  unfold valid_cluster cluster_min cluster_max
  rw [hb, hds, hde]

/-- The first cluster and the size of an entry are read from the bytes 20 to 31 of the entry. -/
theorem entry_fields_congr (fs fs1 : fatfs_state) (p : Nat × Nat)
    (hb : fs1.bootrecord = fs.bootrecord)
    (hent : ∀ off, OFF_HIGH ≤ off → off < DIR_ENTRY_SIZE →
      fs1.dev.mem (dir_entry_addr fs p.1 p.2 + off) = fs.dev.mem (dir_entry_addr fs p.1 p.2 + off)) :
    entry_first_cluster fs1 p = entry_first_cluster fs p ∧ entry_size fs1 p = entry_size fs p := by
  unfold entry_first_cluster entry_size
  rw [dir_entry_addr_congr fs fs1 hb]
  unfold OFF_HIGH DIR_ENTRY_SIZE at hent
  simp only [le_load, OFF_HIGH, OFF_LOW, OFF_SIZE, Nat.add_assoc]
  rw [hent 20 (by omega) (by omega), hent 21 (by omega) (by omega),
    hent 26 (by omega) (by omega), hent 27 (by omega) (by omega),
    hent 28 (by omega) (by omega), hent 29 (by omega) (by omega),
    hent 30 (by omega) (by omega), hent 31 (by omega) (by omega)]
  exact ⟨rfl, rfl⟩

/-- A chain keeps its length when the geometry and the FAT entries of its clusters are kept. -/
theorem chain_length_is_congr (fs fs1 : fatfs_state) (first n : Nat)
    (hb : fs1.bootrecord = fs.bootrecord)
    (hds : fs1.table_chars.data_start = fs.table_chars.data_start)
    (hde : fs1.table_chars.data_end = fs.table_chars.data_end)
    (hfat : ∀ k, k < n →
      fs1.table_chars.fatfs_begin (nth_cluster fs.table_chars.fatfs_begin first k)
        = fs.table_chars.fatfs_begin (nth_cluster fs.table_chars.fatfs_begin first k))
    (h : chain_length_is fs first n) : chain_length_is fs1 first n := by
  have hn := nth_cluster_congr fs.table_chars.fatfs_begin fs1.table_chars.fatfs_begin first n hfat
  constructor
  · intro k hk
    rw [hn k (le_of_lt hk)]
    exact (valid_cluster_congr fs fs1 hb hds hde _).mpr (h.1 k hk)
  · rw [hn n (le_refl n)]
    exact h.2

/-- The invariant of a file is kept when the geometry, the bytes 20 to 31 of its entry and the FAT
entries of the clusters of its chain are kept. -/
theorem file_chain_ok_frame (fs fs1 : fatfs_state) (p : Nat × Nat)
    (hb : fs1.bootrecord = fs.bootrecord)
    (hds : fs1.table_chars.data_start = fs.table_chars.data_start)
    (hde : fs1.table_chars.data_end = fs.table_chars.data_end)
    (hent : ∀ off, OFF_HIGH ≤ off → off < DIR_ENTRY_SIZE →
      fs1.dev.mem (dir_entry_addr fs p.1 p.2 + off) = fs.dev.mem (dir_entry_addr fs p.1 p.2 + off))
    (hfat : ∀ k, k < file_length fs p →
      fs1.table_chars.fatfs_begin (file_cluster fs p k)
        = fs.table_chars.fatfs_begin (file_cluster fs p k))
    (h : file_chain_ok fs p) : file_chain_ok fs1 p := by
  obtain ⟨e1, e2⟩ := entry_fields_congr fs fs1 p hb hent
  unfold file_chain_ok file_clusters at h ⊢
  rw [e1, e2, get_cluster_size_congr fs fs1 hb]
  exact chain_length_is_congr fs fs1 _ _ hb hds hde hfat h

/-- A directory entry in the first sector of a cluster lies in that cluster, behind the FAT copies. -/
theorem entry_addr_in (fs : fatfs_state) (hg : geometry_ok fs) (c i off : Nat)
    (hslot : i * DIR_ENTRY_SIZE + DIR_ENTRY_SIZE ≤ fs.bootrecord.sector_size)
    (hoff : off < DIR_ENTRY_SIZE) :
    in_cluster fs c (dir_entry_addr fs c i + off) ∧
      fat_region_end fs ≤ dir_entry_addr fs c i + off ∧
      dir_entry_addr fs c i + off < cluster_base fs c + fs.bootrecord.sector_size := by
  obtain ⟨_, _, hspc, _, _, _, hfat⟩ := hg
  have h1 := data_region_start fs c hfat
  have h2 : fs.bootrecord.sector_size ≤ get_cluster_size fs :=
    Nat.le_mul_of_pos_left _ hspc
  unfold in_cluster dir_entry_addr fat_region_end
  refine ⟨⟨by omega, by omega⟩, by omega, by omega⟩

/-- A cluster of a chain that reaches its end after `n` clusters is valid and its FAT entry is not
FREE. -/
theorem chain_cluster_props (fs : fatfs_state) (hmin : 0 < cluster_min fs) (first n k : Nat)
    (h : chain_length_is fs first n) (hk : k < n) :
    valid_cluster fs (nth_cluster fs.table_chars.fatfs_begin first k) ∧
      fs.table_chars.fatfs_begin (nth_cluster fs.table_chars.fatfs_begin first k)
        ≠ FREE_CLUSTER := by
  refine ⟨h.1 k hk, ?_⟩
  rw [← nth_cluster_succ fs.table_chars.fatfs_begin first k]
  unfold FREE_CLUSTER
  rcases Nat.lt_or_ge (k + 1) n with h1 | h1
  · have := (h.1 (k + 1) h1).1
    omega
  · have e : k + 1 = n := by omega
    rw [e]
    have := h.2.1
    unfold EOC_MIN at this
    omega

/-- The invariant of a file is kept by an operation on another chain that leaves alone what
`op_frame` lists, when the chains are disjoint and the entry of the file lies outside the chain
and outside the addresses the operation may change. -/
theorem frame_other_file (fs fs1 : fatfs_state) (first nf nd : Nat) (E : Nat → Prop)
    (q : Nat × Nat) (hg : geometry_ok fs)
    (hq1 : valid_cluster fs q.1)
    (hq2 : q.2 * DIR_ENTRY_SIZE + DIR_ENTRY_SIZE ≤ fs.bootrecord.sector_size)
    (hq3 : fs.table_chars.fatfs_begin q.1 ≠ FREE_CLUSTER)
    (hfr : op_frame fs fs1 first nf nd E)
    (hch : ∀ k, k < nf → ∀ j, j < file_length fs q →
      nth_cluster fs.table_chars.fatfs_begin first k ≠ file_cluster fs q j)
    (hdir : ∀ k, k < nd → nth_cluster fs.table_chars.fatfs_begin first k ≠ q.1)
    (hval : ∀ k, k < nd → cluster_min fs ≤ nth_cluster fs.table_chars.fatfs_begin first k)
    (hE : ∀ off, OFF_HIGH ≤ off → off < DIR_ENTRY_SIZE → ¬ E (dir_entry_addr fs q.1 q.2 + off))
    (h : file_chain_ok fs q) : file_chain_ok fs1 q := by
  obtain ⟨hb, hds, hde, hF, hD⟩ := hfr
  have hmin : 0 < cluster_min fs := hg.2.2.2.1
  apply file_chain_ok_frame fs fs1 q hb hds hde _ _ h
  · intro off ho1 ho2
    obtain ⟨hin, hend, _⟩ := entry_addr_in fs hg q.1 q.2 off hq2 ho2
    apply hD _ hend
    · intro k hk hin2
      exact in_cluster_disjoint fs _ q.1 _ (hval k hk) hq1.1 (hdir k hk) hin2 hin
    · intro c hc hfree hin2
      have hne : c ≠ q.1 := by
        intro e; rw [e] at hfree; exact hq3 hfree
      exact in_cluster_disjoint fs c q.1 _ hc hq1.1 hne hin2 hin
    · exact hE off ho1 ho2
  · intro j hj
    obtain ⟨hv, hnf⟩ := chain_cluster_props fs hmin _ _ j h hj
    apply hF _ hnf hv.2.2
    intro k hk e
    exact hch k hk j hj e.symm

/-- The first byte of a cluster is aligned to the size of a directory entry. -/
theorem cluster_base_mod (fs : fatfs_state)
    (hss : fs.bootrecord.sector_size % DIR_ENTRY_SIZE = 0) (c : Nat) :
    cluster_base fs c % DIR_ENTRY_SIZE = 0 := by
  unfold cluster_base
  rw [Nat.mul_mod, hss, Nat.mul_zero, Nat.zero_mod]

/-- A successful `fatfs_rename` changes nothing but name bytes of directory entries. -/
theorem fatfs_rename_frame (path_lookup : PathLookup) (fs fs1 : fatfs_state)
    (path_old path_new : List Nat) (isdir : Nat)
    (hss : fs.bootrecord.sector_size % DIR_ENTRY_SIZE = 0)
    (h : fatfs_rename path_lookup fs path_old path_new isdir = some (0, fs1)) :
    op_frame fs fs1 0 0 0 (fun a => a % DIR_ENTRY_SIZE < 8) := by
  have key : ∀ (b cnt d : Nat) (src : Nat → Nat) (dir_buf : Nat → Nat) (fs2 : fatfs_state),
      d % DIR_ENTRY_SIZE = 0 →
      nk_block_dev_read fs b cnt (fun _ => 0) = some dir_buf →
      nk_block_dev_write fs b cnt (strncpy dir_buf d src 8) = some fs2 →
      op_frame fs fs2 0 0 0 (fun a => a % DIR_ENTRY_SIZE < 8) := by
    intro b cnt d src dir_buf fs2 hd hr hw
    obtain ⟨hb, ht, _, hm⟩ := nk_block_dev_write_some _ _ _ _ _ hw
    have hbuf := nk_block_dev_read_some _ _ _ _ _ hr
    refine ⟨hb, by rw [ht], by rw [ht], ?_, ?_⟩
    · intro x _ _ _
      rw [ht]
    · intro a _ _ _ hE
      rw [hm]
      unfold dev_store
      split_ifs with hin
      · have hbase : (b * fs.bootrecord.sector_size) % DIR_ENTRY_SIZE = 0 := by
          rw [Nat.mul_mod, hss, Nat.mul_zero, Nat.zero_mod]
        unfold strncpy
        have hnot : ¬ (d ≤ a - b * fs.bootrecord.sector_size ∧
            a - b * fs.bootrecord.sector_size < d + 8) := by
          intro hx
          apply hE
          unfold DIR_ENTRY_SIZE at hbase hd ⊢
          show a % 32 < 8
          omega
        rw [if_neg hnot, hbuf]
        have hlt : a - b * fs.bootrecord.sector_size < cnt * fs.bootrecord.sector_size := by
          rw [Nat.add_mul] at hin
          omega
        simp only [if_pos hlt]
        congr 1
        omega
      · rfl
  unfold fatfs_rename at h
  have hd : ((path_lookup fs path_old 0).dir_num.toNat * DIR_ENTRY_SIZE + OFF_NAME)
      % DIR_ENTRY_SIZE = 0 := by
    unfold OFF_NAME
    simp
  simp only at h
  split_ifs at h with h1 h2 h3
  · simp at h
  · simp at h
  · cases hr : nk_block_dev_read fs (get_sector_num (path_lookup fs path_old 0).dir_cluster_num fs)
        fs.bootrecord.cluster_size (fun _ => 0) with
    | none => rw [hr] at h; simp at h
    | some dir_buf =>
      rw [hr] at h
      simp only at h
      cases hw : nk_block_dev_write fs
          (get_sector_num (path_lookup fs path_old 0).dir_cluster_num fs)
          fs.bootrecord.cluster_size
          (strncpy dir_buf ((path_lookup fs path_old 0).dir_num.toNat * DIR_ENTRY_SIZE + OFF_NAME)
            (cstr ((split_path path_new).getLastD [])) 8) with
      | none => rw [hw] at h; simp at h
      | some fs2 =>
        rw [hw] at h
        simp only [Option.some.injEq, Prod.mk.injEq, true_and] at h
        subst h
        exact key _ _ _ _ _ _ hd hr hw
  · cases hr : nk_block_dev_read fs (get_sector_num (path_lookup fs path_old 0).dir_cluster_num fs)
        fs.bootrecord.cluster_size (fun _ => 0) with
    | none => rw [hr] at h; simp at h
    | some dir_buf => rw [hr] at h; simp at h
  · cases hr : nk_block_dev_read fs (get_sector_num (path_lookup fs path_old 0).dir_cluster_num fs)
        fs.bootrecord.cluster_size (fun _ => 0) with
    | none => rw [hr] at h; simp at h
    | some dir_buf =>
      rw [hr] at h
      simp only at h
      cases hw : nk_block_dev_write fs
          (get_sector_num (path_lookup fs path_old 0).dir_cluster_num fs)
          fs.bootrecord.cluster_size
          (strncpy dir_buf ((path_lookup fs path_old 0).dir_num.toNat * DIR_ENTRY_SIZE + OFF_NAME)
            (cstr ((split_path path_new).getLastD [])) 8) with
      | none => rw [hw] at h; simp at h
      | some fs2 =>
        rw [hw] at h
        simp only [Option.some.injEq, Prod.mk.injEq, true_and] at h
        subst h
        exact key _ _ _ _ _ _ hd hr hw
  · cases hr : nk_block_dev_read fs (get_sector_num (path_lookup fs path_old 0).dir_cluster_num fs)
        fs.bootrecord.cluster_size (fun _ => 0) with
    | none => rw [hr] at h; simp at h
    | some dir_buf => rw [hr] at h; simp at h

/-- A successful `fatfs_rename` keeps the chain-length invariant of every file. -/
theorem fatfs_rename_chains (path_lookup : PathLookup) (fs fs1 : fatfs_state)
    (path_old path_new : List Nat) (isdir : Nat) (files : List (Nat × Nat))
    (hg : geometry_ok fs) (hf : files_ok fs files) (hinv : chains_ok fs files)
    (h : fatfs_rename path_lookup fs path_old path_new isdir = some (0, fs1)) :
    chains_ok fs1 files := by
  intro q hq
  obtain ⟨hq1, hq2, hq3⟩ := hf.1 q hq
  have hfr := fatfs_rename_frame path_lookup fs fs1 path_old path_new isdir hg.2.1 h
  apply frame_other_file fs fs1 0 0 0 _ q hg hq1 hq2 hq3 hfr
  · intro k hk; omega
  · intro k hk; omega
  · intro k hk; omega
  · intro off ho1 ho2 hE
    have hbase := cluster_base_mod fs hg.2.1 q.1
    have hE2 : (cluster_base fs q.1 + q.2 * 32 + off) % 32 < 8 := hE
    unfold DIR_ENTRY_SIZE at hbase ho2
    unfold OFF_HIGH at ho1
    omega
  · exact hinv q hq

/-- The tail of a chain, seen after the FAT entry of its first cluster has been overwritten. -/
theorem chain_length_is_tail (fs : fatfs_state) (c n v : Nat)
    (h : chain_length_is fs c (n + 1)) :
    chain_length_is (set_fat_entry fs c v) (fs.table_chars.fatfs_begin c) n ∧
      ∀ k, k ≤ n → nth_cluster (set_fat_entry fs c v).table_chars.fatfs_begin
          (fs.table_chars.fatfs_begin c) k
        = nth_cluster fs.table_chars.fatfs_begin c (k + 1) := by
  have hd := chain_distinct_of_eoc fs c (n + 1) h.1 h.2
  have hn : ∀ k, k ≤ n → nth_cluster (set_fat_entry fs c v).table_chars.fatfs_begin
      (fs.table_chars.fatfs_begin c) k = nth_cluster fs.table_chars.fatfs_begin c (k + 1) := by
    intro k hk
    have := nth_cluster_congr fs.table_chars.fatfs_begin
      (set_fat_entry fs c v).table_chars.fatfs_begin (fs.table_chars.fatfs_begin c) n
      (by
        intro j hj
        have hne : nth_cluster fs.table_chars.fatfs_begin (fs.table_chars.fatfs_begin c) j ≠ c := by
          intro e
          have := hd (j + 1) (by omega) 0 (by omega) (by simpa [nth_cluster] using e)
          omega
        simp [set_fat_entry, fat_set, hne]) k hk
    rw [this]
    rfl
  refine ⟨⟨?_, ?_⟩, hn⟩
  · intro k hk
    rw [hn k (le_of_lt hk)]
    exact h.1 (k + 1) (by omega)
  · rw [hn n (le_refl n)]
    exact h.2

/-- The loop of `fatfs_remove` on a chain that reaches its end: it changes the FAT entries of the
clusters of the chain only and ends with an end-of-chain value. -/
theorem remove_loop_frame (cmin cmax : Nat) :
    ∀ (fuel : Nat) (fs : fatfs_state) (c n : Nat) (fs1 : fatfs_state) (e : Nat),
      cmin = cluster_min fs → cmax = cluster_max fs →
      chain_length_is fs c (n + 1) →
      remove_loop cmin cmax fuel fs c = some (Step.next (fs1, e)) →
      (∀ x, (∀ k, k ≤ n → x ≠ nth_cluster fs.table_chars.fatfs_begin c k) →
        fs1.table_chars.fatfs_begin x = fs.table_chars.fatfs_begin x) ∧
      EOC_MIN ≤ e ∧
      fs1.table_chars.data_start = fs.table_chars.data_start ∧
      fs1.table_chars.data_end = fs.table_chars.data_end := by
  intro fuel
  induction fuel with
  | zero => intro fs c n fs1 e _ _ _ h; simp [remove_loop] at h
  | succ fuel ih =>
    intro fs c n fs1 e hcmin hcmax hchain h
    unfold remove_loop at h
    simp only at h
    split_ifs at h with h1 h2
    · simp at h
    · -- the next value is an end of chain
      simp only [Option.some.injEq, Step.next.injEq, Prod.mk.injEq] at h
      obtain ⟨e1, e2⟩ := h
      subst e1 e2
      refine ⟨?_, h2.1, rfl, rfl⟩
      intro x hx
      have := hx 0 (Nat.zero_le _)
      simp only [nth_cluster] at this
      simp [set_fat_entry, fat_set, this]
    · -- the loop goes on with the next cluster
      have hn : 0 < n := by
        rcases Nat.eq_zero_or_pos n with h0 | h0
        · subst h0
          have := hchain.2
          simp only [nth_cluster] at this
          exact absurd this h2
        · exact h0
      obtain ⟨n', rfl⟩ : ∃ n', n = n' + 1 := ⟨n - 1, by omega⟩
      obtain ⟨htail, hnth⟩ := chain_length_is_tail fs c (n' + 1) FREE_CLUSTER hchain
      obtain ⟨g1, g2, g3, g4⟩ := ih (set_fat_entry fs c FREE_CLUSTER)
        (fs.table_chars.fatfs_begin c) n' fs1 e hcmin hcmax htail h
      refine ⟨?_, g2, g3, g4⟩
      intro x hx
      rw [g1 x]
      · have := hx 0 (Nat.zero_le _)
        simp only [nth_cluster] at this
        simp [set_fat_entry, fat_set, this]
      · intro k hk
        rw [hnth k (by omega)]
        exact hx (k + 1) (by omega)

/-- What `lookup_entry` reports for the entry at `p`. -/
theorem lookup_entry_fields (fs : fatfs_state) (p : Nat × Nat) (path : List Nat) (flag : Nat) :
    (lookup_entry p.1 p.2 fs path flag).dir_num = (p.2 : Int) ∧
    (lookup_entry p.1 p.2 fs path flag).dir_num ≠ -1 ∧
    (lookup_entry p.1 p.2 fs path flag).dir_num.toNat = p.2 ∧
    (lookup_entry p.1 p.2 fs path flag).dir_cluster_num = p.1 ∧
    DECODE_CLUSTER (lookup_entry p.1 p.2 fs path flag).dir_ent.high_cluster
      (lookup_entry p.1 p.2 fs path flag).dir_ent.low_cluster = entry_first_cluster fs p ∧
    (lookup_entry p.1 p.2 fs path flag).dir_ent.size = entry_size fs p := by
  refine ⟨rfl, ?_, ?_, rfl, rfl, rfl⟩
  · show (p.2 : Int) ≠ -1
    omega
  · show (p.2 : Int).toNat = p.2
    simp

/-- A successful `fatfs_remove` of a file whose chain reaches its end changes the FAT entries of
the chain (and the word at the index of the end-of-chain value), the two FAT copies on the
device and the 32 bytes of the directory entry. -/
theorem fatfs_remove_frame (path_lookup : PathLookup) (fuel : Nat) (fs fs1 : fatfs_state)
    (path : List Nat) (p : Nat × Nat) (n : Nat)
    (hg : geometry_ok fs)
    (hlk : path_lookup fs path 0 = lookup_entry p.1 p.2 fs path 0)
    (hchain : chain_length_is fs (entry_first_cluster fs p) (n + 1))
    (h : fatfs_remove path_lookup fuel fs path = some (0, fs1)) :
    op_frame fs fs1 (entry_first_cluster fs p) (n + 1) 0
      (fun a => dir_entry_addr fs p.1 p.2 ≤ a ∧ a < dir_entry_addr fs p.1 p.2 + DIR_ENTRY_SIZE) := by
  obtain ⟨l1, l2, l3, l4, l5, l6⟩ := lookup_entry_fields fs p path 0
  unfold fatfs_remove at h
  rw [hlk] at h
  simp only [l2, l3, l4, l5, if_false] at h
  cases hloop : remove_loop (cluster_min fs) (cluster_max fs) fuel fs
      (entry_first_cluster fs p) with
  | none => rw [hloop] at h; simp at h
  | some st =>
    rw [hloop] at h
    cases st with
    | ret r fsr =>
      simp only [Option.some.injEq, Prod.mk.injEq] at h
      have := remove_loop_ret _ _ _ _ _ _ _ hloop
      omega
    | next x =>
      obtain ⟨fsl, c1⟩ := x
      obtain ⟨e1, e2, e3⟩ := remove_loop_dev _ _ _ _ _ _ _ hloop
      obtain ⟨r1, r2, r3, r4⟩ := remove_loop_frame _ _ _ _ _ _ _ _ rfl rfl hchain hloop
      simp only at h
      generalize hfs2 : set_fat_entry fsl c1 FREE_CLUSTER = fs2 at h
      have f1 : fs2.dev = fs.dev := by rw [← hfs2]; exact e1
      have f2 : fs2.bootrecord = fs.bootrecord := by rw [← hfs2]; exact e2
      have f3 : fs2.table_chars.data_start = fs.table_chars.data_start := by rw [← hfs2]; exact r3
      have f4 : fs2.table_chars.data_end = fs.table_chars.data_end := by rw [← hfs2]; exact r4
      have f5 : ∀ x, x < EOC_MIN →
          (∀ k, k < n + 1 → x ≠ nth_cluster fs.table_chars.fatfs_begin (entry_first_cluster fs p) k) →
          fs2.table_chars.fatfs_begin x = fs.table_chars.fatfs_begin x := by
        intro x hx1 hx2
        rw [← hfs2, ← r1 x (fun k hk => hx2 k (by omega))]
        have : x ≠ c1 := by omega
        simp [set_fat_entry, fat_set, this]
      cases hw1 : nk_block_dev_write fs2 fs2.bootrecord.reservedblock_size
          fs.table_chars.fatfs_size (fat_bytes fs2.table_chars.fatfs_begin) with
      | none => rw [hw1] at h; simp at h
      | some fs3 =>
        rw [hw1] at h
        simp only at h
        obtain ⟨g1, g2, _, g4⟩ := nk_block_dev_write_some _ _ _ _ _ hw1
        cases hw2 : nk_block_dev_write fs3
            (fs3.bootrecord.reservedblock_size + fs.table_chars.fatfs_size)
            fs.table_chars.fatfs_size (fat_bytes fs2.table_chars.fatfs_begin) with
        | none => rw [hw2] at h; simp at h
        | some fs4 =>
          rw [hw2] at h
          simp only at h
          obtain ⟨k1, k2, _, k4⟩ := nk_block_dev_write_some _ _ _ _ _ hw2
          cases hr : nk_block_dev_read fs4 (get_sector_num p.1 fs4) 1 (fun _ => 0) with
          | none => rw [hr] at h; simp at h
          | some full_dirs =>
            rw [hr] at h
            simp only at h
            have hbuf := nk_block_dev_read_some _ _ _ _ _ hr
            cases hw3 : nk_block_dev_write fs4 (get_sector_num p.1 fs4) 1
                (memset full_dirs (p.2 * DIR_ENTRY_SIZE) 0 DIR_ENTRY_SIZE) with
            | none => rw [hw3] at h; simp at h
            | some fs5 =>
              rw [hw3] at h
              simp only [Option.some.injEq, Prod.mk.injEq, true_and] at h
              obtain ⟨m1, m2, _, m4⟩ := nk_block_dev_write_some _ _ _ _ _ hw3
              subst h
              have hb4 : fs4.bootrecord = fs.bootrecord := by rw [k1, g1, f2]
              have hb3 : fs3.bootrecord = fs.bootrecord := by rw [g1, f2]
              have hsec : get_sector_num p.1 fs4 = get_sector_num p.1 fs := by
                unfold get_sector_num; rw [hb4]
              have hpre : ∀ a, fat_region_end fs ≤ a → fs4.dev.mem a = fs.dev.mem a := by
                intro a ha
                unfold fat_region_end at ha
                have e : (fs.bootrecord.reservedblock_size + 2 * fs.table_chars.fatfs_size)
                    * fs.bootrecord.sector_size
                    = fs.bootrecord.reservedblock_size * fs.bootrecord.sector_size
                      + fs.table_chars.fatfs_size * fs.bootrecord.sector_size
                      + fs.table_chars.fatfs_size * fs.bootrecord.sector_size := by ring
                rw [k4, dev_store_outside, g4, dev_store_outside, f1]
                · rw [f2]; simp only [Nat.add_mul]; omega
                · rw [hb3]; simp only [Nat.add_mul]; omega
              refine ⟨by rw [m1, hb4], by rw [m2, k2, g2, f3], by rw [m2, k2, g2, f4], ?_, ?_⟩
              · intro x _ hx1 hx2
                rw [m2, k2, g2]
                exact f5 x hx1 hx2
              · intro a ha _ _ hE
                have hstart := data_region_start fs p.1 hg.2.2.2.2.2.2
                rw [m4, hbuf]
                unfold dev_store memset
                rw [hsec, hb4]
                simp only [Nat.add_mul, Nat.one_mul]
                unfold dir_entry_addr cluster_base at hE
                by_cases hin : get_sector_num p.1 fs * fs.bootrecord.sector_size ≤ a ∧
                    a < get_sector_num p.1 fs * fs.bootrecord.sector_size
                      + fs.bootrecord.sector_size
                · rw [if_pos hin]
                  have hpa := hpre a ha
                  unfold DIR_ENTRY_SIZE at *
                  split_ifs <;> first | rfl | (exfalso; omega) | skip
                  rw [← hpa]
                  congr 1
                  omega
                · rw [if_neg hin]
                  exact hpre a ha

/-- The entries of two different files do not overlap. -/
theorem entry_disjoint (fs : fatfs_state) (hg : geometry_ok fs) (p q : Nat × Nat)
    (hp1 : valid_cluster fs p.1)
    (hp2 : p.2 * DIR_ENTRY_SIZE + DIR_ENTRY_SIZE ≤ fs.bootrecord.sector_size)
    (hq1 : valid_cluster fs q.1)
    (hq2 : q.2 * DIR_ENTRY_SIZE + DIR_ENTRY_SIZE ≤ fs.bootrecord.sector_size)
    (hne : q ≠ p) (off : Nat) (hoff : off < DIR_ENTRY_SIZE) :
    ¬ (dir_entry_addr fs p.1 p.2 ≤ dir_entry_addr fs q.1 q.2 + off ∧
      dir_entry_addr fs q.1 q.2 + off < dir_entry_addr fs p.1 p.2 + DIR_ENTRY_SIZE) := by
  intro hin
  by_cases hc : q.1 = p.1
  · have h2 : q.2 ≠ p.2 := by
      intro e
      exact hne (Prod.ext hc e)
    unfold dir_entry_addr at hin
    rw [hc] at hin
    unfold DIR_ENTRY_SIZE at *
    omega
  · obtain ⟨hinq, _, _⟩ := entry_addr_in fs hg q.1 q.2 off hq2 hoff
    obtain ⟨hinp, _, _⟩ := entry_addr_in fs hg p.1 p.2
      (dir_entry_addr fs q.1 q.2 + off - dir_entry_addr fs p.1 p.2) hp2 (by omega)
    have e : dir_entry_addr fs p.1 p.2
        + (dir_entry_addr fs q.1 q.2 + off - dir_entry_addr fs p.1 p.2)
        = dir_entry_addr fs q.1 q.2 + off := by omega
    rw [e] at hinp
    exact in_cluster_disjoint fs q.1 p.1 _ hq1.1 hp1.1 hc hinq hinp

/-- The number of clusters of a file is at least one. -/
theorem file_length_pos (fs : fatfs_state) (p : Nat × Nat) : 0 < file_length fs p := by
  unfold file_length file_clusters
  omega

/-- A successful `fatfs_remove` of a file keeps the chain-length invariant of every other file. -/
theorem fatfs_remove_chains (path_lookup : PathLookup) (fuel : Nat) (fs fs1 : fatfs_state)
    (path : List Nat) (files : List (Nat × Nat)) (p : Nat × Nat) (hp : p ∈ files)
    (hg : geometry_ok fs) (hf : files_ok fs files) (hinv : chains_ok fs files)
    (hlk : path_lookup fs path 0 = lookup_entry p.1 p.2 fs path 0)
    (h : fatfs_remove path_lookup fuel fs path = some (0, fs1)) :
    ∀ q ∈ files, q ≠ p → file_chain_ok fs1 q := by
  intro q hq hne
  obtain ⟨hq1, hq2, hq3⟩ := hf.1 q hq
  obtain ⟨hp1, hp2, hp3⟩ := hf.1 p hp
  obtain ⟨n, hn⟩ : ∃ n, file_length fs p = n + 1 :=
    ⟨file_length fs p - 1, by have := file_length_pos fs p; omega⟩
  have hpc : chain_length_is fs (entry_first_cluster fs p) (n + 1) := by
    rw [← hn]; exact hinv p hp
  have hfr := fatfs_remove_frame path_lookup fuel fs fs1 path p n hg hlk hpc h
  apply frame_other_file fs fs1 _ (n + 1) 0 _ q hg hq1 hq2 hq3 hfr
  · intro k hk j hj
    exact hf.2.2 p hp q hq (Ne.symm hne) k (by rw [hn]; exact hk) j hj
  · intro k hk; omega
  · intro k hk; omega
  · intro off _ ho2
    exact entry_disjoint fs hg p q hp1 hp2 hq1 hq2 hne off ho2
  · exact hinv q hq

/-- A byte of a file lies in the cluster of the chain that its position selects. -/
theorem file_byte_addr_in_cluster (fs : fatfs_state) (first pos : Nat)
    (hcs : 0 < get_cluster_size fs) :
    in_cluster fs (nth_cluster fs.table_chars.fatfs_begin first (pos / get_cluster_size fs))
      (file_byte_addr fs first pos) := by
  unfold in_cluster file_byte_addr cluster_base
  have := Nat.mod_lt pos hcs
  constructor
  · omega
  · omega

/-- A write that ends strictly inside a file changes device bytes in the clusters of the chain
only, and nothing else of the state. -/
theorem fatfs_write_inplace_frame (path_lookup : PathLookup) (fuel : Nat) (fs : fatfs_state)
    (file : List Nat) (src : Nat → Nat) (offset num_bytes : Nat) (p : Nat × Nat)
    (hg : geometry_ok fs)
    (hlk : path_lookup fs file 0 = lookup_entry p.1 p.2 fs file 0)
    (hro : (path_lookup fs file 0).dir_ent.readonly = 0)
    (hchain : file_chain_ok fs p)
    (hlt : offset + num_bytes < entry_size fs p)
    (hfuel : entry_size fs p < fuel) :
    ∃ fs1, fatfs_write path_lookup fuel fs file (some src) offset num_bytes
        = some ⟨(num_bytes : Int), fs1, some src⟩ ∧
      op_frame fs fs1 (entry_first_cluster fs p) 0 (file_length fs p) (fun _ => False) := by
  obtain ⟨hss, _, hspc, hmin, _, hdata, hfat⟩ := hg
  obtain ⟨l1, l2, l3, l4, l5, l6⟩ := lookup_entry_fields fs p file 0
  have hcs : 0 < get_cluster_size fs := Nat.mul_pos hspc hss
  unfold file_chain_ok at hchain
  unfold file_length
  generalize hnd : file_clusters fs (entry_size fs p) = n at *
  have hn : entry_size fs p ≤ n * get_cluster_size fs := by
    have := le_CEIL_DIV_mul (entry_size fs p) (get_cluster_size fs) hcs
    have h2 : CEIL_DIV (entry_size fs p) (get_cluster_size fs) ≤ n := by
      rw [← hnd]; unfold file_clusters; omega
    have := Nat.mul_le_mul_right (get_cluster_size fs) h2
    omega
  generalize hsz : entry_size fs p = size at *
  generalize hfc : entry_first_cluster fs p = first at *
  have hvalid := hchain.1
  have hdist := chain_distinct_of_eoc fs first n hchain.1 hchain.2
  have hdev := valid_on_dev fs hdata first n hvalid
  have hq1 : (offset - 1) / get_cluster_size fs * get_cluster_size fs ≤ offset - 1 :=
    Nat.div_mul_le_self _ _
  have hq2 : offset - 1 < ((offset - 1) / get_cluster_size fs + 1) * get_cluster_size fs := by
    have := Nat.lt_mul_div_succ (offset - 1) hcs
    rw [Nat.mul_comm] at this
    exact this
  generalize hqd : (offset - 1) / get_cluster_size fs = q at hq1 hq2
  have hqle : q ≤ q * get_cluster_size fs := Nat.le_mul_of_pos_right q hcs
  rw [Nat.add_mul] at hq2
  have hqn : q < n :=
    Nat.lt_of_mul_lt_mul_right (show q * get_cluster_size fs < n * get_cluster_size fs by omega)
  have hseek := seek_loop_spec fs (get_cluster_size fs) hcs fuel first offset
    (by rw [hqd]; omega)
    (by
      intro k _ hk2
      rw [hqd] at hk2
      exact hvalid k (by omega))
  rw [hqd] at hseek
  have hne : ¬ (size < offset) := by omega
  have hmod : (offset + num_bytes) % 2 ^ 64 < size :=
    lt_of_le_of_lt (Nat.mod_le _ _) hlt
  have hmod2 : ¬ (size ≤ (offset + num_bytes) % 18446744073709551616) := by
    norm_num at hmod; omega
  rw [hlk] at hro
  -- the loop
  have hloop : ∃ m', write_inplace_loop src num_bytes (get_cluster_size fs) fuel fs (fun _ => 0)
        (nth_cluster fs.table_chars.fatfs_begin first q) (offset - q * get_cluster_size fs) 0
        = some (Step.next (with_mem fs m', num_bytes)) ∧
      ∀ a, (∀ k, k < n → ¬ in_cluster fs (nth_cluster fs.table_chars.fatfs_begin first k) a) →
        m' a = fs.dev.mem a := by
    rcases Nat.eq_zero_or_pos num_bytes with h0 | hnb
    · -- no byte to write: the cluster is read and written back
      subst h0
      obtain ⟨fuel', rfl⟩ : ∃ f, fuel = f + 1 := ⟨fuel - 1, by omega⟩
      have hdq : get_sector_num (nth_cluster fs.table_chars.fatfs_begin first q) fs
          + fs.bootrecord.cluster_size ≤ fs.dev.num_blocks := hdev q hqn
      unfold write_inplace_loop
      simp only [nk_block_dev_read, nk_block_dev_write, if_pos hdq, MIN, Nat.zero_sub,
        Nat.not_lt_zero, if_false, Nat.add_zero, lt_irrefl]
      refine ⟨_, rfl, ?_⟩
      intro a ha
      have := cluster_store_outside fs fs.dev.mem
        (memcpy (fun i => if i < fs.bootrecord.cluster_size * fs.bootrecord.sector_size
          then fs.dev.mem (get_sector_num (nth_cluster fs.table_chars.fatfs_begin first q) fs
            * fs.bootrecord.sector_size + i) else 0)
          (offset - q * get_cluster_size fs) src 0 0)
        (nth_cluster fs.table_chars.fatfs_begin first q) a (ha q hqn)
      rw [with_mem_self] at this
      exact this
    · obtain ⟨m', hrun, _, hframe⟩ := write_inplace_loop_spec fs src num_bytes first n
        hvalid hdist hdev fuel fs.dev.mem (fun _ => 0) q (offset - q * get_cluster_size fs) 0
        (by omega) hnb (by omega) (by split_ifs <;> omega)
      rw [with_mem_self] at hrun
      refine ⟨m', hrun, ?_⟩
      intro a ha
      apply hframe
      intro t ht e
      have hpos : q * get_cluster_size fs + (offset - q * get_cluster_size fs) + t
          < n * get_cluster_size fs := by omega
      have hin := file_byte_addr_in_cluster fs first
        (q * get_cluster_size fs + (offset - q * get_cluster_size fs) + t) hcs
      rw [← e] at hin
      refine ha _ ?_ hin
      exact (Nat.div_lt_iff_lt_mul hcs).mpr hpos
  obtain ⟨m', hrun, hframe⟩ := hloop
  refine ⟨with_mem fs m', ?_, rfl, rfl, rfl, ?_, ?_⟩
  · unfold fatfs_write fatfs_read_write
    rw [hlk]
    simp [l2, l5, l6, hsz, hfc, hne, hseek, hrun, hmod2, hro]
  · intro x _ _ _
    rfl
  · intro a _ ha _ _
    exact hframe a ha

/-- A write that ends strictly inside a file keeps the chain-length invariant of every file. -/
theorem fatfs_write_inplace_chains (path_lookup : PathLookup) (fuel : Nat) (fs : fatfs_state)
    (file : List Nat) (src : Nat → Nat) (offset num_bytes : Nat)
    (files : List (Nat × Nat)) (p : Nat × Nat) (hp : p ∈ files)
    (hg : geometry_ok fs) (hf : files_ok fs files) (hinv : chains_ok fs files)
    (hlk : path_lookup fs file 0 = lookup_entry p.1 p.2 fs file 0)
    (hro : (path_lookup fs file 0).dir_ent.readonly = 0)
    (hlt : offset + num_bytes < entry_size fs p)
    (hfuel : entry_size fs p < fuel) :
    ∃ fs1, fatfs_write path_lookup fuel fs file (some src) offset num_bytes
        = some ⟨(num_bytes : Int), fs1, some src⟩ ∧ chains_ok fs1 files := by
  obtain ⟨fs1, hrun, hfr⟩ := fatfs_write_inplace_frame path_lookup fuel fs file src offset
    num_bytes p hg hlk hro (hinv p hp) hlt hfuel
  refine ⟨fs1, hrun, ?_⟩
  intro q hq
  obtain ⟨hq1, hq2, hq3⟩ := hf.1 q hq
  apply frame_other_file fs fs1 _ 0 (file_length fs p) _ q hg hq1 hq2 hq3 hfr
  · intro k hk; omega
  · intro k hk
    exact hf.2.1 p hp q hq k hk
  · intro k hk
    exact ((hinv p hp).1 k hk).1
  · intro off _ _ hE
    exact hE
  · exact hinv q hq

/-- The extending branch of a write: the state it ends in and the device bytes it leaves alone. -/
theorem write_extend_full (fs : fatfs_state) (src : Nat → Nat)
    (fuel dirc dn offset nb n first q r : Nat)
    (hvalid : chain_valid fs first n)
    (heoc : is_eoc (nth_cluster fs.table_chars.fatfs_begin first n))
    (hdata : data_on_dev fs) (hfat : fat_copies_ok fs) (hmin : 0 < cluster_min fs)
    (hq : q < n) (hr : r ≤ get_cluster_size fs) (hpos : q * get_cluster_size fs + r = offset)
    (h32 : offset + nb < 2 ^ 32)
    (hdir1 : cluster_min fs ≤ dirc) (hdir2 : dirc ≤ cluster_max fs)
    (hslot : dn * DIR_ENTRY_SIZE + DIR_ENTRY_SIZE ≤ get_cluster_size fs)
    (hbuf : get_cluster_size fs ≤ fs.bootrecord.directory_entry_num * DIR_ENTRY_SIZE)
    (halloc : (grow_links (cluster_min fs) (cluster_max fs)
      (CEIL_DIV (num_bytes_left nb (n * get_cluster_size fs - offset)) (get_cluster_size fs))
      fs.table_chars.fatfs_begin (nth_cluster fs.table_chars.fatfs_begin first (n - 1))).isSome
        = true)
    (hfuel : n + nb < fuel) :
    ∃ fat1 m4, grow_links (cluster_min fs) (cluster_max fs)
        (CEIL_DIV (num_bytes_left nb (n * get_cluster_size fs - offset)) (get_cluster_size fs))
        fs.table_chars.fatfs_begin (nth_cluster fs.table_chars.fatfs_begin first (n - 1))
          = some fat1 ∧
      write_extend src fuel fs dirc dn offset nb (get_cluster_size fs)
          (nth_cluster fs.table_chars.fatfs_begin first q) r
        = some ((nb : Int), with_mem (with_fat fs fat1) m4) ∧
      le_load m4 (dir_entry_addr fs dirc dn + OFF_SIZE) 4 = offset + nb ∧
      (∀ a, fat_region_end fs ≤ a →
        (∀ j, j < n → ¬ in_cluster fs (nth_cluster fs.table_chars.fatfs_begin first j) a) →
        (∀ c, cluster_min fs ≤ c → fs.table_chars.fatfs_begin c = FREE_CLUSTER →
          ¬ in_cluster fs c a) →
        ¬ (dir_entry_addr fs dirc dn + OFF_SIZE ≤ a ∧ a < dir_entry_addr fs dirc dn + OFF_SIZE + 4) →
        m4 a = fs.dev.mem a) := by
  have hcs : 0 < get_cluster_size fs := by unfold DIR_ENTRY_SIZE at hslot; omega
  obtain ⟨m1, buf1, hfill, hframe1⟩ := write_fill_loop_spec fs src nb first n hvalid heoc
    (valid_on_dev fs hdata first n hvalid) fuel fs.dev.mem (fun _ => 0) q
    (nth_cluster fs.table_chars.fatfs_begin first q) r 0 (le_of_lt hq) (by omega) hr
    (Nat.zero_le _)
  rw [with_mem_self, if_pos hq, Nat.zero_add] at hfill
  have hcap : (n - q) * get_cluster_size fs - r = n * get_cluster_size fs - offset := by
    rw [Nat.sub_mul]; omega
  rw [hcap] at hfill
  unfold num_bytes_left at halloc ⊢
  generalize hs1 : min nb (n * get_cluster_size fs - offset) = s1 at hfill halloc ⊢
  have hs1le : s1 ≤ nb := by rw [← hs1]; exact min_le_left _ _
  generalize hKd : CEIL_DIV (nb - s1) (get_cluster_size fs) = K at halloc ⊢
  have hK1 : K ≤ nb - s1 := by rw [← hKd]; exact CEIL_DIV_le _ _ hcs
  have hK2 : nb - s1 ≤ K * get_cluster_size fs := by rw [← hKd]; exact le_CEIL_DIV_mul _ _ hcs
  have hKmod : K % 2 ^ 32 = K := Nat.mod_eq_of_lt (by omega)
  have hdirdev : cluster_on_dev fs dirc := hdata dirc hdir2 hdir1
  unfold write_extend
  rw [hfill]
  simp only [hKd, hKmod]
  have h32' : (offset + nb) % 2 ^ 32 = offset + nb := Nat.mod_eq_of_lt h32
  rw [h32']
  by_cases hKpos : K > 0
  · simp only [if_pos hKpos]
    obtain ⟨fat1, hgrow⟩ := Option.isSome_iff_exists.mp halloc
    obtain ⟨m2, hgsc, hframe2⟩ := grow_shrink_chain_grow fs m1 fat1
      (nth_cluster fs.table_chars.fatfs_begin first (n - 1)) K hKpos hgrow hfat.1
    rw [hgsc]
    have htail : fs.table_chars.fatfs_begin (nth_cluster fs.table_chars.fatfs_begin first (n - 1))
        ≠ FREE_CLUSTER := by
      have e : n - 1 + 1 = n := by omega
      rw [← nth_cluster_succ fs.table_chars.fatfs_begin first (n - 1), e]
      have := heoc.1
      unfold EOC_MIN at this
      unfold FREE_CLUSTER
      omega
    have hfresh := grow_links_fresh (cluster_min fs) (cluster_max fs) hmin K
      fs.table_chars.fatfs_begin _ fat1 hgrow htail
    obtain ⟨m3, hnew, hframe3⟩ := write_new_loop_spec (with_fat fs fat1) src nb fuel K m2 buf1
      (fat1 (nth_cluster fs.table_chars.fatfs_begin first (n - 1))) s1 (by omega) hK2 (by omega)
      (by
        intro j hj
        have := hfresh (j + 1) (by omega) (by omega)
        exact hdata _ this.2.2 this.2.1)
    obtain ⟨m4, hupd, hsize, hframe4⟩ := update_dir_size_spec (with_fat fs fat1) m3 dirc dn
      (offset + nb) hdirdev hslot hbuf h32
    have hnew' : write_new_loop src nb (get_cluster_size fs) fuel
        (with_mem (with_fat fs fat1) m2) buf1
        ((with_mem (with_fat fs fat1) m2).table_chars.fatfs_begin
          (nth_cluster fs.table_chars.fatfs_begin first (n - 1))) s1
        = some (Step.next (with_mem (with_fat fs fat1) m3, nb)) := hnew
    refine ⟨fat1, m4, hgrow, ?_, hsize, ?_⟩
    · have h01 : ¬ ((0 : Int) = -1) := by omega
      simp only [hnew', if_neg h01, hupd]
    · intro a ha hchain hfree hnot
      have e4 : m4 a = m3 a := hframe4 a hnot
      have e3 : m3 a = m2 a := by
        apply hframe3
        intro j hj hin
        have hf := hfresh (j + 1) (by omega) (by omega)
        have e : nth_cluster (with_fat fs fat1).table_chars.fatfs_begin
            (fat1 (nth_cluster fs.table_chars.fatfs_begin first (n - 1))) j
            = nth_cluster fat1 (nth_cluster fs.table_chars.fatfs_begin first (n - 1)) (j + 1) := rfl
        rw [e] at hin
        exact hfree _ hf.2.1 hf.1 hin
      have e2 : m2 a = m1 a := hframe2 a ha
      rw [e4, e3, e2, hframe1 a hchain]
  · have hK0 : K = 0 := by omega
    have hs1nb : s1 = nb := by
      rw [hK0, Nat.zero_mul] at hK2; omega
    simp only [if_neg hKpos]
    obtain ⟨m4, hupd, hsize, hframe4⟩ := update_dir_size_spec fs m1 dirc dn
      (offset + nb) hdirdev hslot hbuf h32
    refine ⟨fs.table_chars.fatfs_begin, m4, by rw [hK0]; rfl, ?_, hsize, ?_⟩
    · simp only [hupd, hs1nb]
      rfl
    · intro a _ hchain _ hnot
      rw [hframe4 a hnot, hframe1 a hchain]

/-- The last cluster linked by a growth of at least one cluster holds an end-of-chain value. -/
theorem grow_links_eoc (cmin cmax : Nat) (hmin : 0 < cmin) :
    ∀ (k : Nat) (fat : Nat → Nat) (tail : Nat) (fat1 : Nat → Nat),
      grow_links cmin cmax (k + 1) fat tail = some fat1 →
      fat tail ≠ FREE_CLUSTER →
      nth_cluster fat1 tail (k + 2) = EOC_MAX := by
  intro k
  induction k with
  | zero =>
    intro fat tail fat1 h htail
    unfold grow_links at h
    cases hff : find_free fat cmin cmax with
    | none => rw [hff] at h; simp at h
    | some c =>
      rw [hff] at h
      simp only [grow_links, Option.some.injEq] at h
      obtain ⟨hc1, hc2, hc3⟩ := find_free_spec fat cmin cmax c hff
      have htc : tail ≠ c := by
        intro e; rw [e] at htail; exact htail hc1
      rw [← h]
      simp [nth_cluster, fat_set, htc]
  | succ k ih =>
    intro fat tail fat1 h htail
    unfold grow_links at h
    cases hff : find_free fat cmin cmax with
    | none => rw [hff] at h; simp at h
    | some c =>
      rw [hff] at h
      simp only at h
      obtain ⟨hc1, hc2, hc3⟩ := find_free_spec fat cmin cmax c hff
      have htc : tail ≠ c := by
        intro e; rw [e] at htail; exact htail hc1
      have hc0 : c ≠ FREE_CLUSTER := by unfold FREE_CLUSTER; omega
      have hft : fat1 tail = c := by
        have := grow_links_frame cmin cmax (k + 1) _ c fat1 h tail htc
          (by simp [fat_set, htc, hc0])
        rw [this]; simp [fat_set, htc]
      have hih := ih _ c fat1 h (by simp [fat_set, EOC_MAX, FREE_CLUSTER])
      have e : nth_cluster fat1 tail (k + 1 + 2) = nth_cluster fat1 c (k + 2) := by
        simp only [nth_cluster, hft]
      rw [e, hih]

/-- The chain of a file after `K` clusters have been linked behind its last cluster. -/
theorem chain_length_is_grow (fs fs1 : fatfs_state) (first n K : Nat)
    (hmin : 0 < cluster_min fs) (hmax : cluster_max fs < EOC_MIN)
    (hb : fs1.bootrecord = fs.bootrecord)
    (hds : fs1.table_chars.data_start = fs.table_chars.data_start)
    (hde : fs1.table_chars.data_end = fs.table_chars.data_end)
    (hchain : chain_length_is fs first n) (hn : 0 < n)
    (hgrow : grow_links (cluster_min fs) (cluster_max fs) K fs.table_chars.fatfs_begin
      (nth_cluster fs.table_chars.fatfs_begin first (n - 1)) = some fs1.table_chars.fatfs_begin) :
    chain_length_is fs1 first (n + K) := by
  rcases Nat.eq_zero_or_pos K with h0 | hK
  · subst h0
    simp only [grow_links, Option.some.injEq] at hgrow
    apply chain_length_is_congr fs fs1 first n hb hds hde _ hchain
    intro k _
    rw [← hgrow]
  · obtain ⟨K', rfl⟩ : ∃ K', K = K' + 1 := ⟨K - 1, by omega⟩
    have hd := chain_distinct_of_eoc fs first n hchain.1 hchain.2
    generalize htd : nth_cluster fs.table_chars.fatfs_begin first (n - 1) = tail at hgrow
    have htail : fs.table_chars.fatfs_begin tail ≠ FREE_CLUSTER := by
      rw [← htd]
      exact (chain_cluster_props fs hmin first n (n - 1) hchain (by omega)).2
    -- the old part of the chain
    have hold : ∀ k, k ≤ n - 1 → nth_cluster fs1.table_chars.fatfs_begin first k
        = nth_cluster fs.table_chars.fatfs_begin first k := by
      apply nth_cluster_congr
      intro j hj
      apply grow_links_frame _ _ _ _ _ _ hgrow
      · intro e
        rw [← htd] at e
        have := hd j (by omega) (n - 1) (by omega) e
        omega
      · exact (chain_cluster_props fs hmin first n j hchain (by omega)).2
    have hnew : ∀ j, nth_cluster fs1.table_chars.fatfs_begin first (n - 1 + j)
        = nth_cluster fs1.table_chars.fatfs_begin tail j := by
      intro j
      rw [← nth_cluster_add, hold (n - 1) (le_refl _), htd]
    have hfresh := grow_links_fresh (cluster_min fs) (cluster_max fs) hmin (K' + 1)
      fs.table_chars.fatfs_begin tail _ hgrow htail
    constructor
    · intro k hk
      rcases Nat.lt_or_ge k n with h1 | h1
      · rw [hold k (by omega)]
        exact (valid_cluster_congr fs fs1 hb hds hde _).mpr (hchain.1 k h1)
      · have e : k = n - 1 + (k - (n - 1)) := by omega
        rw [e, hnew]
        obtain ⟨_, f2, f3⟩ := hfresh (k - (n - 1)) (by omega) (by omega)
        apply (valid_cluster_congr fs fs1 hb hds hde _).mpr
        exact ⟨f2, f3, by omega⟩
    · have e : n + (K' + 1) = n - 1 + (K' + 2) := by omega
      rw [e, hnew, grow_links_eoc _ _ hmin K' _ tail _ hgrow htail]
      unfold is_eoc EOC_MIN EOC_MAX
      omega

/-- The rounded-up quotient is the least number of clusters that cover the size. -/
theorem CEIL_DIV_le_of_le_mul (x cs k : Nat) (hcs : 0 < cs) (h : x ≤ k * cs) :
    CEIL_DIV x cs ≤ k := by
  unfold CEIL_DIV
  have h1 := Nat.div_add_mod x cs
  have h2 := Nat.mod_lt x hcs
  split_ifs with h0
  · have : x / cs * cs ≤ k * cs := by
      rw [Nat.mul_comm (x / cs) cs]; omega
    have := Nat.le_of_mul_le_mul_right this hcs
    omega
  · have : x / cs * cs < k * cs := by
      rw [Nat.mul_comm (x / cs) cs]; omega
    have := Nat.lt_of_mul_lt_mul_right this
    omega

/-- The number of clusters of a file after a write that reaches or passes its end. -/
theorem file_clusters_extend (fs : fatfs_state) (hcs : 0 < get_cluster_size fs)
    (size offset nb : Nat) (hoff : offset ≤ size) (hend : size ≤ offset + nb) :
    file_clusters fs size
      + CEIL_DIV (num_bytes_left nb (file_clusters fs size * get_cluster_size fs - offset))
          (get_cluster_size fs)
      = file_clusters fs (offset + nb) := by
  unfold file_clusters num_bytes_left
  generalize get_cluster_size fs = cs at *
  have a1 := le_CEIL_DIV_mul size cs hcs
  have b1 := le_CEIL_DIV_mul (offset + nb) cs hcs
  generalize hA : CEIL_DIV size cs = A at *
  generalize hB : CEIL_DIV (offset + nb) cs = B at *
  have hAB : A ≤ B := by
    rw [← hA]; exact CEIL_DIV_le_of_le_mul size cs B hcs (by omega)
  generalize hn : max 1 A = n at *
  have hn1 : 1 ≤ n := by omega
  have hnA : A ≤ n := by omega
  have hncs : A * cs ≤ n * cs := Nat.mul_le_mul_right cs hnA
  rcases le_or_lt (offset + nb) (n * cs) with hle | hgt
  · have hL : nb - min nb (n * cs - offset) = 0 := by
      rw [min_eq_left (by omega)]; omega
    rw [hL]
    have hB2 : B ≤ n := by
      rw [← hB]; exact CEIL_DIV_le_of_le_mul _ cs n hcs hle
    have h0 : CEIL_DIV 0 cs = 0 := by simp [CEIL_DIV]
    rw [h0]
    omega
  · have hL : nb - min nb (n * cs - offset) = offset + nb - n * cs := by
      rw [min_eq_right (by omega)]; omega
    rw [hL]
    have k1 := le_CEIL_DIV_mul (offset + nb - n * cs) cs hcs
    generalize hK : CEIL_DIV (offset + nb - n * cs) cs = K at *
    have hBn : n < B := by
      by_contra hc
      have : B * cs ≤ n * cs := Nat.mul_le_mul_right cs (by omega)
      omega
    have h1 : B ≤ n + K := by
      rw [← hB]
      apply CEIL_DIV_le_of_le_mul _ cs _ hcs
      rw [Nat.add_mul]; omega
    have h2 : K ≤ B - n := by
      rw [← hK]
      apply CEIL_DIV_le_of_le_mul _ cs _ hcs
      rw [Nat.sub_mul]; omega
    omega

/-- A byte of a directory entry that an operation on another chain leaves alone. -/
theorem frame_entry_byte (fs fs1 : fatfs_state) (first nf nd : Nat) (E : Nat → Prop)
    (q : Nat × Nat) (hg : geometry_ok fs)
    (hq1 : valid_cluster fs q.1)
    (hq2 : q.2 * DIR_ENTRY_SIZE + DIR_ENTRY_SIZE ≤ fs.bootrecord.sector_size)
    (hq3 : fs.table_chars.fatfs_begin q.1 ≠ FREE_CLUSTER)
    (hfr : op_frame fs fs1 first nf nd E)
    (hdir : ∀ k, k < nd → nth_cluster fs.table_chars.fatfs_begin first k ≠ q.1)
    (hval : ∀ k, k < nd → cluster_min fs ≤ nth_cluster fs.table_chars.fatfs_begin first k)
    (off : Nat) (hoff : off < DIR_ENTRY_SIZE) (hE : ¬ E (dir_entry_addr fs q.1 q.2 + off)) :
    fs1.dev.mem (dir_entry_addr fs q.1 q.2 + off) = fs.dev.mem (dir_entry_addr fs q.1 q.2 + off) := by
  obtain ⟨_, _, _, _, hD⟩ := hfr
  obtain ⟨hin, hend, _⟩ := entry_addr_in fs hg q.1 q.2 off hq2 hoff
  apply hD _ hend
  · intro k hk hin2
    exact in_cluster_disjoint fs _ q.1 _ (hval k hk) hq1.1 (hdir k hk) hin2 hin
  · intro c hc hfree hin2
    have hne : c ≠ q.1 := by
      intro e; rw [e] at hfree; exact hq3 hfree
    exact in_cluster_disjoint fs c q.1 _ hc hq1.1 hne hin2 hin
  · exact hE

/-- The first cluster of an entry is read from the bytes 20 to 27 of the entry. -/
theorem entry_first_cluster_congr (fs fs1 : fatfs_state) (p : Nat × Nat)
    (hb : fs1.bootrecord = fs.bootrecord)
    (hent : ∀ off, OFF_HIGH ≤ off → off < OFF_SIZE →
      fs1.dev.mem (dir_entry_addr fs p.1 p.2 + off) = fs.dev.mem (dir_entry_addr fs p.1 p.2 + off)) :
    entry_first_cluster fs1 p = entry_first_cluster fs p := by
  unfold entry_first_cluster
  rw [dir_entry_addr_congr fs fs1 hb]
  unfold OFF_HIGH OFF_SIZE at hent
  simp only [le_load, OFF_HIGH, OFF_LOW, Nat.add_assoc]
  rw [hent 20 (by omega) (by omega), hent 21 (by omega) (by omega),
    hent 26 (by omega) (by omega), hent 27 (by omega) (by omega)]

/-- A write that reaches or passes the end of a file, with the allocation of the missing clusters
succeeding and one cluster fitting the array `dir_buf`, keeps the chain-length invariant of every
file. -/
theorem fatfs_write_extend_chains (path_lookup : PathLookup) (fuel : Nat) (fs : fatfs_state)
    (file : List Nat) (src : Nat → Nat) (offset num_bytes : Nat)
    (files : List (Nat × Nat)) (p : Nat × Nat) (hp : p ∈ files)
    (hg : geometry_ok fs) (hf : files_ok fs files) (hinv : chains_ok fs files)
    (hlk : path_lookup fs file 0 = lookup_entry p.1 p.2 fs file 0)
    (hro : (path_lookup fs file 0).dir_ent.readonly = 0)
    (hoff : offset ≤ entry_size fs p) (hend : entry_size fs p ≤ offset + num_bytes)
    (h32 : offset + num_bytes < 2 ^ 32)
    (hbuf : get_cluster_size fs ≤ fs.bootrecord.directory_entry_num * DIR_ENTRY_SIZE)
    (halloc : (grow_links (cluster_min fs) (cluster_max fs)
      (CEIL_DIV (num_bytes_left num_bytes (file_length fs p * get_cluster_size fs - offset))
        (get_cluster_size fs))
      fs.table_chars.fatfs_begin (file_cluster fs p (file_length fs p - 1))).isSome = true)
    (hfuel : file_length fs p + num_bytes < fuel) :
    ∃ fs1, fatfs_write path_lookup fuel fs file (some src) offset num_bytes
        = some ⟨(num_bytes : Int), fs1, some src⟩ ∧ chains_ok fs1 files := by
  have hg' := hg
  obtain ⟨hss, _, hspc, hmin, hmax, hdata, hfat⟩ := hg
  obtain ⟨l1, l2, l3, l4, l5, l6⟩ := lookup_entry_fields fs p file 0
  obtain ⟨hp1, hp2, hp3⟩ := hf.1 p hp
  have hcs : 0 < get_cluster_size fs := Nat.mul_pos hspc hss
  have hss2 : fs.bootrecord.sector_size ≤ get_cluster_size fs := Nat.le_mul_of_pos_left _ hspc
  have hchain : chain_length_is fs (entry_first_cluster fs p) (file_length fs p) := hinv p hp
  have hn1 := file_length_pos fs p
  have hKeq := file_clusters_extend fs hcs (entry_size fs p) offset num_bytes hoff hend
  have hdirp := hf.2.1 p hp p hp
  unfold file_cluster at halloc hdirp
  unfold file_length at *
  generalize hnd : file_clusters fs (entry_size fs p) = n at *
  have hn : entry_size fs p ≤ n * get_cluster_size fs := by
    have := le_CEIL_DIV_mul (entry_size fs p) (get_cluster_size fs) hcs
    have h2 : CEIL_DIV (entry_size fs p) (get_cluster_size fs) ≤ n := by
      rw [← hnd]; unfold file_clusters; omega
    have := Nat.mul_le_mul_right (get_cluster_size fs) h2
    omega
  generalize hsz : entry_size fs p = size at *
  generalize hfc : entry_first_cluster fs p = first at *
  have hvalid := hchain.1
  -- the seek
  have hq1 : (offset - 1) / get_cluster_size fs * get_cluster_size fs ≤ offset - 1 :=
    Nat.div_mul_le_self _ _
  have hq2 : offset - 1 < ((offset - 1) / get_cluster_size fs + 1) * get_cluster_size fs := by
    have := Nat.lt_mul_div_succ (offset - 1) hcs
    rw [Nat.mul_comm] at this
    exact this
  generalize hqd : (offset - 1) / get_cluster_size fs = q at hq1 hq2
  have hqle : q ≤ q * get_cluster_size fs := Nat.le_mul_of_pos_right q hcs
  rw [Nat.add_mul] at hq2
  have hqn : q < n := by
    rcases Nat.eq_zero_or_pos offset with h0 | h0
    · have : q * get_cluster_size fs = 0 := by omega
      have : q = 0 := by omega
      omega
    · exact Nat.lt_of_mul_lt_mul_right
        (show q * get_cluster_size fs < n * get_cluster_size fs by omega)
  have hseek := seek_loop_spec fs (get_cluster_size fs) hcs fuel first offset
    (by rw [hqd]; omega)
    (by
      intro k _ hk2
      rw [hqd] at hk2
      exact hvalid k (by omega))
  rw [hqd] at hseek
  obtain ⟨fat1, m4, hgrow, hrun, hsize, hframe⟩ := write_extend_full fs src fuel p.1 p.2
    offset num_bytes n first q (offset - q * get_cluster_size fs)
    hvalid hchain.2 hdata hfat hmin hqn (by omega) (by omega) h32 hp1.1 hp1.2.1
    (by omega) hbuf halloc hfuel
  have hfr : op_frame fs (with_mem (with_fat fs fat1) m4) first n n
      (fun a => dir_entry_addr fs p.1 p.2 + OFF_SIZE ≤ a ∧
        a < dir_entry_addr fs p.1 p.2 + OFF_SIZE + 4) := by
    refine ⟨rfl, rfl, rfl, ?_, ?_⟩
    · intro x hx1 _ hx3
      exact grow_links_frame _ _ _ _ _ _ hgrow x (hx3 (n - 1) (by omega)) hx1
    · intro a h1 h2 h3 h4
      exact hframe a h1 h2 h3 h4
  refine ⟨with_mem (with_fat fs fat1) m4, ?_, ?_⟩
  · have hne : ¬ (size < offset) := by omega
    have hmod : ¬ ((offset + num_bytes) % 18446744073709551616 < size) := by
      have : (offset + num_bytes) % 18446744073709551616 = offset + num_bytes :=
        Nat.mod_eq_of_lt (by norm_num at h32; omega)
      omega
    rw [hlk] at hro
    unfold fatfs_write fatfs_read_write
    rw [hlk]
    simp [l2, l3, l4, l5, l6, hsz, hfc, hne, hseek, hrun, hmod, hro]
  · intro q' hq'
    obtain ⟨hq1', hq2', hq3'⟩ := hf.1 q' hq'
    by_cases hqp : q' = p
    · -- the file that was written
      subst hqp
      have hfirst : entry_first_cluster (with_mem (with_fat fs fat1) m4) q' = first := by
        refine Eq.trans ?_ hfc
        apply entry_first_cluster_congr fs (with_mem (with_fat fs fat1) m4) q' rfl
        intro off ho1 ho2
        unfold OFF_SIZE at ho2
        apply frame_entry_byte fs (with_mem (with_fat fs fat1) m4) first n n _ q' hg' hp1 hp2 hp3
          hfr hdirp
          (fun k hk => (hvalid k hk).1) off (by unfold DIR_ENTRY_SIZE; omega)
        intro hE
        unfold OFF_SIZE at hE
        omega
      have hsize' : entry_size (with_mem (with_fat fs fat1) m4) q' = offset + num_bytes := hsize
      unfold file_chain_ok
      rw [hfirst, hsize']
      have e : file_clusters (with_mem (with_fat fs fat1) m4) (offset + num_bytes)
          = file_clusters fs (offset + num_bytes) := rfl
      rw [e, ← hKeq]
      exact chain_length_is_grow fs (with_mem (with_fat fs fat1) m4) first n _ hmin hmax rfl rfl rfl
        hchain hn1 hgrow
    · have hinvq := hinv q' hq'
      apply frame_other_file fs (with_mem (with_fat fs fat1) m4) first n n _ q' hg' hq1' hq2' hq3'
        hfr
      · intro k hk j hj
        have := hf.2.2 p hp q' hq' (Ne.symm hqp) k (by unfold file_length; rw [hsz, hnd]; exact hk)
          j hj
        unfold file_cluster at this ⊢
        rw [hfc] at this
        exact this
      · intro k hk
        have := hf.2.1 p hp q' hq' k (by unfold file_length; rw [hsz, hnd]; exact hk)
        unfold file_cluster at this
        rw [hfc] at this
        exact this
      · intro k hk
        exact (hvalid k hk).1
      · intro off _ ho2 hE
        refine entry_disjoint fs hg' p q' hp1 hp2 hq1' hq2' hqp off ho2 ?_
        unfold OFF_SIZE DIR_ENTRY_SIZE at *
        omega
      · exact hinvq

/-- A walk of `fatfs_truncate` whose bound does not fit the 32-bit counter never ends regularly. -/
theorem truncate_walk_wrapped (fat : Nat → Nat) (cmin cmax bound : Nat) (step : Int)
    (hb : 2 ^ 32 ≤ bound) :
    ∀ (fuel n c : Nat) (sz : Int) (r : Nat × Int), n < 2 ^ 32 →
      truncate_walk fat cmin cmax bound step fuel n c sz ≠ some (some r) := by
  intro fuel
  induction fuel with
  | zero => intro n c sz r _ h; simp [truncate_walk] at h
  | succ fuel ih =>
    intro n c sz r hn h
    unfold truncate_walk at h
    have hlt : n < bound := by omega
    simp only [if_pos hlt] at h
    split_ifs at h with h1 h2
    · simp at h
    · simp at h
    · exact ih _ _ _ _ (Nat.mod_lt _ (by norm_num)) h

/-- A walk of `fatfs_truncate` that ends regularly has made the hops that the bound asks for. -/
theorem truncate_walk_some (fat : Nat → Nat) (cmin cmax bound : Nat) (step : Int)
    (hb : bound < 2 ^ 32) :
    ∀ (fuel n c : Nat) (sz : Int) (c1 : Nat) (sz1 : Int), n ≤ bound →
      truncate_walk fat cmin cmax bound step fuel n c sz = some (some (c1, sz1)) →
      c1 = nth_cluster fat c (bound - n) := by
  intro fuel
  induction fuel with
  | zero => intro n c sz c1 sz1 _ h; simp [truncate_walk] at h
  | succ fuel ih =>
    intro n c sz c1 sz1 hn h
    unfold truncate_walk at h
    by_cases hlt : n < bound
    · simp only [if_pos hlt] at h
      split_ifs at h with h1 h2
      · simp at h
      · simp at h
      · have hmod : (n + 1) % 2 ^ 32 = n + 1 := Nat.mod_eq_of_lt (by omega)
        rw [hmod] at h
        have := ih _ _ _ _ _ (by omega) h
        rw [this]
        have e : bound - n = (bound - (n + 1)) + 1 := by omega
        rw [e]
        rfl
    · simp only [if_neg hlt, Option.some.injEq, Prod.mk.injEq] at h
      have e : bound - n = 0 := by omega
      rw [e, ← h.1]
      rfl

/-- The shrinking walk of `grow_shrink_chain` over valid, pairwise different clusters succeeds and
changes the FAT entries of those clusters only. -/
theorem free_links_spec (cmin cmax : Nat) :
    ∀ (k : Nat) (fat : Nat → Nat) (c : Nat),
      (∀ j, j < k → cmin ≤ nth_cluster fat c j ∧ nth_cluster fat c j ≤ cmax) →
      (∀ i, i < k → ∀ j, j < k → nth_cluster fat c i = nth_cluster fat c j → i = j) →
      ∃ fat1, free_links cmin cmax k fat c = some fat1 ∧
        ∀ x, (∀ j, j < k → x ≠ nth_cluster fat c j) → fat1 x = fat x := by
  intro k
  induction k with
  | zero =>
    intro fat c _ _
    exact ⟨fat, rfl, fun _ _ => rfl⟩
  | succ k ih =>
    intro fat c hval hdist
    unfold free_links
    have h0 := hval 0 (by omega)
    simp only [nth_cluster] at h0
    rw [if_pos h0]
    have hn : ∀ j, j ≤ k → nth_cluster (fat_set fat c FREE_CLUSTER) (fat c) j
        = nth_cluster fat c (j + 1) := by
      intro j hj
      have := nth_cluster_congr fat (fat_set fat c FREE_CLUSTER) (fat c) k
        (by
          intro i hi
          have hne : nth_cluster fat (fat c) i ≠ c := by
            intro e
            have := hdist (i + 1) (by omega) 0 (by omega) (by simpa [nth_cluster] using e)
            omega
          simp [fat_set, hne]) j hj
      rw [this]
      rfl
    obtain ⟨fat1, hrun, hfr⟩ := ih (fat_set fat c FREE_CLUSTER) (fat c)
      (by
        intro j hj
        rw [hn j (by omega)]
        exact hval (j + 1) (by omega))
      (by
        intro i hi j hj e
        rw [hn i (by omega), hn j (by omega)] at e
        have := hdist (i + 1) (by omega) (j + 1) (by omega) e
        omega)
    refine ⟨fat1, hrun, ?_⟩
    intro x hx
    rw [hfr x]
    · have := hx 0 (by omega)
      simp only [nth_cluster] at this
      simp [fat_set, this]
    · intro j hj
      rw [hn j (by omega)]
      exact hx (j + 1) (by omega)

/-- A shrinking of `grow_shrink_chain`: the new FAT, flushed to the FAT region. -/
theorem grow_shrink_chain_shrink (fs : fatfs_state) (m fat1 : Nat → Nat) (tail k : Nat)
    (hk : 0 < k)
    (hfree : free_links (cluster_min fs) (cluster_max fs) k fs.table_chars.fatfs_begin
      (fs.table_chars.fatfs_begin tail) = some fat1)
    (hfit : fs.bootrecord.reservedblock_size + 2 * fs.table_chars.fatfs_size ≤ fs.dev.num_blocks) :
    ∃ m1, grow_shrink_chain (with_mem fs m) (tail : Int) (-(k : Int))
        = (with_mem (with_fat fs (fat_set fat1 tail EOC_MAX)) m1, 0) ∧
      ∀ a, (fs.bootrecord.reservedblock_size + 2 * fs.table_chars.fatfs_size)
          * fs.bootrecord.sector_size ≤ a → m1 a = m a := by
  obtain ⟨m1, hflush, hframe⟩ := flush_FAT_spec (with_fat fs (fat_set fat1 tail EOC_MAX)) m hfit
  refine ⟨m1, ?_, hframe⟩
  unfold grow_shrink_chain
  have h1 : ¬ (-(k : Int) > 0) := by omega
  have h2 : -(k : Int) < 0 := by omega
  have h3 : (- -(k : Int)).toNat = k := by simp
  have h4 : ((tail : Int)).toNat = tail := by simp
  simp only [if_neg h1, if_pos h2, h3, h4]
  have e1 : cluster_min (with_mem fs m) = cluster_min fs := rfl
  have e2 : cluster_max (with_mem fs m) = cluster_max fs := rfl
  have e3 : (with_mem fs m).table_chars.fatfs_begin = fs.table_chars.fatfs_begin := rfl
  rw [e1, e2, e3, hfree]
  simp only
  rw [with_fat_with_mem, hflush]

/-- A growth of `grow_shrink_chain` that finds no free cluster returns `-1`. -/
theorem grow_shrink_chain_grow_none (fs : fatfs_state) (tail k : Nat)
    (hk : 0 < k)
    (hgrow : grow_links (cluster_min fs) (cluster_max fs) k fs.table_chars.fatfs_begin tail
      = none) :
    grow_shrink_chain fs (tail : Int) (k : Int) = (fs, -1) := by
  unfold grow_shrink_chain
  have h1 : (k : Int) > 0 := by omega
  have h2 : ¬ ((tail : Int) = -1) := by omega
  have h3 : ((k : Int)).toNat = k := by simp
  have h4 : ((tail : Int)).toNat = tail := by simp
  simp only [if_pos h1, if_neg h2, h3, h4, hgrow]

/-- The end of `fatfs_truncate` (lines 596-614), when it returns 0: the chain manager did not
fail, and the directory sector was written back with the new size in the entry. -/
theorem truncate_dir_update (g : fatfs_state × Int) (dc dn v : Nat) (fs1 : fatfs_state)
    (hslot : dn * DIR_ENTRY_SIZE + DIR_ENTRY_SIZE ≤ g.1.bootrecord.sector_size)
    (h : (if g.2 = -1 then some ((-1 : Int), g.1)
      else
        match nk_block_dev_read g.1 (get_sector_num dc g.1) 1 (fun _ => 0) with
        | none => some (-1, g.1)
        | some full_dirs =>
          match nk_block_dev_write g.1 (get_sector_num dc g.1) 1
              (le_store full_dirs (dn * DIR_ENTRY_SIZE + OFF_SIZE) 4 v) with
          | none => some (-1, g.1)
          | some fs3 => some (0, fs3)) = some (0, fs1)) :
    g.2 ≠ -1 ∧ fs1.bootrecord = g.1.bootrecord ∧ fs1.table_chars = g.1.table_chars ∧
    (∀ j, j < 4 → fs1.dev.mem (dir_entry_addr g.1 dc dn + OFF_SIZE + j) = le_byte v j) ∧
    (∀ a, ¬ (dir_entry_addr g.1 dc dn + OFF_SIZE ≤ a ∧ a < dir_entry_addr g.1 dc dn + OFF_SIZE + 4) →
      fs1.dev.mem a = g.1.dev.mem a) := by
  split_ifs at h with hrc
  · simp at h
  · cases hr : nk_block_dev_read g.1 (get_sector_num dc g.1) 1 (fun _ => 0) with
    | none => rw [hr] at h; simp at h
    | some full_dirs =>
      rw [hr] at h
      simp only at h
      have hbuf := nk_block_dev_read_some _ _ _ _ _ hr
      cases hw : nk_block_dev_write g.1 (get_sector_num dc g.1) 1
          (le_store full_dirs (dn * DIR_ENTRY_SIZE + OFF_SIZE) 4 v) with
      | none => rw [hw] at h; simp at h
      | some fs3 =>
        rw [hw] at h
        simp only [Option.some.injEq, Prod.mk.injEq, true_and] at h
        subst h
        obtain ⟨w1, w2, _, w4⟩ := nk_block_dev_write_some _ _ _ _ _ hw
        refine ⟨hrc, w1, w2, ?_, ?_⟩
        · intro j hj
          rw [w4, hbuf]
          unfold dev_store le_store dir_entry_addr cluster_base
          unfold DIR_ENTRY_SIZE OFF_SIZE at *
          simp only [Nat.add_mul, Nat.one_mul]
          rw [if_pos (by omega), if_pos (by omega)]
          congr 1
          omega
        · intro a ha
          rw [w4, hbuf]
          unfold dev_store le_store
          unfold dir_entry_addr cluster_base at ha
          unfold DIR_ENTRY_SIZE OFF_SIZE at *
          simp only [Nat.add_mul, Nat.one_mul]
          split_ifs <;> first | rfl | (exfalso; omega) | skip
          congr 1
          omega

/-- The invariant after an operation that has replaced the chain of one file and stored the new
size in its entry, leaving alone the chains and the entries of the other files. -/
theorem chains_ok_resize (fs fs1 : fatfs_state) (files : List (Nat × Nat)) (p : Nat × Nat)
    (hp : p ∈ files) (hg : geometry_ok fs) (hf : files_ok fs files) (hinv : chains_ok fs files)
    (size1 : Nat) (h32 : size1 < 2 ^ 32)
    (hfr : op_frame fs fs1 (entry_first_cluster fs p) (file_length fs p) (file_length fs p)
      (fun a => dir_entry_addr fs p.1 p.2 + OFF_SIZE ≤ a ∧
        a < dir_entry_addr fs p.1 p.2 + OFF_SIZE + 4))
    (hsz : ∀ j, j < 4 → fs1.dev.mem (dir_entry_addr fs p.1 p.2 + OFF_SIZE + j) = le_byte size1 j)
    (hnew : chain_length_is fs1 (entry_first_cluster fs p) (file_clusters fs size1)) :
    chains_ok fs1 files := by
  obtain ⟨hp1, hp2, hp3⟩ := hf.1 p hp
  have hb : fs1.bootrecord = fs.bootrecord := hfr.1
  have hvalid := (hinv p hp).1
  intro q hq
  obtain ⟨hq1, hq2, hq3⟩ := hf.1 q hq
  by_cases hqp : q = p
  · subst hqp
    have hfirst : entry_first_cluster fs1 q = entry_first_cluster fs q := by
      apply entry_first_cluster_congr fs fs1 q hb
      intro off ho1 ho2
      unfold OFF_SIZE at ho2
      apply frame_entry_byte fs fs1 _ _ _ _ q hg hp1 hp2 hp3 hfr (hf.2.1 q hq q hq)
        (fun k hk => (hvalid k hk).1) off (by unfold DIR_ENTRY_SIZE; omega)
      intro hE
      unfold OFF_SIZE at hE
      omega
    have hsize : entry_size fs1 q = size1 := by
      unfold entry_size
      rw [dir_entry_addr_congr fs fs1 hb]
      exact le_load_bytes _ _ _ h32 hsz
    unfold file_chain_ok file_clusters
    rw [hfirst, hsize, get_cluster_size_congr fs fs1 hb]
    exact hnew
  · apply frame_other_file fs fs1 _ _ _ _ q hg hq1 hq2 hq3 hfr
    · intro k hk j hj
      exact hf.2.2 p hp q hq (Ne.symm hqp) k hk j hj
    · intro k hk
      exact hf.2.1 p hp q hq k hk
    · intro k hk
      exact (hvalid k hk).1
    · intro off _ ho2 hE
      refine entry_disjoint fs hg p q hp1 hp2 hq1 hq2 hqp off ho2 ?_
      unfold OFF_SIZE DIR_ENTRY_SIZE at *
      omega
    · exact hinv q hq

/-- The invariant after a `fatfs_truncate` that has left the FAT `fat1` and, up to the size field
of the entry, the device content `m2`. -/
theorem truncate_conclude (fs fs1 : fatfs_state) (files : List (Nat × Nat)) (p : Nat × Nat)
    (hp : p ∈ files) (hg : geometry_ok fs) (hf : files_ok fs files) (hinv : chains_ok fs files)
    (len : Nat) (h32 : len < 2 ^ 32) (fat1 m2 : Nat → Nat)
    (hF : ∀ x, fs.table_chars.fatfs_begin x ≠ FREE_CLUSTER →
      (∀ k, k < file_length fs p → x ≠ file_cluster fs p k) →
      fat1 x = fs.table_chars.fatfs_begin x)
    (hD : ∀ a, fat_region_end fs ≤ a →
      (∀ k, k < file_length fs p → ¬ in_cluster fs (file_cluster fs p k) a) → m2 a = fs.dev.mem a)
    (hnew : chain_length_is (with_fat fs fat1) (entry_first_cluster fs p) (file_clusters fs len))
    (hupd : fs1.bootrecord = fs.bootrecord ∧ fs1.table_chars = (with_fat fs fat1).table_chars ∧
      (∀ j, j < 4 → fs1.dev.mem (dir_entry_addr fs p.1 p.2 + OFF_SIZE + j)
        = le_byte (len % 2 ^ 32) j) ∧
      (∀ a, ¬ (dir_entry_addr fs p.1 p.2 + OFF_SIZE ≤ a ∧
          a < dir_entry_addr fs p.1 p.2 + OFF_SIZE + 4) → fs1.dev.mem a = m2 a)) :
    chains_ok fs1 files := by
  obtain ⟨hb, ht, hsz, hd⟩ := hupd
  have hmod : len % 2 ^ 32 = len := Nat.mod_eq_of_lt h32
  rw [hmod] at hsz
  apply chains_ok_resize fs fs1 files p hp hg hf hinv len h32 _ hsz
  · apply chain_length_is_congr (with_fat fs fat1) fs1 _ _ hb (by rw [ht]) (by rw [ht]) _ hnew
    intro k _
    rw [ht]
  · refine ⟨hb, by rw [ht]; rfl, by rw [ht]; rfl, ?_, ?_⟩
    · intro x hx1 _ hx3
      rw [ht]
      exact hF x hx1 hx3
    · intro a ha1 ha2 _ ha4
      rw [hd a ha4]
      exact hD a ha1 ha2

/-- The bound `count - 1` of the walks of `fatfs_truncate`, computed in `size_t`. -/
theorem truncate_bound (k : Nat) (hk : 1 ≤ k) (hk2 : k < 2 ^ 32) :
    (k + 2 ^ 64 - 1) % 2 ^ 64 = k - 1 := by
  have e : k + 2 ^ 64 - 1 = (k - 1) + 2 ^ 64 := by omega
  rw [e, Nat.add_mod_right]
  exact Nat.mod_eq_of_lt (by omega)

/-- A successful `fatfs_truncate` keeps the chain-length invariant of every file. -/
theorem fatfs_truncate_chains (path_lookup : PathLookup) (fuel : Nat) (fs fs1 : fatfs_state)
    (file : List Nat) (len : Nat)
    (files : List (Nat × Nat)) (p : Nat × Nat) (hp : p ∈ files)
    (hg : geometry_ok fs) (hf : files_ok fs files) (hinv : chains_ok fs files)
    (hlk : path_lookup fs file 0 = lookup_entry p.1 p.2 fs file 0)
    (h32 : len < 2 ^ 32)
    (h : fatfs_truncate path_lookup fuel fs file len = some (0, fs1)) :
    chains_ok fs1 files := by
  have hg' := hg
  obtain ⟨hss, _, hspc, hmin, hmax, hdata, hfat⟩ := hg
  obtain ⟨l1, l2, l3, l4, l5, l6⟩ := lookup_entry_fields fs p file 0
  obtain ⟨hp1, hp2, hp3⟩ := hf.1 p hp
  have hcs : 0 < get_cluster_size fs := Nat.mul_pos hspc hss
  have hss2 : fs.bootrecord.sector_size ≤ get_cluster_size fs := Nat.le_mul_of_pos_left _ hspc
  have hchain : chain_length_is fs (entry_first_cluster fs p) (file_length fs p) := hinv p hp
  have hdist := chain_distinct_of_eoc fs _ _ hchain.1 hchain.2
  have hnewle : CEIL_DIV len (get_cluster_size fs) ≤ len := CEIL_DIV_le _ _ hcs
  have hflen : file_length fs p = max 1 (CEIL_DIV (entry_size fs p) (get_cluster_size fs)) := rfl
  have hfn : file_clusters fs len = max 1 (CEIL_DIV len (get_cluster_size fs)) := rfl
  unfold fatfs_truncate at h
  rw [hlk] at h
  simp only [l2, l3, l4, l5, l6, if_false] at h
  generalize hnewd : CEIL_DIV len (get_cluster_size fs) = new at *
  generalize hold : CEIL_DIV (entry_size fs p) (get_cluster_size fs) = old at *
  by_cases hlt : new < old
  · -- the file shrinks
    simp only [if_pos hlt] at h
    cases hw : truncate_walk fs.table_chars.fatfs_begin (cluster_min fs) (cluster_max fs)
        ((new + 2 ^ 64 - 1) % 2 ^ 64) (get_cluster_size fs) fuel 0 (entry_first_cluster fs p)
        len with
    | none => rw [hw] at h; simp at h
    | some r =>
      cases r with
      | none => rw [hw] at h; simp at h
      | some r2 =>
        obtain ⟨c1, sz⟩ := r2
        rw [hw] at h
        simp only at h
        have hnew1 : 1 ≤ new := by
          by_contra h0
          have e0 : new = 0 := by omega
          rw [e0] at hw
          exact truncate_walk_wrapped _ _ _ _ _ (by norm_num) _ _ _ _ _ (by norm_num) hw
        rw [truncate_bound new hnew1 (by omega)] at hw
        have hc1 := truncate_walk_some _ _ _ _ _ (by omega) _ _ _ _ _ _ (Nat.zero_le _) hw
        rw [Nat.sub_zero] at hc1
        have hn : file_length fs p = old := by rw [hflen]; omega
        cases hr : nk_block_dev_read fs (get_sector_num c1 fs) 1 (fun _ => 0) with
        | none => rw [hr] at h; simp at h
        | some file_content =>
          rw [hr] at h
          simp only at h
          cases hwr : nk_block_dev_write fs (get_sector_num c1 fs) 1
              (memset file_content (sz - 1).toNat 0 ((get_cluster_size fs : Int) - sz + 1).toNat) with
          | none => rw [hwr] at h; simp at h
          | some fsw =>
            rw [hwr] at h
            simp only at h
            generalize hbuf : memset file_content (sz - 1).toNat 0
              ((get_cluster_size fs : Int) - sz + 1).toNat = buf at hwr
            have hfsw : fsw = with_mem fs (dev_store fs (get_sector_num c1 fs) 1 buf) := by
              unfold nk_block_dev_write at hwr
              split_ifs at hwr
              simp only [Option.some.injEq] at hwr
              rw [← hwr]
              rfl
            subst hfsw
            -- the clusters behind the new last cluster
            have hnth : ∀ j, nth_cluster fs.table_chars.fatfs_begin (fs.table_chars.fatfs_begin c1) j
                = file_cluster fs p (new + j) := by
              intro j
              unfold file_cluster
              have e : new = new - 1 + 1 := by omega
              rw [hc1, ← nth_cluster_succ fs.table_chars.fatfs_begin _ (new - 1), ← e,
                nth_cluster_add]
            obtain ⟨fat2, hfree, hfrfree⟩ := free_links_spec (cluster_min fs) (cluster_max fs)
              (old - new) fs.table_chars.fatfs_begin (fs.table_chars.fatfs_begin c1)
              (by
                intro j hj
                rw [hnth]
                have := hchain.1 (new + j) (by omega)
                exact ⟨this.1, this.2.1⟩)
              (by
                intro i hi j hj e
                rw [hnth, hnth] at e
                have := hdist (new + i) (by omega) (new + j) (by omega) e
                omega)
            obtain ⟨m1, hgsc, hfrm⟩ := grow_shrink_chain_shrink fs
              (dev_store fs (get_sector_num c1 fs) 1 buf) fat2 c1 (old - new) (by omega) hfree
              hfat.1
            have hdk : (new : Int) - old = -((old - new : Nat) : Int) := by omega
            rw [hdk, hgsc] at h
            obtain ⟨_, u⟩ := truncate_dir_update
              (with_mem (with_fat fs (fat_set fat2 c1 EOC_MAX)) m1, 0) p.1 p.2 _ fs1 hp2 h
            have hc1f : c1 = file_cluster fs p (new - 1) := hc1
            apply truncate_conclude fs fs1 files p hp hg' hf hinv len h32
              (fat_set fat2 c1 EOC_MAX) m1 _ _ _ u
            · intro x _ hx2
              have hxc : x ≠ c1 := by
                rw [hc1f]; exact hx2 (new - 1) (by omega)
              rw [← hfrfree x]
              · simp [fat_set, hxc]
              · intro j hj
                rw [hnth]
                exact hx2 (new + j) (by omega)
            · intro a ha hout
              rw [hfrm a ha]
              apply dev_store_outside
              intro hin
              apply hout (new - 1) (by omega)
              rw [← hc1f]
              unfold in_cluster cluster_base
              rw [Nat.add_mul, Nat.one_mul] at hin
              omega
            · have e : file_clusters fs len = new := by rw [hfn]; omega
              rw [e]
              have hagree : ∀ k, k ≤ new - 1 →
                  nth_cluster (fat_set fat2 c1 EOC_MAX) (entry_first_cluster fs p) k
                    = nth_cluster fs.table_chars.fatfs_begin (entry_first_cluster fs p) k := by
                apply nth_cluster_congr
                intro i hi
                have hne : nth_cluster fs.table_chars.fatfs_begin (entry_first_cluster fs p) i
                    ≠ c1 := by
                  intro e2
                  rw [hc1] at e2
                  have := hdist i (by omega) (new - 1) (by omega) e2
                  omega
                rw [← hfrfree _]
                · simp [fat_set, hne]
                · intro j hj e2
                  rw [hnth] at e2
                  have := hdist i (by omega) (new + j) (by omega) e2
                  omega
              constructor
              · intro k hk
                show valid_cluster (with_fat fs (fat_set fat2 c1 EOC_MAX))
                  (nth_cluster (fat_set fat2 c1 EOC_MAX) (entry_first_cluster fs p) k)
                rw [hagree k (by omega)]
                exact hchain.1 k (by omega)
              · show is_eoc (nth_cluster (fat_set fat2 c1 EOC_MAX) (entry_first_cluster fs p) new)
                have e3 : new = new - 1 + 1 := by omega
                rw [e3, nth_cluster_succ, hagree (new - 1) (le_refl _), ← hc1]
                simp [fat_set, is_eoc, EOC_MIN, EOC_MAX]
  · simp only [if_neg hlt] at h
    by_cases hgt : new > old
    · -- the file grows
      simp only [if_pos hgt] at h
      cases hw : truncate_walk fs.table_chars.fatfs_begin (cluster_min fs) (cluster_max fs)
          ((old + 2 ^ 64 - 1) % 2 ^ 64) 0 fuel 0 (entry_first_cluster fs p) 0 with
      | none => rw [hw] at h; simp at h
      | some r =>
        cases r with
        | none => rw [hw] at h; simp at h
        | some r2 =>
          obtain ⟨c1, sz⟩ := r2
          rw [hw] at h
          simp only at h
          have hold1 : 1 ≤ old := by
            by_contra h0
            have e0 : old = 0 := by omega
            rw [e0] at hw
            exact truncate_walk_wrapped _ _ _ _ _ (by norm_num) _ _ _ _ _ (by norm_num) hw
          rw [truncate_bound old hold1 (by omega)] at hw
          have hc1 := truncate_walk_some _ _ _ _ _ (by omega) _ _ _ _ _ _ (Nat.zero_le _) hw
          rw [Nat.sub_zero] at hc1
          have hn : file_length fs p = old := by rw [hflen]; omega
          have hdk : (new : Int) - old = ((new - old : Nat) : Int) := by omega
          rw [hdk] at h
          cases hgl : grow_links (cluster_min fs) (cluster_max fs) (new - old)
              fs.table_chars.fatfs_begin c1 with
          | none =>
            rw [grow_shrink_chain_grow_none fs c1 (new - old) (by omega) hgl] at h
            simp at h
          | some fat1 =>
            obtain ⟨m1, hgsc, hfrm⟩ := grow_shrink_chain_grow fs fs.dev.mem fat1 c1 (new - old)
              (by omega) hgl hfat.1
            rw [with_mem_self] at hgsc
            rw [hgsc] at h
            obtain ⟨_, u⟩ := truncate_dir_update (with_mem (with_fat fs fat1) m1, 0) p.1 p.2 _ fs1
              hp2 h
            apply truncate_conclude fs fs1 files p hp hg' hf hinv len h32 fat1 m1 _ _ _ u
            · intro x hx1 hx2
              apply grow_links_frame _ _ _ _ _ _ hgl x _ hx1
              rw [hc1]
              exact hx2 (old - 1) (by omega)
            · intro a ha _
              exact hfrm a ha
            · have e : file_clusters fs len = file_length fs p + (new - old) := by
                rw [hfn, hn]; omega
              rw [e]
              apply chain_length_is_grow fs (with_fat fs fat1) _ _ _ hmin hmax rfl rfl rfl hchain
                (file_length_pos fs p)
              rw [hn, ← hc1]
              exact hgl
    · -- the number of clusters stays
      simp only [if_neg hgt] at h
      have hd0 : (new : Int) - old = 0 := by omega
      rw [hd0] at h
      have hg0 : grow_shrink_chain fs ((entry_first_cluster fs p : Nat) : Int) 0 = (fs, 0) := by
        unfold grow_shrink_chain
        simp
      rw [hg0] at h
      obtain ⟨_, u⟩ := truncate_dir_update (fs, 0) p.1 p.2 _ fs1 hp2 h
      apply truncate_conclude fs fs1 files p hp hg' hf hinv len h32 fs.table_chars.fatfs_begin
        fs.dev.mem (fun _ _ _ => rfl) (fun _ _ _ => rfl) _ u
      have e : file_clusters fs len = file_length fs p := by
        rw [hfn, hflen]
        have : new = old := by omega
        rw [this]
      rw [e]
      exact hchain

/-- The allocation of a new chain of one cluster by `grow_shrink_chain(-1, 1)`, when it does not
fail: the first free cluster becomes a chain of its own, and the FAT is flushed. -/
theorem grow_shrink_chain_new (fs : fatfs_state)
    (hfit : fs.bootrecord.reservedblock_size + 2 * fs.table_chars.fatfs_size ≤ fs.dev.num_blocks)
    (h : (grow_shrink_chain fs (-1) 1).2 ≠ -1) :
    ∃ head m1, find_free fs.table_chars.fatfs_begin (cluster_min fs) (cluster_max fs) = some head ∧
      grow_shrink_chain fs (-1) 1
        = (with_mem (with_fat fs (fat_set fs.table_chars.fatfs_begin head EOC_MAX)) m1,
            (head : Int)) ∧
      ∀ a, fat_region_end fs ≤ a → m1 a = fs.dev.mem a := by
  unfold grow_shrink_chain at h ⊢
  have h1 : (1 : Int) > 0 := by omega
  have h2 : (1 : Int).toNat - 1 = 0 := by simp
  simp only [if_pos h1, if_true, h2, grow_links] at h ⊢
  cases hff : find_free fs.table_chars.fatfs_begin (cluster_min fs) (cluster_max fs) with
  | none => rw [hff] at h; simp at h
  | some head =>
    obtain ⟨m1, hflush, hframe⟩ := flush_FAT_spec
      (with_fat fs (fat_set fs.table_chars.fatfs_begin head EOC_MAX)) fs.dev.mem hfit
    have e : with_mem (with_fat fs (fat_set fs.table_chars.fatfs_begin head EOC_MAX)) fs.dev.mem
        = with_fat fs (fat_set fs.table_chars.fatfs_begin head EOC_MAX) := rfl
    rw [e] at hflush
    refine ⟨head, m1, rfl, ?_, hframe⟩
    simp only [hflush]

/-- Two little-endian bytes of a 16-bit value load back to it. -/
theorem le_load_bytes2 (m : Nat → Nat) (a v : Nat) (hv : v < 65536)
    (h : ∀ j, j < 2 → m (a + j) = le_byte v j) : le_load m a 2 = v := by
  have h0 := h 0 (by omega)
  have h1 := h 1 (by omega)
  simp only [le_load, Nat.add_zero] at *
  rw [h0, h1]
  unfold le_byte
  simp only [pow_zero, Nat.div_one, pow_one]
  omega

/-- The two halves of a 32-bit cluster number decode to it. -/
theorem DECODE_EXTRACT (c : Nat) (hc : c < 2 ^ 32) :
    DECODE_CLUSTER (EXTRACT_HIGH_CLUSTER c) (EXTRACT_LOW_CLUSTER c) = c := by
  unfold DECODE_CLUSTER EXTRACT_HIGH_CLUSTER EXTRACT_LOW_CLUSTER
  omega

/-- What `fill_entry` stores in the size and first-cluster fields of the entry, and the bytes in
front of and behind the entry that it leaves alone when the parsed name fits the name fields. -/
theorem fill_entry_fields (fp : FilenameParser) (fd : Nat → Nat) (i : Nat) (name : List Nat)
    (isdir nc : Nat)
    (hfp : isdir = 0 → (fp name).name_len ≤ 8 ∧ (fp name).ext_len ≤ 3) :
    (∀ j, j < 4 → fill_entry fp fd i name isdir nc (i * DIR_ENTRY_SIZE + OFF_SIZE + j)
      = le_byte 0 j) ∧
    (∀ j, j < 2 → fill_entry fp fd i name isdir nc (i * DIR_ENTRY_SIZE + OFF_HIGH + j)
      = le_byte (EXTRACT_HIGH_CLUSTER nc) j) ∧
    (∀ j, j < 2 → fill_entry fp fd i name isdir nc (i * DIR_ENTRY_SIZE + OFF_LOW + j)
      = le_byte (EXTRACT_LOW_CLUSTER nc) j) ∧
    (∀ x, ¬ (i * DIR_ENTRY_SIZE ≤ x ∧ x < i * DIR_ENTRY_SIZE + DIR_ENTRY_SIZE) →
      fill_entry fp fd i name isdir nc x = fd x) := by
  unfold fill_entry le_store
  unfold DIR_ENTRY_SIZE OFF_SIZE OFF_HIGH OFF_LOW OFF_ATTR OFF_NAME OFF_EXT
  refine ⟨?_, ?_, ?_, ?_⟩
  · intro j hj
    simp only
    rw [if_neg (by omega), if_neg (by omega), if_pos (by omega)]
    congr 1
    omega
  · intro j hj
    simp only
    rw [if_neg (by omega), if_pos (by omega)]
    congr 1
    omega
  · intro j hj
    simp only
    rw [if_pos (by omega)]
    congr 1
    omega
  · intro x hx
    simp only
    rw [if_neg (by omega), if_neg (by omega), if_neg (by omega)]
    by_cases hd : isdir = 0
    · obtain ⟨f1, f2⟩ := hfp hd
      simp only [hd, ne_eq, not_true_eq_false, if_false]
      rw [if_neg (by omega)]
      unfold strncpy
      rw [if_neg (by omega), if_neg (by omega)]
    · simp only [ne_eq, hd, not_false_eq_true, if_true]
      rw [if_neg (by omega)]
      unfold strncpy
      rw [if_neg (by omega)]

/-- A successful end of `fatfs_create` with a free slot inside the sector: the cluster allocated
for the new file, the FAT, and the first sectors of the clusters on the device. -/
theorem create_finish_alloc (fp : FilenameParser) (fs fs1 : fatfs_state) (name pwn : List Nat)
    (isdir dirc c i : Nat) (fd fd2 : Nat → Nat)
    (hg : geometry_ok fs)
    (hi : i < FLOOR_DIV fs.bootrecord.sector_size DIR_ENTRY_SIZE)
    (hc : cluster_min fs ≤ c)
    (hdc : pwn.headD 0 ≠ 0 → cluster_min fs ≤ dirc ∧
      ∀ off, off < fs.bootrecord.sector_size → fd off = fs.dev.mem (cluster_base fs dirc + off))
    (h : create_finish fp fs name pwn isdir dirc c i fd fd2 = (1, fs1)) :
    ∃ head, find_free fs.table_chars.fatfs_begin (cluster_min fs) (cluster_max fs) = some head ∧
      fs1.bootrecord = fs.bootrecord ∧
      fs1.table_chars
        = (with_fat fs (fat_set fs.table_chars.fatfs_begin head EOC_MAX)).table_chars ∧
      ∀ c' off, cluster_min fs ≤ c' → off < fs.bootrecord.sector_size →
        fs1.dev.mem (cluster_base fs c' + off)
          = if c' = c then fill_entry fp fd2 i name isdir head off
            else fs.dev.mem (cluster_base fs c' + off) := by
  obtain ⟨hss, _, hspc, hmin, hmax, hdata, hfat⟩ := hg
  have hss2 : fs.bootrecord.sector_size ≤ get_cluster_size fs := Nat.le_mul_of_pos_left _ hspc
  unfold create_finish at h
  have hne : ¬ (i = FLOOR_DIV fs.bootrecord.sector_size DIR_ENTRY_SIZE) := by omega
  simp only [if_neg hne] at h
  have hrc : (grow_shrink_chain fs (-1) 1).2 ≠ -1 := by
    intro e
    rw [if_pos e] at h
    simp at h
  obtain ⟨head, m1, hff, hgsc, hfrm⟩ := grow_shrink_chain_new fs hfat.1 hrc
  rw [hgsc] at h
  have hh : ¬ ((head : Int) = -1) := by omega
  have hh2 : ((head : Int)).toNat = head := by simp
  simp only [if_neg hh, hh2] at h
  generalize hfs2 : with_mem (with_fat fs (fat_set fs.table_chars.fatfs_begin head EOC_MAX)) m1
    = fs2 at h
  have hb2 : fs2.bootrecord = fs.bootrecord := by rw [← hfs2]; rfl
  have ht2 : fs2.table_chars
      = (with_fat fs (fat_set fs.table_chars.fatfs_begin head EOC_MAX)).table_chars := by
    rw [← hfs2]; rfl
  have hm2 : ∀ a, fat_region_end fs ≤ a → fs2.dev.mem a = fs.dev.mem a := by
    intro a ha; rw [← hfs2]; exact hfrm a ha
  refine ⟨head, hff, ?_⟩
  -- the last write, into cluster `c`
  have key : ∀ (fs3 : fatfs_state), fs3.bootrecord = fs.bootrecord →
      fs3.table_chars = fs2.table_chars →
      (∀ c' off, cluster_min fs ≤ c' → off < fs.bootrecord.sector_size →
        fs3.dev.mem (cluster_base fs c' + off) = fs.dev.mem (cluster_base fs c' + off)) →
      nk_block_dev_write fs3 (get_sector_num c fs3) fs3.bootrecord.cluster_size
        (fill_entry fp fd2 i name isdir head) = some fs1 →
      fs1.bootrecord = fs.bootrecord ∧
      fs1.table_chars
        = (with_fat fs (fat_set fs.table_chars.fatfs_begin head EOC_MAX)).table_chars ∧
      ∀ c' off, cluster_min fs ≤ c' → off < fs.bootrecord.sector_size →
        fs1.dev.mem (cluster_base fs c' + off)
          = if c' = c then fill_entry fp fd2 i name isdir head off
            else fs.dev.mem (cluster_base fs c' + off) := by
    intro fs3 hb3 ht3 hm3 hw
    obtain ⟨w1, w2, _, w4⟩ := nk_block_dev_write_some _ _ _ _ _ hw
    refine ⟨by rw [w1, hb3], by rw [w2, ht3, ht2], ?_⟩
    intro c' off hc' hoff
    rw [w4]
    have hsec : get_sector_num c fs3 = get_sector_num c fs := by
      unfold get_sector_num; rw [hb3]
    unfold dev_store
    rw [hsec, hb3]
    by_cases hcc : c' = c
    · subst hcc
      rw [if_pos rfl]
      unfold cluster_base
      unfold get_cluster_size at hss2
      rw [if_pos (by rw [Nat.add_mul]; omega)]
      congr 1
      omega
    · rw [if_neg hcc]
      have hin : in_cluster fs c' (cluster_base fs c' + off) := by
        unfold in_cluster; omega
      have hnot := in_cluster_disjoint fs c' c _ hc' hc hcc hin
      unfold in_cluster cluster_base get_cluster_size at hnot
      rw [if_neg (by rw [Nat.add_mul]; exact hnot)]
      exact hm3 c' off hc' hoff
  have hm2' : ∀ c' off, cluster_min fs ≤ c' → off < fs.bootrecord.sector_size →
      fs2.dev.mem (cluster_base fs c' + off) = fs.dev.mem (cluster_base fs c' + off) := by
    intro c' off _ _
    apply hm2
    have := data_region_start fs c' hfat
    unfold fat_region_end
    omega
  by_cases hroot : pwn.headD 0 ≠ 0
  · simp only [if_pos hroot] at h
    obtain ⟨hdc1, hdc2⟩ := hdc hroot
    cases hw : nk_block_dev_write fs2 (get_sector_num dirc fs2) fs2.bootrecord.cluster_size fd with
    | none => rw [hw] at h; simp at h
    | some fs3 =>
      rw [hw] at h
      simp only at h
      obtain ⟨v1, v2, _, v4⟩ := nk_block_dev_write_some _ _ _ _ _ hw
      cases hw2 : nk_block_dev_write fs3 (get_sector_num c fs3) fs3.bootrecord.cluster_size
          (fill_entry fp fd2 i name isdir head) with
      | none => rw [hw2] at h; simp at h
      | some fs4 =>
        rw [hw2] at h
        simp only [Prod.mk.injEq, true_and] at h
        subst h
        apply key fs3 (by rw [v1, hb2]) v2 _ hw2
        intro c' off hc' hoff
        rw [v4]
        have hsec : get_sector_num dirc fs2 = get_sector_num dirc fs := by
          unfold get_sector_num; rw [hb2]
        unfold dev_store
        rw [hsec, hb2]
        by_cases hcc : c' = dirc
        · subst hcc
          unfold cluster_base
          unfold get_cluster_size at hss2
          rw [if_pos (by rw [Nat.add_mul]; omega)]
          have e : get_sector_num c' fs * fs.bootrecord.sector_size + off
              - get_sector_num c' fs * fs.bootrecord.sector_size = off := by omega
          rw [e]
          exact hdc2 off hoff
        · have hin : in_cluster fs c' (cluster_base fs c' + off) := by
            unfold in_cluster; omega
          have hnot := in_cluster_disjoint fs c' dirc _ hc' hdc1 hcc hin
          unfold in_cluster cluster_base get_cluster_size at hnot
          rw [if_neg (by rw [Nat.add_mul]; exact hnot)]
          exact hm2' c' off hc' hoff
  · simp only [if_neg hroot] at h
    cases hw2 : nk_block_dev_write fs2 (get_sector_num c fs2) fs2.bootrecord.cluster_size
        (fill_entry fp fd2 i name isdir head) with
    | none => rw [hw2] at h; simp at h
    | some fs4 =>
      rw [hw2] at h
      simp only [Prod.mk.injEq, true_and] at h
      subst h
      exact key fs2 hb2 rfl hm2' hw2

/-- What `create_locate` has read: the first sector of the scanned cluster and, for a parent
other than the root, the first sector of the cluster that holds the entry of the parent. -/
theorem create_locate_reads (path_lookup : PathLookup) (stack : Nat → Nat) (fuel : Nat)
    (fs : fatfs_state) (path : List Nat) (dirc c i : Nat) (fd fd2 : Nat → Nat)
    (hloc : create_locate path_lookup stack fuel fs path = some (some (dirc, c, i, fd, fd2))) :
    (∀ off, off < fs.bootrecord.sector_size → fd2 off = fs.dev.mem (cluster_base fs c + off)) ∧
    ((path_without_name path).headD 0 ≠ 0 →
      ∀ off, off < fs.bootrecord.sector_size → fd off = fs.dev.mem (cluster_base fs dirc + off)) := by
  unfold create_locate at hloc
  simp only at hloc
  by_cases h0 : (split_path path).length = 0
  · rw [if_pos h0] at hloc
    simp at hloc
  rw [if_neg h0] at hloc
  by_cases h1 : (path_without_name path).headD 0 = 0
  · -- the parent is the root directory
    rw [if_pos h1] at hloc
    simp only at hloc
    cases hl : last_cluster_loop fs.table_chars.fatfs_begin (cluster_min fs) fuel
        (path_lookup fs (path_without_name path) 1).dir_cluster_num with
    | none => rw [hl] at hloc; simp at hloc
    | some c1 =>
      rw [hl] at hloc
      simp only at hloc
      cases hr : nk_block_dev_read fs (get_sector_num c1 fs) 1 stack with
      | none => rw [hr] at hloc; simp at hloc
      | some b2 =>
        rw [hr] at hloc
        simp only at hloc
        have hb := nk_block_dev_read_some _ _ _ _ _ hr
        cases hs : scan_slot b2 fuel 0 with
        | none => rw [hs] at hloc; simp at hloc
        | some i1 =>
          rw [hs] at hloc
          simp only [Option.some.injEq, Prod.mk.injEq] at hloc
          obtain ⟨_, e2, _, _, e5⟩ := hloc
          subst e2 e5
          constructor
          · intro off hoff
            rw [hb]
            simp only [Nat.one_mul, if_pos hoff]
            rfl
          · intro hne
            exact absurd h1 hne
  rw [if_neg h1] at hloc
  by_cases h2 : (path_lookup fs (path_without_name path) 1).dir_num = -1
  · rw [if_pos h2] at hloc
    simp at hloc
  rw [if_neg h2] at hloc
  cases hrd : nk_block_dev_read fs
      (get_sector_num (path_lookup fs (path_without_name path) 1).dir_cluster_num fs) 1 stack with
  | none => rw [hrd] at hloc; simp at hloc
  | some b1 =>
    rw [hrd] at hloc
    simp only at hloc
    have hbd := nk_block_dev_read_some _ _ _ _ _ hrd
    cases hl : last_cluster_loop fs.table_chars.fatfs_begin (cluster_min fs) fuel
        (DECODE_CLUSTER (path_lookup fs (path_without_name path) 1).dir_ent.high_cluster
          (path_lookup fs (path_without_name path) 1).dir_ent.low_cluster) with
    | none => rw [hl] at hloc; simp at hloc
    | some c1 =>
      rw [hl] at hloc
      simp only at hloc
      cases hr : nk_block_dev_read fs (get_sector_num c1 fs) 1 stack with
      | none => rw [hr] at hloc; simp at hloc
      | some b2 =>
        rw [hr] at hloc
        simp only at hloc
        have hb := nk_block_dev_read_some _ _ _ _ _ hr
        cases hs : scan_slot b2 fuel 0 with
        | none => rw [hs] at hloc; simp at hloc
        | some i1 =>
          rw [hs] at hloc
          simp only [Option.some.injEq, Prod.mk.injEq] at hloc
          obtain ⟨e1, e2, _, e4, e5⟩ := hloc
          subst e1 e2 e4 e5
          constructor
          · intro off hoff
            rw [hb]
            simp only [Nat.one_mul, if_pos hoff]
            rfl
          · intro _ off hoff
            rw [hbd]
            simp only [Nat.one_mul, if_pos hoff]
            rfl

/-- The number of clusters of an empty file. -/
theorem file_clusters_zero (fs : fatfs_state) : file_clusters fs 0 = 1 := by
  simp [file_clusters, CEIL_DIV]

/-- A successful `fatfs_create_file` that found a free slot inside the scanned sector keeps the
chain-length invariant of every file, and the new file has a chain of one cluster. -/
theorem fatfs_create_file_chains (path_lookup : PathLookup) (fp : FilenameParser)
    (stack : Nat → Nat) (fuel : Nat) (fs fs1 : fatfs_state) (path : List Nat)
    (files : List (Nat × Nat)) (dirc c i : Nat) (fd fd2 : Nat → Nat)
    (hg : geometry_ok fs) (hf : files_ok fs files) (hinv : chains_ok fs files)
    (hloc : create_locate path_lookup stack fuel fs path = some (some (dirc, c, i, fd, fd2)))
    (hi : i < FLOOR_DIV fs.bootrecord.sector_size DIR_ENTRY_SIZE)
    (hc : cluster_min fs ≤ c)
    (hdc : (path_without_name path).headD 0 ≠ 0 → cluster_min fs ≤ dirc)
    (hfp : (fp ((split_path path).getLastD [])).name_len ≤ 8 ∧
      (fp ((split_path path).getLastD [])).ext_len ≤ 3)
    (hnew : (c, i) ∉ files)
    (hsucc : fatfs_create_file path_lookup fp stack fuel fs path = some (1, fs1)) :
    chains_ok fs1 ((c, i) :: files) ∧ entry_size fs1 (c, i) = 0 ∧
      chain_length_is fs1 (entry_first_cluster fs1 (c, i)) 1 := by
  have hg' := hg
  obtain ⟨hss, hmod, hspc, hmin, hmax, hdata, hfat⟩ := hg
  obtain ⟨hrd2, hrd⟩ := create_locate_reads path_lookup stack fuel fs path dirc c i fd fd2 hloc
  unfold fatfs_create_file fatfs_create at hsucc
  simp only at hsucc
  split_ifs at hsucc with hex
  · simp at hsucc
  rw [hloc] at hsucc
  simp only [Option.some.injEq, Nat.zero_mod] at hsucc
  obtain ⟨head, hff, hb, ht, hmem⟩ := create_finish_alloc fp fs fs1 _ _ 0 dirc c i fd fd2 hg' hi hc
    (fun hne => ⟨hdc hne, hrd hne⟩) hsucc
  obtain ⟨hfree, hh1, hh2⟩ := find_free_spec _ _ _ _ hff
  obtain ⟨f1, f2, f3, f4⟩ := fill_entry_fields fp fd2 i ((split_path path).getLastD []) 0 head
    (fun _ => hfp)
  have hislot : i * DIR_ENTRY_SIZE + DIR_ENTRY_SIZE ≤ fs.bootrecord.sector_size := by
    have hle : (i + 1) * DIR_ENTRY_SIZE ≤ fs.bootrecord.sector_size :=
      (Nat.le_div_iff_mul_le (by unfold DIR_ENTRY_SIZE; omega)).mp hi
    rw [Nat.add_mul] at hle
    omega
  -- the entries of the files that were there
  have hold : ∀ q ∈ files, file_chain_ok fs1 q := by
    intro q hq
    obtain ⟨hq1, hq2, hq3⟩ := hf.1 q hq
    apply file_chain_ok_frame fs fs1 q hb (by rw [ht]; rfl) (by rw [ht]; rfl) _ _ (hinv q hq)
    · intro off _ ho2
      unfold dir_entry_addr
      rw [Nat.add_assoc, hmem q.1 (q.2 * DIR_ENTRY_SIZE + off) hq1.1 (by omega)]
      split_ifs with hqc
      · have hqi : q.2 ≠ i := by
          intro e
          apply hnew
          have : q = (c, i) := Prod.ext hqc e
          rw [← this]
          exact hq
        rw [f4 _ (by unfold DIR_ENTRY_SIZE at *; omega), hrd2 _ (by omega), hqc]
      · rfl
    · intro k hk
      rw [ht]
      have hx := (chain_cluster_props fs hmin _ _ k (hinv q hq) hk).2
      have hne : file_cluster fs q k ≠ head := by
        intro e
        apply hx
        unfold file_cluster at e
        rw [e]
        exact hfree
      simp [with_fat, fat_set, hne]
  -- the new entry
  have hsize : entry_size fs1 (c, i) = 0 := by
    unfold entry_size
    rw [dir_entry_addr_congr fs fs1 hb]
    apply le_load_bytes _ _ _ (by norm_num)
    intro j hj
    unfold dir_entry_addr
    have e : cluster_base fs c + i * DIR_ENTRY_SIZE + OFF_SIZE + j
        = cluster_base fs c + (i * DIR_ENTRY_SIZE + OFF_SIZE + j) := by omega
    rw [e, hmem c _ hc (by unfold DIR_ENTRY_SIZE OFF_SIZE at *; omega), if_pos rfl]
    exact f1 j hj
  have hhead32 : head < 2 ^ 32 := by
    unfold EOC_MIN at hmax
    omega
  have hfirst : entry_first_cluster fs1 (c, i) = head := by
    unfold entry_first_cluster
    rw [dir_entry_addr_congr fs fs1 hb]
    have e1 : le_load fs1.dev.mem (dir_entry_addr fs c i + OFF_HIGH) 2
        = EXTRACT_HIGH_CLUSTER head := by
      apply le_load_bytes2 _ _ _ (by unfold EXTRACT_HIGH_CLUSTER; omega)
      intro j hj
      unfold dir_entry_addr
      have e : cluster_base fs c + i * DIR_ENTRY_SIZE + OFF_HIGH + j
          = cluster_base fs c + (i * DIR_ENTRY_SIZE + OFF_HIGH + j) := by omega
      rw [e, hmem c _ hc (by unfold DIR_ENTRY_SIZE OFF_HIGH at *; omega), if_pos rfl]
      exact f2 j hj
    have e2 : le_load fs1.dev.mem (dir_entry_addr fs c i + OFF_LOW) 2
        = EXTRACT_LOW_CLUSTER head := by
      apply le_load_bytes2 _ _ _ (by unfold EXTRACT_LOW_CLUSTER; omega)
      intro j hj
      unfold dir_entry_addr
      have e : cluster_base fs c + i * DIR_ENTRY_SIZE + OFF_LOW + j
          = cluster_base fs c + (i * DIR_ENTRY_SIZE + OFF_LOW + j) := by omega
      rw [e, hmem c _ hc (by unfold DIR_ENTRY_SIZE OFF_LOW at *; omega), if_pos rfl]
      exact f3 j hj
    rw [e1, e2]
    exact DECODE_EXTRACT head hhead32
  have hchain1 : chain_length_is fs1 head 1 := by
    have hv : valid_cluster fs1 head := by
      apply (valid_cluster_congr fs fs1 hb (by rw [ht]; rfl) (by rw [ht]; rfl) head).mpr
      exact ⟨hh1, hh2, by omega⟩
    constructor
    · intro k hk
      have : k = 0 := by omega
      subst this
      exact hv
    · show is_eoc (fs1.table_chars.fatfs_begin head)
      rw [ht]
      simp [with_fat, fat_set, is_eoc, EOC_MIN, EOC_MAX]
  refine ⟨?_, hsize, by rw [hfirst]; exact hchain1⟩
  intro q hq
  rcases List.mem_cons.mp hq with e | hq'
  · subst e
    unfold file_chain_ok
    rw [hsize, hfirst]
    have e : file_clusters fs1 0 = 1 := file_clusters_zero fs1
    rw [e]
    exact hchain1
  · exact hold q hq'

/-- C12, as amended: on a volume with a sound geometry whose files `files`
(the places of their directory entries) are laid out as `files_ok` says, the
predicate "the chain of every file visits exactly
`max(1, ceil(size / cluster_size))` clusters before it reaches an
end-of-chain entry" (`chains_ok`) is kept by every successful operation.
`fatfs_create_file` (when the scan finds a free slot inside the scanned
sector, of a valid cluster, and the parsed name fits the name fields): it
holds for the old files and for the new one, which has the size 0 and a
chain of exactly one cluster.  `fatfs_write` to a writable file at an offset
up to its size (sizes below `2^32`, enough fuel and, when the write reaches
the end of the file, the allocation of the missing clusters succeeding and
one cluster fitting the array `dir_buf` of `directory_entry_num` entries):
the write returns `num_bytes` and the predicate holds afterwards.
`fatfs_truncate` and `fatfs_rename` that return 0: it holds afterwards; a
`fatfs_rename` whose transfer of one cluster does not fit its array `dir_buf`
of one sector has no result and is not covered.  `fatfs_remove` that returns
0: it holds for every other file. -/
theorem C12_chain_length_invariant (path_lookup : PathLookup) (fs : fatfs_state)
    (files : List (Nat × Nat))
    (hg : geometry_ok fs) (hf : files_ok fs files) (hinv : chains_ok fs files) :
    (∀ (fp : FilenameParser) (stack : Nat → Nat) (fuel : Nat) (fs1 : fatfs_state)
        (path : List Nat) (dirc c i : Nat) (fd fd2 : Nat → Nat),
      create_locate path_lookup stack fuel fs path = some (some (dirc, c, i, fd, fd2)) →
      i < FLOOR_DIV fs.bootrecord.sector_size DIR_ENTRY_SIZE →
      cluster_min fs ≤ c →
      ((path_without_name path).headD 0 ≠ 0 → cluster_min fs ≤ dirc) →
      (fp ((split_path path).getLastD [])).name_len ≤ 8 →
      (fp ((split_path path).getLastD [])).ext_len ≤ 3 →
      (c, i) ∉ files →
      fatfs_create_file path_lookup fp stack fuel fs path = some (1, fs1) →
      chains_ok fs1 ((c, i) :: files) ∧ entry_size fs1 (c, i) = 0 ∧
        chain_length_is fs1 (entry_first_cluster fs1 (c, i)) 1) ∧
    (∀ (fuel : Nat) (file : List Nat) (src : Nat → Nat) (offset num_bytes : Nat) (p : Nat × Nat),
      p ∈ files →
      path_lookup fs file 0 = lookup_entry p.1 p.2 fs file 0 →
      (path_lookup fs file 0).dir_ent.readonly = 0 →
      offset ≤ entry_size fs p →
      offset + num_bytes < 2 ^ 32 →
      (entry_size fs p ≤ offset + num_bytes →
        get_cluster_size fs ≤ fs.bootrecord.directory_entry_num * DIR_ENTRY_SIZE) →
      (entry_size fs p ≤ offset + num_bytes →
        (grow_links (cluster_min fs) (cluster_max fs)
          (CEIL_DIV (num_bytes_left num_bytes (file_length fs p * get_cluster_size fs - offset))
            (get_cluster_size fs))
          fs.table_chars.fatfs_begin (file_cluster fs p (file_length fs p - 1))).isSome = true) →
      entry_size fs p + file_length fs p + num_bytes < fuel →
      ∃ fs1, fatfs_write path_lookup fuel fs file (some src) offset num_bytes
          = some ⟨(num_bytes : Int), fs1, some src⟩ ∧ chains_ok fs1 files) ∧
    (∀ (fuel : Nat) (file : List Nat) (len : Nat) (p : Nat × Nat) (fs1 : fatfs_state),
      p ∈ files →
      path_lookup fs file 0 = lookup_entry p.1 p.2 fs file 0 →
      len < 2 ^ 32 →
      fatfs_truncate path_lookup fuel fs file len = some (0, fs1) →
      chains_ok fs1 files) ∧
    (∀ (path_old path_new : List Nat) (isdir : Nat) (fs1 : fatfs_state),
      fatfs_rename path_lookup fs path_old path_new isdir = some (0, fs1) →
      chains_ok fs1 files) ∧
    (∀ (fuel : Nat) (path : List Nat) (p : Nat × Nat) (fs1 : fatfs_state),
      p ∈ files →
      path_lookup fs path 0 = lookup_entry p.1 p.2 fs path 0 →
      fatfs_remove path_lookup fuel fs path = some (0, fs1) →
      ∀ q ∈ files, q ≠ p → file_chain_ok fs1 q) := by
  refine ⟨?_, ?_, ?_, ?_, ?_⟩
  · intro fp stack fuel fs1 path dirc c i fd fd2 hloc hi hc hdc hn1 hn2 hnew hsucc
    exact fatfs_create_file_chains path_lookup fp stack fuel fs fs1 path files dirc c i fd fd2
      hg hf hinv hloc hi hc hdc ⟨hn1, hn2⟩ hnew hsucc
  · intro fuel file src offset num_bytes p hp hlk hro hoff h32 hbuf halloc hfuel
    rcases Nat.lt_or_ge (offset + num_bytes) (entry_size fs p) with hlt | hge
    · exact fatfs_write_inplace_chains path_lookup fuel fs file src offset num_bytes files p hp
        hg hf hinv hlk hro hlt (by omega)
    · exact fatfs_write_extend_chains path_lookup fuel fs file src offset num_bytes files p hp
        hg hf hinv hlk hro hoff hge h32 (hbuf hge) (halloc hge) (by omega)
  · intro fuel file len p fs1 hp hlk h32 h
    exact fatfs_truncate_chains path_lookup fuel fs fs1 file len files p hp hg hf hinv hlk h32 h
  · intro path_old path_new isdir fs1 h
    exact fatfs_rename_chains path_lookup fs fs1 path_old path_new isdir files hg hf hinv h
  · intro fuel path p fs1 hp hlk h
    exact fatfs_remove_chains path_lookup fuel fs fs1 path files p hp hg hf hinv hlk h

/-- C12, witness: on `ex_fs2`, with the files `A.TXT` and `B.TXT`: the
creation of `/foo.txt`, the write of 13 bytes at offset 0 of the empty file
`B.TXT`, the write of 1000 bytes at offset 1000 of `A.TXT` (two clusters are
allocated), the write of 500 bytes at offset 100 of `A.TXT`, the truncation
of `A.TXT` to 13 bytes, its renaming to `/b.c` and its removal. -/
theorem C12_chain_length_invariant_witness :
    (∃ fs1, fatfs_create_file lookup_new_in_root parse_83 (fun _ => 0) 2000 ex_fs2 ex_path_foo
        = some (1, fs1) ∧ chains_ok fs1 [(2, 2), (2, 0), (2, 1)] ∧
      chain_length_is fs1 (entry_first_cluster fs1 (2, 2)) 1) ∧
    (∃ fs1, fatfs_write (lookup_entry 2 1) 2000 ex_fs2 ex_path_b (some ex_src) 0 13
        = some ⟨13, fs1, some ex_src⟩ ∧ chains_ok fs1 [(2, 0), (2, 1)]) ∧
    (∃ fs1, fatfs_write (lookup_entry 2 0) 4000 ex_fs2 ex_path (some ex_src) 1000 1000
        = some ⟨1000, fs1, some ex_src⟩ ∧ chains_ok fs1 [(2, 0), (2, 1)]) ∧
    (∃ fs1, fatfs_write (lookup_entry 2 0) 4000 ex_fs2 ex_path (some ex_src) 100 500
        = some ⟨500, fs1, some ex_src⟩ ∧ chains_ok fs1 [(2, 0), (2, 1)]) ∧
    (∃ fs1, fatfs_truncate (lookup_entry 2 0) 2000 ex_fs2 ex_path 13 = some (0, fs1) ∧
      chains_ok fs1 [(2, 0), (2, 1)]) ∧
    (∃ fs1, fatfs_rename (lookup_only ex_path 2 0) ex_fs2 ex_path ex_path_bc 0 = some (0, fs1) ∧
      chains_ok fs1 [(2, 0), (2, 1)]) ∧
    (∃ fs1, fatfs_remove (lookup_entry 2 0) 2000 ex_fs2 ex_path = some (0, fs1) ∧
      file_chain_ok fs1 (2, 1)) :=
  ⟨⟨_, rfl,
      ((C12_chain_length_invariant lookup_new_in_root ex_fs2 [(2, 0), (2, 1)]
        (by decide) (by decide) (by decide)).1 parse_83 (fun _ => 0) 2000 _ ex_path_foo 2 2 2 _ _
        rfl (by decide) (by decide) (by decide) (by decide) (by decide) (by decide) rfl).1,
      ((C12_chain_length_invariant lookup_new_in_root ex_fs2 [(2, 0), (2, 1)]
        (by decide) (by decide) (by decide)).1 parse_83 (fun _ => 0) 2000 _ ex_path_foo 2 2 2 _ _
        rfl (by decide) (by decide) (by decide) (by decide) (by decide) (by decide) rfl).2.2⟩,
    (C12_chain_length_invariant (lookup_entry 2 1) ex_fs2 [(2, 0), (2, 1)]
      (by decide) (by decide) (by decide)).2.1 2000 ex_path_b ex_src 0 13 (2, 1)
      (by decide) rfl (by decide) (by decide) (by decide) (fun _ => by decide)
      (fun _ => by decide) (by decide),
    (C12_chain_length_invariant (lookup_entry 2 0) ex_fs2 [(2, 0), (2, 1)]
      (by decide) (by decide) (by decide)).2.1 4000 ex_path ex_src 1000 1000 (2, 0)
      (by decide) rfl (by decide) (by decide) (by decide) (fun _ => by decide)
      (fun _ => by decide) (by decide),
    (C12_chain_length_invariant (lookup_entry 2 0) ex_fs2 [(2, 0), (2, 1)]
      (by decide) (by decide) (by decide)).2.1 4000 ex_path ex_src 100 500 (2, 0)
      (by decide) rfl (by decide) (by decide) (by decide) (fun _ => by decide)
      (fun h => absurd h (by decide)) (by decide),
    ⟨_, rfl,
      (C12_chain_length_invariant (lookup_entry 2 0) ex_fs2 [(2, 0), (2, 1)]
        (by decide) (by decide) (by decide)).2.2.1 2000 ex_path 13 (2, 0) _
        (by decide) rfl (by decide) rfl⟩,
    ⟨_, rfl,
      (C12_chain_length_invariant (lookup_only ex_path 2 0) ex_fs2 [(2, 0), (2, 1)]
        (by decide) (by decide) (by decide)).2.2.2.1 ex_path ex_path_bc 0 _ rfl⟩,
    ⟨_, rfl,
      (C12_chain_length_invariant (lookup_entry 2 0) ex_fs2 [(2, 0), (2, 1)]
        (by decide) (by decide) (by decide)).2.2.2.2 2000 ex_path (2, 0) _
        (by decide) rfl rfl (2, 1) (by decide) (by decide)⟩⟩

end Fatfs
